import Mathlib

/-!
Record / replay subsystem of bzfs.

A shallow embedding of `src/bzfs/RecordReplay.cxx`.

* Machine integers are naturals reduced modulo `2^16` / `2^32`; `RRtime`
  (a signed 64-bit integer) is an `Int`, wrapped by `wrapS64` where the
  source converts to it.
* Bytes are naturals below 256; a `char` buffer is a `List Nat`.
* The packet store is embedded twice: namespace `Linked` keeps the `next` /
  `prev` pointers of the source over an explicit heap; the session-level
  functions use the list of packets that the pointer structure represents.
* Constants that live in headers outside `src/` (`MaxPacketLen`, message
  codes, packet modes, ...) and the data model of the compiler (`sizeof`)
  are fields of `Consts`.
* A cursor (`ReplayPos`, the `p` of a loop) is a position in the list of
  packets. Operations that follow a pointer the source does not test
  (`Record::saveBuffer`, `Replay::play`, `Replay::skip`,
  `Replay::sendPackets`) return an `Option`, `none` standing for a read
  through a null pointer or through a cursor that is not in the buffer.
-/

namespace RecordReplay

/-! ## Compile-time constants -/

/-- Constants the translation unit takes from headers that are not part of
the examined sources, together with the C data model (`sizeof` and alignment
of pointers and of the 64-bit `RRtime`). -/
structure Consts where
  /-- sizeof(void*) -/
  sizeofPtr : Nat
  /-- alignment of a pointer inside a struct -/
  alignofPtr : Nat
  /-- alignment of `s64` inside a struct -/
  alignofS64 : Nat
  /-- maximum protocol message size (`MaxPacketLen`) -/
  MaxPacketLen : Nat
  CallSignLen : Nat
  EmailLen : Nat
  MessageLen : Nat
  MaxPlayers : Nat
  ReplayObservers : Nat
  /-- packed size of a flag (`FlagPLen`) -/
  FlagPLen : Nat
  /-- enum ReplayPacketMode of RecordReplay.h -/
  RealPacket : Nat
  StatePacket : Nat
  HiddenPacket : Nat
  MsgTeamUpdate : Nat
  MsgFlagUpdate : Nat
  MsgNewRabbit : Nat
  MsgAddPlayer : Nat
  MsgAdminInfo : Nat
  MsgSetVar : Nat
  MsgReplayReset : Nat
deriving DecidableEq, Repr

/-- Round `off` up to a multiple of `a`. -/
def alignUp (off a : Nat) : Nat := ((off + a - 1) / a) * a

/-- Size of a C struct whose members have the given (size, alignment), laid
out in declaration order with natural padding. -/
def structSize (fields : List (Nat × Nat)) : Nat :=
  alignUp (fields.foldl (fun off f => alignUp off f.2 + f.1) 0)
    (fields.foldl (fun a f => max a f.2) 1)

/-- The members of `struct RRpacket`: next, prev, mode, code, len, prev_len,
timestamp, data. -/
def RRpacketFields (K : Consts) : List (Nat × Nat) :=
  [(K.sizeofPtr, K.alignofPtr), (K.sizeofPtr, K.alignofPtr), (2, 2), (2, 2),
   (4, 4), (4, 4), (8, K.alignofS64), (K.sizeofPtr, K.alignofPtr)]

/-- sizeof(RRpacket) -/
def sizeofRRpacket (K : Consts) : Nat := structSize (RRpacketFields K)

/-- The constant `RRpacketHdrSize = sizeof(RRpacket) - (2 * sizeof(RRpacket*) - sizeof(void*))`. -/
def RRpacketHdrSize (K : Consts) : Nat :=
  sizeofRRpacket K - (2 * K.sizeofPtr - K.sizeofPtr)

/-- The members of `ReplayHeader`. -/
def ReplayHeaderFields (K : Consts) : List (Nat × Nat) :=
  [(4, 4), (4, 4), (4, 4), (4, 4), (4, 4), (4, 4), (4, 4),
   (K.CallSignLen, 1), (K.EmailLen, 1), (8, 1), (K.MessageLen, 1), (64, 1),
   (K.sizeofPtr, K.alignofPtr), (K.sizeofPtr, K.alignofPtr)]

/-- The constant `ReplayHeaderSize = sizeof(ReplayHeader) - (2 * sizeof(char*))`. -/
def ReplayHeaderSize (K : Consts) : Nat :=
  structSize (ReplayHeaderFields K) - 2 * K.sizeofPtr

/-- The values of the bzflag headers of the time on an LP64 host. -/
def lp64 : Consts :=
  { sizeofPtr := 8, alignofPtr := 8, alignofS64 := 8,
    MaxPacketLen := 1024, CallSignLen := 32, EmailLen := 128, MessageLen := 128,
    MaxPlayers := 200, ReplayObservers := 16, FlagPLen := 55,
    RealPacket := 0, StatePacket := 1, HiddenPacket := 2,
    MsgTeamUpdate := 0x7475, MsgFlagUpdate := 0x6675, MsgNewRabbit := 0x6e52,
    MsgAddPlayer := 0x6170, MsgAdminInfo := 0x6169, MsgSetVar := 0x7376,
    MsgReplayReset := 0x7272 }

/-- The same headers on an ILP32 host (i386: 4-byte pointers, `s64` aligned
to 4 inside structs). -/
def ilp32 : Consts :=
  { lp64 with sizeofPtr := 4, alignofPtr := 4, alignofS64 := 4 }

/-! ## The packet store over pointers -/

namespace Linked

/-- A `RRpacket*`; the null pointer is `none : Option Ptr`. -/
abbrev Ptr := Nat

/-- The `RRpacket` struct. -/
structure RRpacket where
  next : Option Ptr
  prev : Option Ptr
  mode : Nat
  code : Nat
  len : Nat
  prev_len : Nat
  timestamp : Int
  data : List Nat

/-- The `RRbuffer` struct. -/
structure RRbuffer where
  byteCount : Nat
  packetCount : Nat
  head : Option Ptr
  tail : Option Ptr

/-- The free store: what each address holds. -/
abbrev Heap := Ptr → RRpacket

/-- Bytes `initPacket` / `newPacket` store in a packet. -/
structure Contents where
  mode : Nat
  code : Nat
  len : Nat
  timestamp : Int
  data : List Nat
deriving DecidableEq, Repr

/-- The payload part of a packet, without its links. -/
def RRpacket.contents (n : RRpacket) : Contents :=
  { mode := n.mode, code := n.code, len := n.len, timestamp := n.timestamp, data := n.data }

/-- Source `addPacket (RRbuffer *b, RRpacket *p)`: add to head. -/
def addPacket (K : Consts) (h : Heap) (b : RRbuffer) (p : Ptr) : Heap × RRbuffer :=
  let h1 : Heap := match b.head with
    | some hd => Function.update h hd { h hd with next := some p }
    | none => h
  let tail := match b.head with
    | some _ => b.tail
    | none => some p
  let h2 : Heap := Function.update h1 p { h1 p with prev := b.head, next := none }
  (h2, { byteCount := (b.byteCount + ((h2 p).len + RRpacketHdrSize K) % 2 ^ 32) % 2 ^ 32,
         packetCount := (b.packetCount + 1) % 2 ^ 32,
         head := some p,
         tail := tail })

/-- Source `delPacket (RRbuffer *b)`: delete from the tail; returns the detached
packet, or NULL when the buffer is empty. -/
def delPacket (K : Consts) (h : Heap) (b : RRbuffer) : Option Ptr × Heap × RRbuffer :=
  match b.tail with
  | none => (none, h, b)
  | some p =>
    let bc := (b.byteCount + 2 ^ 32 - ((h p).len + RRpacketHdrSize K) % 2 ^ 32) % 2 ^ 32
    let pc := (b.packetCount + 2 ^ 32 - 1) % 2 ^ 32
    match (h p).next with
    | some n =>
      (some p, Function.update h n { h n with prev := none },
        { byteCount := bc, packetCount := pc, head := b.head, tail := some n })
    | none =>
      (some p, h, { byteCount := bc, packetCount := pc, head := none, tail := none })

/-- The heap with its allocation frontier: addresses from `brk` on are free. -/
structure Store where
  heap : Heap
  brk : Ptr
  buf : RRbuffer

/-- Source `newPacket (mode, code, len, data)`: a fresh packet holding a copy of the
first `len` bytes of `data`; `timestamp` and `prev_len` are left as found. -/
def newPacket (s : Store) (mode code len : Nat) (data : List Nat) : Ptr × Store :=
  (s.brk,
   { s with
     heap := Function.update s.heap s.brk
       { s.heap s.brk with
         next := none, prev := none, mode := mode % 2 ^ 16, code := code % 2 ^ 16,
         len := len % 2 ^ 32, data := data.take len },
     brk := s.brk + 1 })

/-- One call on the store: an append of a new packet stamped `ts` (as
`routePacket` and `Replay::loadFile` do it), or a `delPacket`. -/
inductive Op where
  | add (mode code len : Nat) (data : List Nat) (ts : Int)
  | del

/-- Run one call; the second component is what `delPacket` returned. -/
def step (K : Consts) (s : Store) : Op → Store × Option Ptr
  | .add mode code len data ts =>
    let (p, s1) := newPacket s mode code len data
    let h1 : Heap := Function.update s1.heap p { s1.heap p with timestamp := ts }
    let (h2, b2) := addPacket K h1 s1.buf p
    ({ s1 with heap := h2, buf := b2 }, none)
  | .del =>
    let (r, h1, b1) := delPacket K s.heap s.buf
    ({ s with heap := h1, buf := b1 }, r)

/-- The initially empty buffer `{0, 0, NULL, NULL}` over any heap. -/
def emptyStore (h : Heap) : Store :=
  { heap := h, brk := 0, buf := { byteCount := 0, packetCount := 0, head := none, tail := none } }

/-- Run a sequence of calls from the empty buffer. -/
def run (K : Consts) (h : Heap) (ops : List Op) : Store :=
  ops.foldl (fun s op => (step K s op).1) (emptyStore h)

/-- What the claim's words say the store holds after `ops`: the appended
packets not yet evicted, oldest first. -/
def live : List Op → List Contents
  | ops => ops.foldl (fun l op =>
      match op with
      | .add mode code len data ts =>
        l ++ [{ mode := mode % 2 ^ 16, code := code % 2 ^ 16, len := len % 2 ^ 32,
                timestamp := ts, data := data.take len }]
      | .del => l.tail) []

/-- Reading of `Chain h prev cur ps last`: following `next` from `cur` visits exactly
the addresses `ps`, each node's `prev` is the node before it (`prev` for the
first), the last node's `next` is NULL, and `last` is the last node visited
(`prev` when there is none). -/
def Chain (h : Heap) : Option Ptr → Option Ptr → List Ptr → Option Ptr → Prop
  | prev, cur, [], last => cur = none ∧ last = prev
  | prev, cur, p :: ps, last =>
    cur = some p ∧ (h p).prev = prev ∧ Chain h (some p) (h p).next ps last


/-! ### Facts about chains -/

theorem chain_congr {h h1 : Heap} :
    ∀ (ps : List Ptr) (prev cur last : Option Ptr), (∀ p ∈ ps, h1 p = h p) →
      Chain h prev cur ps last → Chain h1 prev cur ps last := by
  intro ps
  induction ps with
  | nil => intro prev cur last _ hc; exact hc
  | cons q ps ih =>
    intro prev cur last hag hc
    obtain ⟨h1c, h2c, h3c⟩ := hc
    have hq : h1 q = h q := hag q (List.mem_cons_self _ _)
    refine ⟨h1c, by rw [hq]; exact h2c, ?_⟩
    rw [hq]
    exact ih _ _ _ (fun p hp => hag p (List.mem_cons_of_mem _ hp)) h3c

theorem chain_last_mem {h : Heap} :
    ∀ (ps : List Ptr) (prev cur last : Option Ptr), Chain h prev cur ps last → ps ≠ [] →
      ∃ l, last = some l ∧ l ∈ ps := by
  intro ps
  induction ps with
  | nil => intro _ _ _ _ hne; exact absurd rfl hne
  | cons q ps ih =>
    intro prev cur last hc _
    obtain ⟨_, _, h3c⟩ := hc
    cases ps with
    | nil => exact ⟨q, h3c.2, List.mem_cons_self _ _⟩
    | cons r rs =>
      obtain ⟨l, hl, hm⟩ := ih _ _ _ h3c (by simp)
      exact ⟨l, hl, List.mem_cons_of_mem _ hm⟩

/-- The heap after the three pointer stores of `addPacket`. -/
def linkHead (h : Heap) (last : Option Ptr) (p : Ptr) : Heap :=
  let h1 : Heap := match last with
    | some hd => Function.update h hd { h hd with next := some p }
    | none => h
  Function.update h1 p { h1 p with prev := last, next := none }

theorem linkHead_self (h : Heap) (last : Option Ptr) (p : Ptr) :
    (linkHead h last p p).prev = last ∧ (linkHead h last p p).next = none ∧
      (linkHead h last p p).contents = (h p).contents := by
  unfold linkHead
  cases last with
  | none => simp [RRpacket.contents]
  | some hd =>
    by_cases hp : p = hd
    · subst hp; simp [RRpacket.contents]
    · simp [RRpacket.contents, Function.update_noteq hp]

theorem linkHead_other (h : Heap) (last : Option Ptr) (p q : Ptr) (hq : q ≠ p) :
    (linkHead h last p q).prev = (h q).prev ∧
      (linkHead h last p q).contents = (h q).contents ∧
      (linkHead h last p q).next = if last = some q then some p else (h q).next := by
  unfold linkHead
  cases last with
  | none => simp [Function.update_noteq hq]
  | some hd =>
    by_cases hd' : q = hd
    · subst hd'; simp [Function.update_noteq hq, RRpacket.contents]
    · have : hd ≠ q := fun e => hd' e.symm
      simp [Function.update_noteq hq, Function.update_noteq hd', this]

theorem chain_snoc {h : Heap} {p : Ptr} {last : Option Ptr} :
    ∀ (ps : List Ptr) (prev cur : Option Ptr), Chain h prev cur ps last → (p :: ps).Nodup →
      Chain (linkHead h last p) prev (if ps = [] then some p else cur) (ps ++ [p]) (some p) := by
  intro ps
  induction ps with
  | nil =>
    intro prev cur hc _
    obtain ⟨_, hl⟩ := hc
    obtain ⟨a, b, _⟩ := linkHead_self h last p
    exact ⟨rfl, by rw [a, hl], by rw [b]; exact ⟨rfl, rfl⟩⟩
  | cons q ps ih =>
    intro prev cur hc nd
    obtain ⟨h1c, h2c, h3c⟩ := hc
    have hqp : q ≠ p := by
      intro e; subst e; simp at nd
    have nd1 : (p :: ps).Nodup := by
      rw [List.nodup_cons] at nd ⊢
      obtain ⟨a, b⟩ := nd
      rw [List.nodup_cons] at b
      exact ⟨fun hm => a (List.mem_cons_of_mem _ hm), b.2⟩
    have hqps : q ∉ ps := by
      rw [List.nodup_cons] at nd
      have := nd.2
      rw [List.nodup_cons] at this
      exact this.1
    obtain ⟨a, _, c⟩ := linkHead_other h last p q hqp
    have key := ih (some q) (h q).next h3c nd1
    have hnext : (linkHead h last p q).next = if ps = [] then some p else (h q).next := by
      rw [c]
      by_cases hps : ps = []
      · subst hps
        have : last = some q := h3c.2
        simp [this]
      · obtain ⟨l, hl, hm⟩ := chain_last_mem ps _ _ _ h3c hps
        have : last ≠ some q := by
          rw [hl]; intro e
          exact hqps (by cases e; exact hm)
        simp [this, hps]
    refine ⟨by simpa using h1c, by rw [a]; exact h2c, ?_⟩
    rw [hnext]
    exact key

theorem chain_unlink {h : Heap} {p : Ptr} {ps : List Ptr} {last : Option Ptr}
    (hc : Chain h none (some p) (p :: ps) last) (nd : (p :: ps).Nodup) :
    match (h p).next with
    | some n => ∃ qs, ps = n :: qs ∧
        Chain (Function.update h n { h n with prev := none }) none (some n) ps last
    | none => ps = [] ∧ last = some p := by
  obtain ⟨_, _, h3c⟩ := hc
  cases ps with
  | nil =>
    obtain ⟨a, b⟩ := h3c
    rw [a]; exact ⟨rfl, b⟩
  | cons n qs =>
    obtain ⟨a, _, c⟩ := h3c
    rw [a]
    refine ⟨qs, rfl, rfl, by simp, ?_⟩
    have hn : n ∉ qs := by
      rw [List.nodup_cons] at nd
      have := nd.2
      rw [List.nodup_cons] at this
      exact this.1
    have : (Function.update h n { h n with prev := none } n).next = (h n).next := by simp
    rw [this]
    refine chain_congr qs _ _ _ ?_ c
    intro r hr
    have : r ≠ n := fun e => hn (e ▸ hr)
    simp [Function.update_noteq this]


/-- Representation invariant of the packet store: the pointers of `s.buf`
form a chain through fresh, pairwise distinct nodes whose contents are `l`,
and the two counters are the count and byte total of `l` as `u32`. -/
def Rep (K : Consts) (s : Store) (l : List Contents) : Prop :=
  ∃ ps : List Ptr,
    Chain s.heap none s.buf.tail ps s.buf.head ∧ ps.Nodup ∧ (∀ p ∈ ps, p < s.brk) ∧
    ps.map (fun p => (s.heap p).contents) = l ∧
    s.buf.packetCount = l.length % 2 ^ 32 ∧
    s.buf.byteCount = (l.map (fun c => c.len + RRpacketHdrSize K)).sum % 2 ^ 32

theorem rep_empty (K : Consts) (h : Heap) : Rep K (emptyStore h) [] :=
  ⟨[], ⟨rfl, rfl⟩, List.nodup_nil, by simp, rfl, rfl, rfl⟩

theorem rep_add (K : Consts) (s : Store) (l : List Contents) (hr : Rep K s l)
    (mode code len : Nat) (data : List Nat) (ts : Int) :
    Rep K (step K s (.add mode code len data ts)).1
      (l ++ [{ mode := mode % 2 ^ 16, code := code % 2 ^ 16, len := len % 2 ^ 32,
               timestamp := ts, data := data.take len }]) := by
  obtain ⟨ps, hc, nd, hlt, hmap, hpc, hbc⟩ := hr
  -- the heap once the new packet is initialised and stamped
  set h0 : Heap := Function.update
      (Function.update s.heap s.brk
        { s.heap s.brk with
          next := none, prev := none, mode := mode % 2 ^ 16, code := code % 2 ^ 16,
          len := len % 2 ^ 32, data := data.take len }) s.brk
      { (Function.update s.heap s.brk
          { s.heap s.brk with
            next := none, prev := none, mode := mode % 2 ^ 16, code := code % 2 ^ 16,
            len := len % 2 ^ 32, data := data.take len }) s.brk with timestamp := ts } with hh0
  have hfresh : s.brk ∉ ps := fun hm => Nat.lt_irrefl _ (hlt _ hm)
  have hag : ∀ p ∈ ps, h0 p = s.heap p := by
    intro p hp
    have : p ≠ s.brk := fun e => hfresh (e ▸ hp)
    simp [hh0, Function.update_noteq this]
  have hc0 : Chain h0 none s.buf.tail ps s.buf.head := chain_congr ps _ _ _ hag hc
  have nd1 : (s.brk :: ps).Nodup := List.nodup_cons.mpr ⟨hfresh, nd⟩
  have hsn := chain_snoc ps none s.buf.tail hc0 nd1
  have hstep : (step K s (.add mode code len data ts)).1 =
      { heap := linkHead h0 s.buf.head s.brk, brk := s.brk + 1,
        buf := { byteCount := (s.buf.byteCount +
                    ((linkHead h0 s.buf.head s.brk s.brk).len + RRpacketHdrSize K) % 2 ^ 32) % 2 ^ 32,
                 packetCount := (s.buf.packetCount + 1) % 2 ^ 32,
                 head := some s.brk,
                 tail := match s.buf.head with
                   | some _ => s.buf.tail
                   | none => some s.brk } } := rfl
  rw [hstep]
  obtain ⟨_, _, hcont⟩ := linkHead_self h0 s.buf.head s.brk
  have hcont0 : (h0 s.brk).contents =
      { mode := mode % 2 ^ 16, code := code % 2 ^ 16, len := len % 2 ^ 32,
        timestamp := ts, data := data.take len } := by
    simp [hh0, RRpacket.contents]
  have hlen : (linkHead h0 s.buf.head s.brk s.brk).len = len % 2 ^ 32 := by
    have := congrArg Contents.len (hcont.trans hcont0)
    simpa [RRpacket.contents] using this
  have htail : (match s.buf.head with
                   | some _ => s.buf.tail
                   | none => some s.brk) = (if ps = [] then some s.brk else s.buf.tail) := by
    by_cases hps : ps = []
    · subst hps
      have : s.buf.head = none := hc.2
      simp [this]
    · obtain ⟨l1, hl1, _⟩ := chain_last_mem ps _ _ _ hc hps
      simp [hl1, hps]
  refine ⟨ps ++ [s.brk], ?_, ?_, ?_, ?_, ?_, ?_⟩
  · show Chain _ none _ _ (some s.brk)
    rw [htail]; exact hsn
  · rw [List.nodup_append]
    refine ⟨nd, by simp, ?_⟩
    intro a ha hb
    simp at hb
    subst hb
    exact hfresh ha
  · intro p hp
    simp only [List.mem_append, List.mem_singleton] at hp
    show p < s.brk + 1
    rcases hp with hp | hp
    · exact Nat.lt_succ_of_lt (hlt p hp)
    · rw [hp]; exact Nat.lt_succ_self _
  · show List.map (fun p => (linkHead h0 s.buf.head s.brk p).contents) (ps ++ [s.brk]) = _
    rw [List.map_append, ← hmap]
    congr 1
    · apply List.map_congr_left
      intro p hp
      have hne : p ≠ s.brk := fun e => hfresh (e ▸ hp)
      rw [(linkHead_other h0 s.buf.head s.brk p hne).2.1, hag p hp]
    · simp [hcont, hcont0]
  · show (s.buf.packetCount + 1) % 2 ^ 32 = _
    rw [hpc]; simp [Nat.add_mod]
  · show (s.buf.byteCount + _ % 2 ^ 32) % 2 ^ 32 = _
    rw [hlen, hbc]
    simp only [List.map_append, List.sum_append, List.map_cons, List.map_nil, List.sum_cons,
      List.sum_nil, Nat.add_zero]
    omega


theorem rep_del (K : Consts) (s : Store) (l : List Contents) (hr : Rep K s l) :
    Rep K (step K s .del).1 l.tail ∧
    (l = [] → delPacket K s.heap s.buf = (none, s.heap, s.buf)) ∧
    (∀ c rest, l = c :: rest →
      ∃ p, (delPacket K s.heap s.buf).1 = some p ∧ s.buf.tail = some p ∧
         (s.heap p).contents = c ∧ ((delPacket K s.heap s.buf).2.1 p).contents = c) := by
  suffices hsuff : Rep K (step K s .del).1 l.tail ∧
      (match l with
       | [] => delPacket K s.heap s.buf = (none, s.heap, s.buf)
       | c :: _ => ∃ p, (delPacket K s.heap s.buf).1 = some p ∧ s.buf.tail = some p ∧
         (s.heap p).contents = c ∧ ((delPacket K s.heap s.buf).2.1 p).contents = c) by
    refine ⟨hsuff.1, ?_, ?_⟩
    · intro hl; subst hl; exact hsuff.2
    · intro c rest hl; subst hl; exact hsuff.2
  obtain ⟨ps, hc, nd, hlt, hmap, hpc, hbc⟩ := hr
  cases ps with
  | nil =>
    have ht : s.buf.tail = none := hc.1
    have hl : l = [] := by simpa using hmap.symm
    subst hl
    have hd : delPacket K s.heap s.buf = (none, s.heap, s.buf) := by
      simp [delPacket, ht]
    have hs : (step K s .del).1 = s := by
      simp [step, hd]
    refine ⟨?_, hd⟩
    rw [hs]
    exact ⟨[], hc, nd, hlt, rfl, hpc, hbc⟩
  | cons p qs =>
    have ht : s.buf.tail = some p := hc.1
    cases l with
    | nil => simp at hmap
    | cons c l1 =>
      simp only [List.map_cons, List.cons.injEq] at hmap
      obtain ⟨hcp, hmap1⟩ := hmap
      have hlen : (s.heap p).len = c.len := by rw [← hcp]; rfl
      have hpc1 : (s.buf.packetCount + 2 ^ 32 - 1) % 2 ^ 32 = l1.length % 2 ^ 32 := by
        rw [hpc]; simp only [List.length_cons]; omega
      have hbc1 : (s.buf.byteCount + 2 ^ 32 - ((s.heap p).len + RRpacketHdrSize K) % 2 ^ 32) % 2 ^ 32
          = (l1.map (fun c => c.len + RRpacketHdrSize K)).sum % 2 ^ 32 := by
        rw [hbc, hlen]
        simp only [List.map_cons, List.sum_cons]
        omega
      have hun := chain_unlink (ht ▸ hc) nd
      have hpq : p ∉ qs := (List.nodup_cons.mp nd).1
      have ndq : qs.Nodup := (List.nodup_cons.mp nd).2
      cases hnx : (s.heap p).next with
      | none =>
        rw [hnx] at hun
        obtain ⟨hq, _⟩ := hun
        subst hq
        have hd : delPacket K s.heap s.buf = (some p, s.heap,
            { byteCount := (s.buf.byteCount + 2 ^ 32 -
                ((s.heap p).len + RRpacketHdrSize K) % 2 ^ 32) % 2 ^ 32,
              packetCount := (s.buf.packetCount + 2 ^ 32 - 1) % 2 ^ 32,
              head := none, tail := none }) := by
          simp [delPacket, ht, hnx]
        have hl1 : l1 = [] := by simpa using hmap1.symm
        subst hl1
        refine ⟨⟨[], ?_, List.nodup_nil, by simp, rfl, ?_, ?_⟩, p, ?_, ht, hcp, ?_⟩
        · simp only [step, hd]; exact ⟨rfl, rfl⟩
        · simp only [step, hd]; exact hpc1
        · simp only [step, hd]; exact hbc1
        · rw [hd]
        · rw [hd]; exact hcp
      | some n =>
        rw [hnx] at hun
        obtain ⟨rs, hq, hch⟩ := hun
        have hd : delPacket K s.heap s.buf = (some p,
            Function.update s.heap n { s.heap n with prev := none },
            { byteCount := (s.buf.byteCount + 2 ^ 32 -
                ((s.heap p).len + RRpacketHdrSize K) % 2 ^ 32) % 2 ^ 32,
              packetCount := (s.buf.packetCount + 2 ^ 32 - 1) % 2 ^ 32,
              head := s.buf.head, tail := some n }) := by
          simp [delPacket, ht, hnx]
        have hcont : ∀ q, (Function.update s.heap n { s.heap n with prev := none } q).contents
            = (s.heap q).contents := by
          intro q
          by_cases hqn : q = n
          · subst hqn; simp [RRpacket.contents]
          · simp [Function.update_noteq hqn]
        refine ⟨⟨qs, ?_, ndq, ?_, ?_, ?_, ?_⟩, p, ?_, ht, hcp, ?_⟩
        · simp only [step, hd]; exact hch
        · intro q hq1
          simp only [step, hd]
          exact hlt q (List.mem_cons_of_mem _ hq1)
        · simp only [step, hd, List.tail_cons]
          rw [← hmap1]
          exact List.map_congr_left (fun q _ => hcont q)
        · simp only [step, hd]; exact hpc1
        · simp only [step, hd]; exact hbc1
        · rw [hd]
        · rw [hd]; show (Function.update s.heap n _ p).contents = c
          rw [hcont p]; exact hcp

theorem run_snoc (K : Consts) (h : Heap) (ops : List Op) (op : Op) :
    run K h (ops ++ [op]) = (step K (run K h ops) op).1 := by
  simp [run, List.foldl_append]

theorem live_snoc_add (ops : List Op) (mode code len : Nat) (data : List Nat) (ts : Int) :
    live (ops ++ [.add mode code len data ts]) =
      live ops ++ [{ mode := mode % 2 ^ 16, code := code % 2 ^ 16, len := len % 2 ^ 32,
                     timestamp := ts, data := data.take len }] := by
  simp [live, List.foldl_append]

theorem live_snoc_del (ops : List Op) : live (ops ++ [.del]) = (live ops).tail := by
  simp [live, List.foldl_append]

theorem rep_run (K : Consts) (h : Heap) (ops : List Op) : Rep K (run K h ops) (live ops) := by
  induction ops using List.reverseRecOn with
  | nil => exact rep_empty K h
  | append_singleton ops op ih =>
    rw [run_snoc]
    cases op with
    | add mode code len data ts =>
      rw [live_snoc_add]
      exact rep_add K _ _ ih mode code len data ts
    | del =>
      rw [live_snoc_del]
      exact (rep_del K _ _ ih).1

/-- C1. Packet store representation invariant. After any sequence of appends
of new packets and `delPacket` calls on the initially empty buffer, following
`next` from `tail` visits pairwise distinct nodes whose contents are exactly
the appended packets not yet evicted, oldest first, with `prev` linking them
backwards and `head` the newest; `packetCount` is their number and
`byteCount` the sum of `len + RRpacketHdrSize`, both as `u32` (modulo
`2^32`); `delPacket` then returns the oldest of them, or NULL with heap and
buffer unchanged when there is none. -/
theorem packet_store_invariant (K : Consts) (h : Heap) (ops : List Op) :
    (∃ ps : List Ptr,
      Chain (run K h ops).heap none (run K h ops).buf.tail ps (run K h ops).buf.head ∧
      ps.Nodup ∧
      ps.map (fun p => ((run K h ops).heap p).contents) = live ops) ∧
    (run K h ops).buf.packetCount = (live ops).length % 2 ^ 32 ∧
    (run K h ops).buf.byteCount =
      ((live ops).map (fun c => c.len + RRpacketHdrSize K)).sum % 2 ^ 32 ∧
    (live ops = [] → delPacket K (run K h ops).heap (run K h ops).buf
               = (none, (run K h ops).heap, (run K h ops).buf)) ∧
    (∀ c rest, live ops = c :: rest →
      ∃ p, (delPacket K (run K h ops).heap (run K h ops).buf).1 = some p ∧
         (run K h ops).buf.tail = some p ∧ ((run K h ops).heap p).contents = c ∧
         ((delPacket K (run K h ops).heap (run K h ops).buf).2.1 p).contents = c) := by
  have hr := rep_run K h ops
  have hd := (rep_del K _ _ hr).2
  obtain ⟨ps, hc, nd, _, hmap, hpc, hbc⟩ := hr
  exact ⟨⟨ps, hc, nd, hmap⟩, hpc, hbc, hd⟩

end Linked

/-! ## Machine arithmetic, byte packing, stdio -/

/-- Conversion to the signed 64-bit `RRtime` (two's complement). -/
def wrapS64 (x : Int) : Int := (x + 2 ^ 63) % 2 ^ 64 - 2 ^ 63

/-- Conversion to a signed 32-bit `int` (two's complement). -/
def wrapS32 (x : Int) : Int := (x + 2 ^ 31) % 2 ^ 32 - 2 ^ 31

/-- Modelled from the spec: Pack.h is not among the sources; one byte. -/
def nboPackUByte (v : Nat) : List Nat := [v % 256]

/-- Modelled from the spec: Pack.h is not among the sources; a 16-bit value in
network byte order (most significant byte first). -/
def nboPackUShort (v : Nat) : List Nat := [v / 256 % 256, v % 256]

/-- Modelled from the spec: Pack.h is not among the sources; a 32-bit value in
network byte order (most significant byte first). -/
def nboPackUInt (v : Nat) : List Nat :=
  [v / 16777216 % 256, v / 65536 % 256, v / 256 % 256, v % 256]

/-- Modelled from the spec: Pack.h is not among the sources; the `n` bytes of
a character array, copied as they are. Bytes past the end of `str` (an
over-read in the source) read as 0. -/
def nboPackString (str : List Nat) (n : Nat) : List Nat :=
  (str ++ List.replicate n 0).take n

/-- Modelled from the spec: Pack.h is not among the sources; reads the 16-bit
value at offset `off` of `buf`. -/
def nboUnpackUShort (buf : List Nat) (off : Nat) : Nat :=
  buf.getD off 0 * 256 + buf.getD (off + 1) 0

/-- Modelled from the spec: Pack.h is not among the sources; reads the 32-bit
value at offset `off` of `buf`. -/
def nboUnpackUInt (buf : List Nat) (off : Nat) : Nat :=
  buf.getD off 0 * 16777216 + buf.getD (off + 1) 0 * 65536 + buf.getD (off + 2) 0 * 256
    + buf.getD (off + 3) 0

/-- Modelled from the spec: Pack.h is not among the sources; reads the `n`
bytes at offset `off` of `buf`. -/
def nboUnpackString (buf : List Nat) (off n : Nat) : List Nat :=
  (buf.drop off).take n

/-- The characters of a C string: the bytes before the first NUL. -/
def cstr (str : List Nat) : List Nat := str.takeWhile (fun c => c ≠ 0)

/-- C `strncpy (dst, src, n)`: the string, cut after `n` bytes or padded with NULs to `n`. -/
def strncpy (src : List Nat) (n : Nat) : List Nat :=
  ((cstr src) ++ List.replicate n 0).take n

/-- A `FILE*` opened with "wb": the bytes written so far and how many more
the device will take (a write beyond that fails). -/
structure WFile where
  name : List Char
  bytes : List Nat
  room : Nat
deriving DecidableEq, Repr

/-- A `FILE*` opened with "rb": the bytes not yet read. -/
structure RFile where
  name : List Char
  rest : List Nat
deriving DecidableEq, Repr

/-- C `fwrite (data, size, 1, f)`: the number of items written, 0 or 1. A `size`
of 0 writes nothing and returns 0, as the C standard has it. Bytes past the
end of `data` (an over-read in the source) read as 0. -/
def fwrite (data : List Nat) (size : Nat) (f : WFile) : Nat × WFile :=
  if size = 0 then (0, f)
  else if size ≤ f.room then
    (1, { f with bytes := f.bytes ++ (data ++ List.replicate size 0).take size,
                 room := f.room - size })
  else (0, f)

/-- C `fread (buf, size, 1, f)`: the item read, if a whole one was there. A
`size` of 0 reads nothing and returns 0 items; a short read consumes what
is left. -/
def fread (size : Nat) (f : RFile) : Option (List Nat) × RFile :=
  if size = 0 then (none, f)
  else if size ≤ f.rest.length then (some (f.rest.take size), { f with rest := f.rest.drop size })
  else (none, { f with rest := [] })

/-! ## Packets, buffers, session state -/

/-- The `RRpacket` struct without its links: in a buffer the links are the
positions in the sequence. -/
structure RRpacket where
  mode : Nat
  code : Nat
  len : Nat
  prev_len : Nat
  timestamp : Int
  data : List Nat
deriving DecidableEq, Repr

/-- The `RRbuffer` struct; `pkts` is the chain from `tail` (first packet in)
to `head` (last packet in). -/
structure RRbuffer where
  byteCount : Nat
  packetCount : Nat
  pkts : List RRpacket
deriving DecidableEq, Repr

/-- Source `enum RecordType`. -/
inductive RecordType where
  | StraightToFile
  | BufferedRecord
deriving DecidableEq, Repr

/-- The replay state `PlayerInfo` keeps for an observer. -/
inductive PlayerReplayState where
  | ReplayNone
  | ReplayReceiving
  | ReplayStateful
deriving DecidableEq, Repr, Inhabited

/-- What this file reads of a slot of `player[]`, `accessInfo[]` and its
`NetHandler`. -/
structure PlayerInfo where
  playing : Bool
  replayState : PlayerReplayState
  callSign : List Nat
  email : List Nat
  /-- bytes written by `packUpdate` -/
  update : List Nat
  sizeOfIP : Nat
  properties : Nat
  /-- bytes written by `packAdminInfo` -/
  adminInfo : List Nat
deriving DecidableEq, Repr, Inhabited

/-- What the server sends out: `sendMessage (ServerPlayer, dest, text)` with
`dest = none` for `AllPlayers`, and `directMessage (dest, code, len, msg)`. -/
inductive Output where
  | message (dest : Option Nat) (text : String)
  | direct (dest : Nat) (code : Nat) (data : List Nat)
deriving DecidableEq, Repr

/-- The globals of RecordReplay.cxx, and the parts of the server they change:
the player slots (`player[0 .. curMaxPlayers)`), the configuration database
`BZDB`, the files of the record directory, what has been sent, and the bytes
found in automatic arrays before they are written (`junk`). -/
structure State where
  Recording : Bool
  RecordMode : RecordType
  RecordUpdateTime : Int
  RecordUpdateRate : Int
  RecordMaxBytes : Nat
  RecordFileBytes : Nat
  RecordFilePackets : Nat
  RecordFilePrevLen : Nat
  Replaying : Bool
  ReplayMode : Bool
  ReplayOffset : Int
  ReplayPos : Option Nat
  ReplayBuf : RRbuffer
  RecordBuf : RRbuffer
  ReplayFile : Option RFile
  RecordFile : Option WFile
  player : List PlayerInfo
  BZDB : List (List Nat × List Nat)
  disk : List (List Char × List Nat)
  out : List Output
  junk : List Nat
deriving DecidableEq, Repr

/-- Server globals this file only reads (or replaces wholesale when a
recording is loaded), as they stand when an operation is called. -/
structure Server where
  /-- packed form of each of the `CtfTeams` entries of `team[]` -/
  team : List (List Nat)
  /-- per entry of `flag[]`: its packed form unless its status is `FlagNoExist` -/
  flag : List (Option (List Nat))
  /-- the index `rabbitIndex` when the game style is rabbit chase -/
  rabbit : Option Nat
  worldDatabase : List Nat
  hexDigest : List Nat
  /-- bytes `packFlagTypes` writes: the active flag types -/
  flagTypes : List Nat
  /-- the test of `replaceFlagTypes` on a catalogue read from a file: whether
  it lists a flag type that is not active -/
  flagsInactive : List Nat → Bool
  serverVersion : List Nat
  appVersion : List Nat
  /-- whether `makeDirExist (RecordDir)` succeeds -/
  dirOk : Bool
  /-- whether `fopen (name, "wb")` succeeds -/
  canCreate : List Char → Bool
  /-- how many bytes a newly created file can take -/
  room : Nat

/-- The state at program start (the initialisers of the globals). -/
def initialState : State :=
  { Recording := false, RecordMode := .BufferedRecord, RecordUpdateTime := 0,
    RecordUpdateRate := 0, RecordMaxBytes := 16 * 1024 * 1024,
    RecordFileBytes := 0, RecordFilePackets := 0, RecordFilePrevLen := 0,
    Replaying := false, ReplayMode := false, ReplayOffset := 0, ReplayPos := none,
    ReplayBuf := { byteCount := 0, packetCount := 0, pkts := [] },
    RecordBuf := { byteCount := 0, packetCount := 0, pkts := [] },
    ReplayFile := none, RecordFile := none,
    player := [], BZDB := [], disk := [], out := [], junk := [] }

/-- The first `n` bytes of an automatic `char` array onto which `written`
has been packed from its start; the rest is what was there before (`junk`). -/
def autoBuf (junk : List Nat) (written : List Nat) (n : Nat) : List Nat :=
  (written ++ (List.range (n - written.length)).map
    (fun i => junk.getD (written.length + i) 0 % 256)).take n

/-- C `fclose` of a file open for writing: its bytes are the file of that name. -/
def closeW (disk : List (List Char × List Nat)) (f : WFile) : List (List Char × List Nat) :=
  (f.name, f.bytes) :: disk.filter (fun e => e.1 ≠ f.name)

/-- Source `initPacket` followed by the caller's store to `timestamp`;
`prev_len` is not initialised (RecordFilePrevLen takes care of it) and reads as 0. -/
def initPacket (mode code len : Nat) (data : List Nat) (ts : Int) : RRpacket :=
  { mode := mode % 2 ^ 16, code := code % 2 ^ 16, len := len % 2 ^ 32, prev_len := 0,
    timestamp := ts, data := data }

/-- Source `newPacket`: a packet owning a copy of the first `len` bytes of `data`. -/
def newPacket (mode code len : Nat) (data : List Nat) (ts : Int) : RRpacket :=
  initPacket mode code len (data.take len) ts

/-- Source `addPacket`: add to head. -/
def addPacket (K : Consts) (b : RRbuffer) (p : RRpacket) : RRbuffer :=
  { byteCount := (b.byteCount + (p.len + RRpacketHdrSize K) % 2 ^ 32) % 2 ^ 32,
    packetCount := (b.packetCount + 1) % 2 ^ 32,
    pkts := b.pkts ++ [p] }

/-- Source `delPacket`: delete from the tail. -/
def delPacket (K : Consts) (b : RRbuffer) : Option RRpacket × RRbuffer :=
  match b.pkts with
  | [] => (none, b)
  | p :: rest =>
    (some p,
     { byteCount := (b.byteCount + 2 ^ 32 - (p.len + RRpacketHdrSize K) % 2 ^ 32) % 2 ^ 32,
       packetCount := (b.packetCount + 2 ^ 32 - 1) % 2 ^ 32,
       pkts := rest })

/-- Source `freeBuffer`: clean it out. -/
def freeBuffer (_b : RRbuffer) : RRbuffer :=
  { byteCount := 0, packetCount := 0, pkts := [] }

/-- Pointer `b->tail` as a position. -/
def RRbuffer.tail (b : RRbuffer) : Option Nat := if b.pkts = [] then none else some 0

/-- Pointer `b->head` as a position. -/
def RRbuffer.head (b : RRbuffer) : Option Nat :=
  if b.pkts = [] then none else some (b.pkts.length - 1)

/-- Pointer `p->next` as a position. -/
def RRbuffer.next (b : RRbuffer) (i : Nat) : Option Nat :=
  if i + 1 < b.pkts.length then some (i + 1) else none

/-- Pointer `p->prev` as a position. -/
def RRbuffer.prev (_b : RRbuffer) (i : Nat) : Option Nat :=
  if i = 0 then none else some (i - 1)

/-! ## Record functions -/

/-- Source constant `ReplayMagic`: "BZrr". -/
def ReplayMagic : Nat := 0x425A7272

/-- Source constant `ReplayVersion`. -/
def ReplayVersion : Nat := 0x0001

/-- Source constant `DefaultMaxBytes`: 16 Mbytes. -/
def DefaultMaxBytes : Nat := 16 * 1024 * 1024

/-- Source constant `DefaultUpdateRate`. -/
def DefaultUpdateRate : Nat := 10 * 1000000

/-- Send a text message of the server to `dest`. -/
def sendMessage (s : State) (dest : Option Nat) (text : String) : State :=
  { s with out := s.out ++ [.message dest text] }

/-- Source `recordReset`. -/
def recordReset (s : State) : State :=
  let s1 : State := match s.RecordFile with
    | some f => { s with disk := closeW s.disk f, RecordFile := none }
    | none => s
  { s1 with
    RecordBuf := freeBuffer s1.RecordBuf,
    Recording := false,
    RecordMode := .BufferedRecord,
    RecordFileBytes := 0,
    RecordFilePackets := 0,
    RecordFilePrevLen := 0,
    RecordUpdateTime := 0 }

/-- Bytes `savePacket` packs into `bufStart`: mode, code, len, RecordFilePrevLen,
then the timestamp, most significant word first. -/
def packPacketHeader (p : RRpacket) (prevLen : Nat) : List Nat :=
  nboPackUShort p.mode ++ nboPackUShort p.code ++ nboPackUInt p.len
    ++ nboPackUInt prevLen
    ++ nboPackUInt ((p.timestamp / 2 ^ 32) % 2 ^ 32).toNat
    ++ nboPackUInt (p.timestamp % 2 ^ 32).toNat

/-- Source `savePacket (p, RecordFile)`; every call site passes `RecordFile`. -/
def savePacket (K : Consts) (s : State) (p : RRpacket) : Bool × State :=
  match s.RecordFile with
  | none => (false, s)
  | some f =>
    let packed := packPacketHeader p s.RecordFilePrevLen
    let bufStart := autoBuf s.junk packed (RRpacketHdrSize K)
    let (r1, f1) := fwrite bufStart (RRpacketHdrSize K) f
    if r1 = 0 then (false, { s with RecordFile := some f1 })
    else
      let (r2, f2) := fwrite p.data p.len f1
      if r2 = 0 then (false, { s with RecordFile := some f2 })
      else
        (true,
         { s with
           RecordFile := some f2,
           RecordFileBytes := (s.RecordFileBytes + (p.len + RRpacketHdrSize K) % 2 ^ 32) % 2 ^ 32,
           RecordFilePackets := (s.RecordFilePackets + 1) % 2 ^ 32,
           RecordFilePrevLen := p.len })

/-- The loop of `routePacket` that runs when the buffer is over budget:
`while (((p = delPacket (&RecordBuf)) != NULL) && !(p->mode && (p->code == MsgTeamUpdate)))`,
for at most `fuel` calls of `delPacket`. -/
def evictLoop (K : Consts) : Nat → RRbuffer → RRbuffer
  | 0, b => b
  | fuel + 1, b =>
    match delPacket K b with
    | (none, b1) => b1
    | (some p, b1) =>
      if p.mode ≠ 0 ∧ p.code = K.MsgTeamUpdate then b1 else evictLoop K fuel b1

/-- Source `routePacket`: saves straight to a file, or into the buffer. `now` is
what `getRRtime ()` returns. -/
def routePacket (K : Consts) (now : Int) (s : State) (code len : Nat) (data : List Nat)
    (mode : Nat) : Bool × State :=
  if s.Recording = false then (false, s)
  else
    match s.RecordMode with
    | .BufferedRecord =>
      let p := newPacket mode code len data now
      let b := addPacket K s.RecordBuf p
      if b.byteCount > s.RecordMaxBytes then
        (true, { s with RecordBuf := evictLoop K (b.pkts.length + 1) b })
      else (true, { s with RecordBuf := b })
    | .StraightToFile =>
      let p := initPacket mode code len data now
      (true, (savePacket K s p).2)

/-- Pair each element with its index, counting from `start`. -/
def indexed {α : Type} (start : Nat) : List α → List (Nat × α)
  | [] => []
  | a :: l => (start, a) :: indexed (start + 1) l

/-- Source `saveTeamsState`. -/
def saveTeamsState (K : Consts) (E : Server) (now : Int) (s : State) : State :=
  let bufStart := nboPackUByte E.team.length ++ E.team.flatten
  (routePacket K now s K.MsgTeamUpdate bufStart.length bufStart K.StatePacket).2

/-- The `for` loop of `saveFlagsState` over the flags left; `body` is what
follows the count placeholder in the buffer. -/
def saveFlagsLoop (K : Consts) (now : Int) :
    List (Nat × Option (List Nat)) → List Nat → Nat → Nat → State → List Nat × Nat × State
  | [], body, cnt, _, s => (body, cnt, s)
  | (_, none) :: fs, body, cnt, length, s => saveFlagsLoop K now fs body cnt length s
  | (flagIndex, some packed) :: fs, body, cnt, length, s =>
    if length + 2 + K.FlagPLen > K.MaxPacketLen - 4 then
      -- packet length overflow
      let s1 := (routePacket K now s K.MsgFlagUpdate (2 + body.length)
                  (nboPackUShort cnt ++ body) K.StatePacket).2
      saveFlagsLoop K now fs (nboPackUShort flagIndex ++ packed) 1 (2 + 2 + K.FlagPLen) s1
    else
      saveFlagsLoop K now fs (body ++ nboPackUShort flagIndex ++ packed) (cnt + 1)
        (length + 2 + K.FlagPLen) s

/-- Source `saveFlagsState`. -/
def saveFlagsState (K : Consts) (E : Server) (now : Int) (s : State) : State :=
  let (body, cnt, s1) := saveFlagsLoop K now (indexed 0 E.flag) [] 0 2 s
  if cnt > 0 then
    (routePacket K now s1 K.MsgFlagUpdate (2 + body.length) (nboPackUShort cnt ++ body)
      K.StatePacket).2
  else s1

/-- Source `saveRabbitState`. -/
def saveRabbitState (K : Consts) (E : Server) (now : Int) (s : State) : State :=
  match E.rabbit with
  | some rabbitIndex =>
    (routePacket K now s K.MsgNewRabbit 1 (nboPackUByte rabbitIndex) K.StatePacket).2
  | none => s

/-- The `for` loop of `savePlayersState` over the slots left; `admin` is what
follows the placeholder byte in `adminBuf`. -/
def savePlayersLoop (K : Consts) (now : Int) :
    List (Nat × PlayerInfo) → List Nat → State → List Nat × State
  | [], admin, s => (admin, s)
  | (i, pl) :: rest, admin, s =>
    if pl.playing then
      let bufStart := nboPackUByte i ++ pl.update
      let s1 := (routePacket K now s K.MsgAddPlayer bufStart.length bufStart K.StatePacket).2
      savePlayersLoop K now rest
        (admin ++ nboPackUByte pl.sizeOfIP ++ nboPackUByte i ++ nboPackUByte pl.properties
          ++ pl.adminInfo) s1
    else savePlayersLoop K now rest admin s

/-- Source `savePlayersState`. The placeholder byte of `adminBuf` is never written. -/
def savePlayersState (K : Consts) (now : Int) (s : State) : State :=
  let (admin, s1) := savePlayersLoop K now (indexed 0 s.player) [] s
  if s.player.length > 0 then
    (routePacket K now s1 K.MsgAdminInfo (1 + admin.length) (autoBuf s.junk [] 1 ++ admin)
      K.HiddenPacket).2
  else s1

/-- The `packVarData` struct: `body` is the buffer after the count placeholder. -/
structure packVarData where
  body : List Nat
  len : Nat
  count : Nat

/-- Source `packVars`, the callback of `BZDB.iterate`. -/
def packVars (K : Consts) (now : Int) (key value : List Nat) (acc : packVarData × State) :
    packVarData × State :=
  let pvd := acc.1
  let s := acc.2
  let pairLen := key.length + 1 + value.length + 1
  let (pvd1, s1) :=
    if pairLen + pvd.len > K.MaxPacketLen - 4 then
      ({ body := [], len := 2, count := 0 : packVarData },
       (routePacket K now s K.MsgSetVar pvd.len (nboPackUShort pvd.count ++ pvd.body)
         K.StatePacket).2)
    else (pvd, s)
  ({ body := pvd1.body ++ nboPackUByte key.length ++ nboPackString key key.length
              ++ nboPackUByte value.length ++ nboPackString value value.length,
     len := pvd1.len + pairLen,
     count := pvd1.count + 1 }, s1)

/-- Source `saveVariablesState`. -/
def saveVariablesState (K : Consts) (now : Int) (s : State) : State :=
  let (pvd, s1) := s.BZDB.foldl (fun acc kv => packVars K now kv.1 kv.2 acc)
    ({ body := [], len := 0, count := 0 : packVarData }, s)
  if pvd.len > 0 then
    (routePacket K now s1 K.MsgSetVar pvd.len (nboPackUShort pvd.count ++ pvd.body)
      K.StatePacket).2
  else s1

/-- Source `saveStates`. -/
def saveStates (K : Consts) (E : Server) (now : Int) (s : State) : State :=
  let s1 := saveTeamsState K E now s
  let s2 := saveFlagsState K E now s1
  let s3 := saveRabbitState K E now s2
  let s4 := savePlayersState K now s3
  let s5 := saveVariablesState K now s4
  { s5 with RecordUpdateTime := now }

/-- Source `makeDirExistMsg`. -/
def makeDirExistMsg (E : Server) (s : State) (playerIndex : Nat) : Bool × State :=
  if E.dirOk then (true, s)
  else
    (false, sendMessage (sendMessage s (some playerIndex)
      "Could not open or create record directory:") (some playerIndex) "  RecordDir")

namespace Record

/-- Source `Record::init`. -/
def init (s : State) : Bool × State :=
  (true, recordReset { s with RecordMaxBytes := DefaultMaxBytes,
                              RecordUpdateRate := DefaultUpdateRate })

/-- Source `Record::kill`. -/
def kill (s : State) : Bool × State := (true, recordReset s)

/-- Source `Record::start`. -/
def start (K : Consts) (E : Server) (now : Int) (s : State) (playerIndex : Nat) : Bool × State :=
  if s.ReplayMode then
    (false, sendMessage s (some playerIndex) "Couldn't start capturing")
  else
    let (ok, s1) := makeDirExistMsg E s playerIndex
    if !ok then (false, s1)
    else
      let s2 := saveStates K E now { s1 with Recording := true }
      (true, sendMessage s2 (some playerIndex) "Record started")

/-- Source `Record::stop`. -/
def stop (s : State) (playerIndex : Nat) : Bool × State :=
  if s.Recording = false then
    (false, sendMessage s (some playerIndex) "Couldn't stop capturing")
  else
    let s1 := sendMessage s (some playerIndex) "Record stopped"
    let s2 := { s1 with Recording := false }
    match s2.RecordMode with
    | .StraightToFile => (true, recordReset s2)
    | .BufferedRecord => (true, s2)

end Record

/-! ## File functions -/

/-- Source `badFilename`. -/
def badFilename : List Char → Bool
  | [] => false
  | c :: rest =>
    if c = '/' ∨ c = ':' ∨ c = Char.ofNat 92 then true
    else if c = '.' ∧ rest.head? = some '.' then true
    else badFilename rest

/-- Source `openFile (filename, "rb")`. -/
def openFileRead (s : State) (filename : List Char) : Option RFile :=
  match s.disk.find? (fun e => e.1 = filename) with
  | some e => some { name := filename, rest := e.2 }
  | none => none

/-- Source `openWriteFile`: `makeDirExistMsg`, then `openFile (filename, "wb")`. -/
def openWriteFile (E : Server) (s : State) (playerIndex : Nat) (filename : List Char) :
    Option WFile × State :=
  let (ok, s1) := makeDirExistMsg E s playerIndex
  if !ok then (none, s1)
  else if E.canCreate filename then
    (some { name := filename, bytes := [], room := E.room }, s1)
  else (none, s1)

/-- Bytes `saveHeader` packs into its buffer. -/
def packHeader (K : Consts) (E : Server) (s : State) (p : Nat) : List Nat :=
  let pl := s.player.getD p default
  let flagsSize := E.flagTypes.length % 2 ^ 32
  let worldDatabaseSize := E.worldDatabase.length % 2 ^ 32
  let totalSize := ReplayHeaderSize K + worldDatabaseSize + flagsSize
  nboPackUInt ReplayMagic ++ nboPackUInt ReplayVersion ++ nboPackUInt totalSize
    ++ nboPackUInt 0 ++ nboPackUInt p ++ nboPackUInt flagsSize ++ nboPackUInt worldDatabaseSize
    ++ nboPackString (strncpy pl.callSign K.CallSignLen) K.CallSignLen
    ++ nboPackString (strncpy pl.email K.EmailLen) K.EmailLen
    ++ nboPackString (strncpy E.serverVersion 8) 8
    ++ nboPackString (strncpy E.appVersion K.MessageLen) K.MessageLen
    ++ nboPackString (strncpy E.hexDigest 64) 64

/-- Source `saveHeader (p, RecordFile)`; every call site passes `RecordFile`. -/
def saveHeader (K : Consts) (E : Server) (s : State) (p : Nat) : Bool × State :=
  match s.RecordFile with
  | none => (false, s)
  | some f =>
    let flagsSize := E.flagTypes.length % 2 ^ 32
    let worldDatabaseSize := E.worldDatabase.length % 2 ^ 32
    let totalSize := ReplayHeaderSize K + worldDatabaseSize + flagsSize
    let buffer := autoBuf s.junk (packHeader K E s p) (ReplayHeaderSize K)
    let (r1, f1) := fwrite buffer (ReplayHeaderSize K) f
    if r1 = 0 then (false, { s with RecordFile := some f1 })
    else
      let (r2, f2) := if flagsSize > 0 then fwrite E.flagTypes flagsSize f1 else (1, f1)
      if r2 = 0 then (false, { s with RecordFile := some f2 })
      else
        let (r3, f3) := fwrite E.worldDatabase worldDatabaseSize f2
        if r3 = 0 then (false, { s with RecordFile := some f3 })
        else
          (true, { s with RecordFile := some f3,
                          RecordFileBytes := (s.RecordFileBytes + totalSize % 2 ^ 32) % 2 ^ 32 })

/-- The `ReplayHeader` struct. -/
structure ReplayHeader where
  magic : Nat
  version : Nat
  offset : Nat
  seconds : Nat
  player : Nat
  flagsSize : Nat
  worldSize : Nat
  callSign : List Nat
  email : List Nat
  serverVersion : List Nat
  appVersion : List Nat
  realHash : List Nat
  flags : List Nat
  world : List Nat
deriving DecidableEq, Repr

/-- Overwrite `l` from offset `off` with `bytes`. -/
def poke (l : List Nat) (off : Nat) (bytes : List Nat) : List Nat :=
  l.take off ++ bytes ++ l.drop (off + bytes.length)

/-- The test of `replaceWorldDatabase`: whether the world of the header, with
the server's time stamp and player count written into it, differs from the
server's. -/
def worldDiffers (K : Consts) (E : Server) (h : ReplayHeader) : Bool :=
  let timeStampOffset := 2 * 9 + 4 * 3
  let maxPlayersOffset := 2 * 4 + 4 * 1
  let nowTimeStamp := nboUnpackUInt E.worldDatabase timeStampOffset
  let w1 := poke h.world maxPlayersOffset (nboPackUShort (K.MaxPlayers + K.ReplayObservers))
  let w2 := poke w1 timeStampOffset (nboPackUInt nowTimeStamp)
  decide (h.worldSize ≠ E.worldDatabase.length % 2 ^ 32) ||
    decide (w2.take h.worldSize ≠ E.worldDatabase.take h.worldSize)

/-- The fields `loadHeader` unpacks from its buffer. -/
def unpackHeader (K : Consts) (buffer : List Nat) : ReplayHeader :=
  let o1 := 28
  let o2 := o1 + K.CallSignLen
  let o3 := o2 + K.EmailLen
  let o4 := o3 + 8
  let o5 := o4 + K.MessageLen
  { magic := nboUnpackUInt buffer 0,
    version := nboUnpackUInt buffer 4,
    offset := nboUnpackUInt buffer 8,
    seconds := nboUnpackUInt buffer 12,
    player := nboUnpackUInt buffer 16,
    flagsSize := nboUnpackUInt buffer 20,
    worldSize := nboUnpackUInt buffer 24,
    callSign := nboUnpackString buffer o1 K.CallSignLen,
    email := nboUnpackString buffer o2 K.EmailLen,
    serverVersion := nboUnpackString buffer o3 8,
    appVersion := nboUnpackString buffer o4 K.MessageLen,
    realHash := nboUnpackString buffer o5 64,
    flags := [], world := [] }

/-- Source `loadHeader (&header, ReplayFile)`. The flag types and the world
database of the server that `replaceFlagTypes` and `replaceWorldDatabase`
swap are not part of the state. -/
def loadHeader (K : Consts) (E : Server) (s : State) :
    Option ReplayHeader × State :=
  match s.ReplayFile with
  | none => (none, s)
  | some f =>
    let (r, f1) := fread (ReplayHeaderSize K) f
    match r with
    | none => (none, { s with ReplayFile := some f1 })
    | some buffer =>
      let h := unpackHeader K buffer
      -- load the flags, if there are any
      let (fl, f2) := if h.flagsSize > 0 then fread h.flagsSize f1 else (some [], f1)
      match fl with
      | none => (none, { s with ReplayFile := some f2 })
      | some flags =>
        -- load the world database
        let (w, f3) := fread h.worldSize f2
        match w with
        | none => (none, { s with ReplayFile := some f3 })
        | some world =>
          let h1 := { h with flags := flags, world := world }
          let s1 := { s with ReplayFile := some f3 }
          if E.flagsInactive flags || worldDiffers K E h1 then
            (some h1,
             sendMessage (sendMessage s1 none "An incompatible recording has been loaded")
               none "Please rejoin or face the consequences (client crashes)")
          else (some h1, s1)

namespace Record

/-- Source `Record::saveFile`. -/
def saveFile (K : Consts) (E : Server) (now : Int) (s : State) (playerIndex : Nat)
    (filename : List Char) : Bool × State :=
  if s.ReplayMode then
    (false, sendMessage s (some playerIndex) "Can't record in replay mode")
  else if badFilename filename then
    (false, sendMessage s (some playerIndex) "Files must be with the local directory")
  else
    let s1 := recordReset s
    let s2 := { s1 with Recording := true, RecordMode := .StraightToFile }
    let (f, s3) := openWriteFile E s2 playerIndex filename
    let s4 := { s3 with RecordFile := f }
    match f with
    | none =>
      (false, sendMessage (recordReset s4) (some playerIndex) "Could not open for writing")
    | some _ =>
      let (ok, s5) := saveHeader K E s4 playerIndex
      if !ok then
        (false, sendMessage (recordReset s5) (some playerIndex) "Could not save header")
      else
        -- saveStates always returns true
        let s6 := saveStates K E now s5
        (true, sendMessage s6 (some playerIndex) "Recording to file")

end Record

/-! ## Replay functions -/

/-- The loop `for (i = MaxPlayers; i < curMaxPlayers; i++) player[i].setReplayState (ReplayNone)`. -/
def clearReplayStates (K : Consts) (players : List PlayerInfo) : List PlayerInfo :=
  players.take K.MaxPlayers ++
    (players.drop K.MaxPlayers).map (fun pl => { pl with replayState := .ReplayNone })

/-- Source `replayReset`. -/
def replayReset (K : Consts) (s : State) : State :=
  { s with
    ReplayFile := none,
    ReplayBuf := freeBuffer s.ReplayBuf,
    ReplayMode := true,
    Replaying := false,
    ReplayOffset := 0,
    ReplayPos := none,
    player := clearReplayStates K s.player }

/-- The observers that are playing: the slots from `MaxPlayers` on. -/
def playingObservers (K : Consts) (s : State) : List Nat :=
  ((indexed K.MaxPlayers (s.player.drop K.MaxPlayers)).filter (fun e => e.2.playing)).map
    (fun e => e.1)

/-- Source `resetStates`. -/
def resetStates (K : Consts) (E : Server) (s : State) : State :=
  let teams := nboPackUByte E.team.length ++
    ((indexed 0 E.team).map (fun e => nboPackUShort e.1 ++ e.2)).flatten
  let obs := playingObservers K s
  { s with
    out := s.out ++ obs.map (fun i => Output.direct i K.MsgTeamUpdate teams)
             ++ obs.map (fun i => Output.direct i K.MsgReplayReset (nboPackUByte K.MaxPlayers)),
    player := clearReplayStates K s.player }

/-- Set a variable of the configuration database. -/
def bzdbSet (db : List (List Nat × List Nat)) (name value : List Nat) :
    List (List Nat × List Nat) :=
  if db.any (fun e => e.1 = name) then
    db.map (fun e => if e.1 = name then (name, value) else e)
  else db ++ [(name, value)]

/-- The `for` loop of `setVariables` with `n` pairs left to read from `data`. Bytes
past the end of `data` (an over-read in the source) read as 0. -/
def setVariablesLoop : Nat → List Nat → List (List Nat × List Nat) → List (List Nat × List Nat)
  | 0, _, db => db
  | n + 1, data, db =>
    let nameLen := data.getD 0 0 % 256
    let name := cstr (nboUnpackString data 1 nameLen)
    let data1 := data.drop (1 + nameLen)
    let valueLen := data1.getD 0 0 % 256
    let value := cstr (nboUnpackString data1 1 valueLen)
    let data2 := data1.drop (1 + valueLen)
    -- do not save the poll state
    if name ≠ [112, 111, 108, 108] then
      setVariablesLoop n data2 (bzdbSet db name value)
    else setVariablesLoop n data2 db

/-- Source `setVariables`. -/
def setVariables (s : State) (data : List Nat) : State :=
  { s with BZDB := setVariablesLoop (nboUnpackUShort data 0 % 2 ^ 16) (data.drop 2) s.BZDB }

/-- The first loop of `preloadVariables`: skip state and hidden packets that are
not `MsgSetVar`. -/
def skipToSetVar (K : Consts) : List RRpacket → List RRpacket
  | [] => []
  | p :: rest =>
    if p.code ≠ K.MsgSetVar ∧ (p.mode = K.StatePacket ∨ p.mode = K.HiddenPacket) then
      skipToSetVar K rest
    else p :: rest

/-- The `while` part of the second loop of `preloadVariables`. -/
def loadSetVars (K : Consts) : List RRpacket → State → State
  | [], s => s
  | p :: rest, s =>
    if p.mode = K.StatePacket ∧ p.code = K.MsgSetVar then
      loadSetVars K rest (setVariables s p.data)
    else s

/-- Source `preloadVariables`. -/
def preloadVariables (K : Consts) (s : State) : Bool × State :=
  match skipToSetVar K s.ReplayBuf.pkts with
  | [] => (false, s)
  | p :: rest =>
    if p.mode ≠ K.StatePacket ∨ p.code ≠ K.MsgSetVar then (false, s)
    else (true, loadSetVars K rest (setVariables s p.data))

/-- The bound of `loadPacket` on `len`, `MaxPacketLen - ((int)sizeof(u16) * 2)`
converted to `u32` for the comparison. -/
def maxLoadLen (K : Consts) : Nat := (K.MaxPacketLen + 2 ^ 32 - 4) % 2 ^ 32

/-- Source `loadPacket (ReplayFile)`: makes a new packet; the one call site
passes `ReplayFile`. -/
def loadPacket (K : Consts) (s : State) : Option RRpacket × State :=
  match s.ReplayFile with
  | none => (none, s)
  | some f =>
    let (r, f1) := fread (RRpacketHdrSize K) f
    match r with
    | none => (none, { s with ReplayFile := some f1 })
    | some bufStart =>
      let mode := nboUnpackUShort bufStart 0
      let code := nboUnpackUShort bufStart 2
      let len := nboUnpackUInt bufStart 4
      let prev_len := nboUnpackUInt bufStart 8
      let timeMsb := nboUnpackUInt bufStart 12
      let timeLsb := nboUnpackUInt bufStart 16
      let timestamp := wrapS64 ((timeMsb : Int) * 2 ^ 32 + (timeLsb : Int))
      if len > maxLoadLen K then
        (none, replayReset K { s with ReplayFile := some f1 })
      else
        let (d, f2) := fread len f1
        match d with
        | none => (none, { s with ReplayFile := some f2 })
        | some data =>
          (some { mode := mode, code := code, len := len, prev_len := prev_len,
                  timestamp := timestamp, data := data },
           { s with ReplayFile := some f2 })

/-- The preload loop of `Replay::loadFile`,
`while (ReplayBuf.byteCount < RecordMaxBytes)`, for at most `fuel` packets. -/
def preload (K : Consts) : Nat → State → State
  | 0, s => s
  | fuel + 1, s =>
    if s.ReplayBuf.byteCount < s.RecordMaxBytes then
      match loadPacket K s with
      | (none, s1) => s1
      | (some p, s1) => preload K fuel { s1 with ReplayBuf := addPacket K s1.ReplayBuf p }
    else s

/-- Bytes left to read in `ReplayFile`. -/
def bytesLeft (s : State) : Nat :=
  match s.ReplayFile with
  | some f => f.rest.length
  | none => 0

namespace Replay

/-- Source `Replay::init`. -/
def init (K : Consts) (s : State) : Bool × State :=
  if s.Recording then (false, s) else (true, replayReset K s)

/-- Source `Replay::kill`. -/
def kill (K : Consts) (s : State) : Bool × State := (true, replayReset K s)

/-- Source `Replay::loadFile`. -/
def loadFile (K : Consts) (E : Server) (s : State) (playerIndex : Nat) (filename : List Char) :
    Bool × State :=
  if !s.ReplayMode then
    (false, sendMessage s (some playerIndex) "Server isn't in replay mode")
  else if badFilename filename then
    (false, sendMessage s (some playerIndex) "Files must be in the recordings directory")
  else
    let s1 := replayReset K s
    let s2 := if s1.Replaying then resetStates K E s1 else s1
    match openFileRead s2 filename with
    | none => (false, sendMessage s2 (some playerIndex) "Could not open")
    | some f =>
      let s3 := { s2 with ReplayFile := some f }
      match loadHeader K E s3 with
      | (none, s4) =>
        (false, { sendMessage s4 (some playerIndex) "Could not open header" with
                  ReplayFile := none })
      | (some header, s4) =>
        if header.magic ≠ ReplayMagic then
          (false, { sendMessage s4 (some playerIndex) "Not a bzflag replay file" with
                    ReplayFile := none })
        else
          -- preload the buffer
          let s5 := preload K (bytesLeft s4 + 1) s4
          if s5.ReplayBuf.tail = none then
            (false, replayReset K (sendMessage s5 (some playerIndex) "No valid data"))
          else
            let s6 := { s5 with ReplayPos := s5.ReplayBuf.tail }
            let (ok, s7) := preloadVariables K s6
            if !ok then
              (false, replayReset K
                (sendMessage s7 (some playerIndex) "Could not preload variables"))
            else (true, sendMessage s7 (some playerIndex) "Loaded file")

end Replay

/-! ## Facts about the layout, stdio and the codec -/

/-- Constants a compiler and the headers can give: positive alignments, and a
`MaxPacketLen` that is an `int` of at least 4. -/
def Consts.Sane (K : Consts) : Prop :=
  0 < K.alignofPtr ∧ 0 < K.alignofS64 ∧ 4 ≤ K.MaxPacketLen ∧ K.MaxPacketLen < 2 ^ 31

instance (K : Consts) : Decidable K.Sane := by
  unfold Consts.Sane; infer_instance

theorem alignUp_ge (off a : Nat) (ha : 0 < a) : off ≤ alignUp off a := by
  unfold alignUp
  have h1 := Nat.div_add_mod' (off + a - 1) a
  have h2 := Nat.mod_lt (off + a - 1) ha
  omega

theorem layout_ge (fields : List (Nat × Nat)) (hpos : ∀ f ∈ fields, 0 < f.2) :
    ∀ off, off + (fields.map (fun f => f.1)).sum ≤
      fields.foldl (fun off f => alignUp off f.2 + f.1) off := by
  induction fields with
  | nil => intro off; simp
  | cons f fs ih =>
    intro off
    simp only [List.map_cons, List.sum_cons, List.foldl_cons]
    have h1 := alignUp_ge off f.2 (hpos f (List.mem_cons_self _ _))
    have h2 := ih (fun g hg => hpos g (List.mem_cons_of_mem _ hg)) (alignUp off f.2 + f.1)
    omega

theorem maxAlign_pos (fields : List (Nat × Nat)) :
    ∀ a, 0 < a → 0 < fields.foldl (fun a f => max a f.2) a := by
  induction fields with
  | nil => intro a ha; simpa using ha
  | cons f fs ih =>
    intro a ha
    simp only [List.foldl_cons]
    exact ih _ (lt_of_lt_of_le ha (le_max_left _ _))

theorem structSize_ge (fields : List (Nat × Nat)) (hpos : ∀ f ∈ fields, 0 < f.2) :
    (fields.map (fun f => f.1)).sum ≤ structSize fields := by
  unfold structSize
  have h1 := layout_ge fields hpos 0
  have h2 := alignUp_ge (fields.foldl (fun off f => alignUp off f.2 + f.1) 0) _
    (maxAlign_pos fields 1 Nat.one_pos)
  omega

theorem hdrSize_ge (K : Consts) (hK : K.Sane) : 20 + 2 * K.sizeofPtr ≤ RRpacketHdrSize K := by
  obtain ⟨hp, hs, _, _⟩ := hK
  have h := structSize_ge (RRpacketFields K) (by
    intro f hf
    simp only [RRpacketFields, List.mem_cons, List.mem_singleton, List.not_mem_nil, or_false] at hf
    rcases hf with h | h | h | h | h | h | h | h <;> subst h <;> simp_all)
  have hsum : ((RRpacketFields K).map (fun f => f.1)).sum = 3 * K.sizeofPtr + 20 := by
    simp only [RRpacketFields, List.map_cons, List.map_nil, List.sum_cons, List.sum_nil]
    omega
  rw [hsum] at h
  unfold RRpacketHdrSize sizeofRRpacket
  omega

theorem replayHeaderSize_ge (K : Consts) (hK : K.Sane) :
    28 + K.CallSignLen + K.EmailLen + 8 + K.MessageLen + 64 ≤ ReplayHeaderSize K := by
  obtain ⟨hp, hs, _, _⟩ := hK
  have h := structSize_ge (ReplayHeaderFields K) (by
    intro f hf
    simp only [ReplayHeaderFields, List.mem_cons, List.mem_singleton, List.not_mem_nil, or_false] at hf
    rcases hf with h | h | h | h | h | h | h | h | h | h | h | h | h | h <;> subst h <;> simp_all)
  have hsum : ((ReplayHeaderFields K).map (fun f => f.1)).sum =
      28 + K.CallSignLen + K.EmailLen + 8 + K.MessageLen + 64 + 2 * K.sizeofPtr := by
    simp only [ReplayHeaderFields, List.map_cons, List.map_nil, List.sum_cons, List.sum_nil]
    omega
  rw [hsum] at h
  unfold ReplayHeaderSize
  omega

theorem maxLoadLen_eq (K : Consts) (hK : K.Sane) : maxLoadLen K = K.MaxPacketLen - 4 := by
  obtain ⟨_, _, h1, h2⟩ := hK
  unfold maxLoadLen
  omega

theorem autoBuf_eq (junk : List Nat) (w : List Nat) (n : Nat) (h : w.length ≤ n) :
    ∃ t, autoBuf junk w n = w ++ t ∧ t.length = n - w.length := by
  refine ⟨(List.range (n - w.length)).map (fun i => junk.getD (w.length + i) 0 % 256), ?_, by simp⟩
  unfold autoBuf
  apply List.take_of_length_le
  simp; omega

theorem fwrite_ok (data : List Nat) (size : Nat) (f : WFile) (h0 : 0 < size)
    (hroom : size ≤ f.room) (hlen : data.length = size) :
    fwrite data size f = (1, { f with bytes := f.bytes ++ data, room := f.room - size }) := by
  unfold fwrite
  have : ¬ size = 0 := by omega
  simp only [this, hroom, if_true, if_false]
  have : (data ++ List.replicate size 0).take size = data := by
    rw [← hlen]; simp
  rw [this]

theorem fread_ok (size : Nat) (name : List Char) (a b : List Nat) (h0 : 0 < size)
    (hlen : a.length = size) :
    fread size { name := name, rest := a ++ b } = (some a, { name := name, rest := b }) := by
  unfold fread
  have h1 : ¬ size = 0 := by omega
  have h2 : size ≤ (a ++ b).length := by simp; omega
  simp only [h1, h2, if_true, if_false]
  subst hlen
  simp

theorem fread_zero (f : RFile) : fread 0 f = (none, f) := by
  simp [fread]

theorem replayReset_file (K : Consts) (s : State) (f : Option RFile) :
    replayReset K { s with ReplayFile := f } = replayReset K s := rfl

/-- The length field of the packet header at the front of `bytes`. -/
def declaredLen (bytes : List Nat) : Nat := nboUnpackUInt bytes 4

theorem unpackUInt_append (a b : List Nat) (off : Nat) (h : off + 4 ≤ a.length) :
    nboUnpackUInt (a ++ b) off = nboUnpackUInt a off := by
  unfold nboUnpackUInt
  simp only [List.getD_eq_getElem?_getD]
  rw [List.getElem?_append_left (by omega), List.getElem?_append_left (by omega),
    List.getElem?_append_left (by omega), List.getElem?_append_left (by omega)]

theorem loadPacket_oversize (K : Consts) (s : State) (f : RFile) (hb rest : List Nat)
    (hf : s.ReplayFile = some f) (hrest : f.rest = hb ++ rest)
    (hlen : hb.length = RRpacketHdrSize K) (h20 : 20 ≤ RRpacketHdrSize K)
    (hbig : maxLoadLen K < declaredLen hb) :
    loadPacket K s = (none, replayReset K s) := by
  obtain ⟨name, r⟩ := f
  simp only at hrest
  subst hrest
  unfold loadPacket
  simp only [hf]
  rw [fread_ok _ _ _ _ (by omega) hlen]
  simp only
  have : maxLoadLen K < nboUnpackUInt hb 4 := hbig
  simp only [this, if_true]
  rfl

theorem loadPacket_ok (K : Consts) (s : State) (f : RFile) (hb data rest : List Nat)
    (hf : s.ReplayFile = some f) (hrest : f.rest = hb ++ data ++ rest)
    (hlen : hb.length = RRpacketHdrSize K) (h20 : 20 ≤ RRpacketHdrSize K)
    (hd : declaredLen hb = data.length) (hpos : 0 < data.length)
    (hmax : data.length ≤ maxLoadLen K) :
    loadPacket K s =
      (some { mode := nboUnpackUShort hb 0, code := nboUnpackUShort hb 2,
              len := data.length, prev_len := nboUnpackUInt hb 8,
              timestamp := wrapS64 ((nboUnpackUInt hb 12 : Int) * 2 ^ 32 + (nboUnpackUInt hb 16 : Int)),
              data := data },
       { s with ReplayFile := some { f with rest := rest } }) := by
  obtain ⟨name, r⟩ := f
  simp only at hrest
  subst hrest
  unfold loadPacket
  simp only [hf]
  rw [List.append_assoc, fread_ok _ _ _ _ (by omega) hlen]
  simp only
  have hd' : nboUnpackUInt hb 4 = data.length := hd
  have hnot : ¬ maxLoadLen K < data.length := by omega
  simp only [gt_iff_lt, hd']
  rw [fread_ok _ _ _ _ hpos rfl]
  simp only [hnot, if_false]

theorem packPacketHeader_length (p : RRpacket) (n : Nat) : (packPacketHeader p n).length = 20 := by
  simp [packPacketHeader, nboPackUShort, nboPackUInt]

theorem unpack_packPacketHeader (p : RRpacket) (n : Nat) (pad : List Nat) :
    nboUnpackUShort (packPacketHeader p n ++ pad) 0 = p.mode % 2 ^ 16 ∧
    nboUnpackUShort (packPacketHeader p n ++ pad) 2 = p.code % 2 ^ 16 ∧
    nboUnpackUInt (packPacketHeader p n ++ pad) 4 = p.len % 2 ^ 32 ∧
    nboUnpackUInt (packPacketHeader p n ++ pad) 8 = n % 2 ^ 32 ∧
    nboUnpackUInt (packPacketHeader p n ++ pad) 12 = ((p.timestamp / 2 ^ 32) % 2 ^ 32).toNat ∧
    nboUnpackUInt (packPacketHeader p n ++ pad) 16 = (p.timestamp % 2 ^ 32).toNat := by
  have hm : ((p.timestamp / 2 ^ 32) % 2 ^ 32).toNat < 2 ^ 32 := by omega
  have hl : (p.timestamp % 2 ^ 32).toNat < 2 ^ 32 := by omega
  simp only [packPacketHeader]
  generalize ((p.timestamp / 2 ^ 32) % 2 ^ 32).toNat = m at hm ⊢
  generalize (p.timestamp % 2 ^ 32).toNat = l at hl ⊢
  simp only [nboPackUShort, nboPackUInt, nboUnpackUShort, nboUnpackUInt,
    List.cons_append, List.nil_append, List.getD_cons_zero, List.getD_cons_succ]
  refine ⟨?_, ?_, ?_, ?_, ?_, ?_⟩ <;> omega

theorem wrapS64_words (ts : Int) (h1 : -2 ^ 63 ≤ ts) (h2 : ts < 2 ^ 63) :
    wrapS64 ((((ts / 2 ^ 32) % 2 ^ 32).toNat : Int) * 2 ^ 32 + ((ts % 2 ^ 32).toNat : Int)) = ts := by
  unfold wrapS64
  omega

theorem savePacket_ok (K : Consts) (s : State) (f : WFile) (p : RRpacket)
    (hf : s.RecordFile = some f) (h20 : 20 ≤ RRpacketHdrSize K) (hpos : 0 < p.len)
    (hlen : p.data.length = p.len) (hroom : RRpacketHdrSize K + p.len ≤ f.room) :
    ∃ pad, pad.length = RRpacketHdrSize K - 20 ∧
      savePacket K s p =
        (true,
         { s with
           RecordFile := some { f with
             bytes := f.bytes ++ (packPacketHeader p s.RecordFilePrevLen ++ pad) ++ p.data,
             room := f.room - RRpacketHdrSize K - p.len },
           RecordFileBytes := (s.RecordFileBytes + (p.len + RRpacketHdrSize K) % 2 ^ 32) % 2 ^ 32,
           RecordFilePackets := (s.RecordFilePackets + 1) % 2 ^ 32,
           RecordFilePrevLen := p.len }) := by
  obtain ⟨pad, hpad, hpl⟩ := autoBuf_eq s.junk (packPacketHeader p s.RecordFilePrevLen)
    (RRpacketHdrSize K) (by rw [packPacketHeader_length]; exact h20)
  rw [packPacketHeader_length] at hpl
  refine ⟨pad, hpl, ?_⟩
  have hbl : (packPacketHeader p s.RecordFilePrevLen ++ pad).length = RRpacketHdrSize K := by
    rw [List.length_append, packPacketHeader_length, hpl]; omega
  unfold savePacket
  simp only [hf, hpad]
  rw [fwrite_ok _ _ f (by omega) (by omega) hbl]
  simp only [Nat.one_ne_zero, if_false]
  rw [fwrite_ok _ _ _ hpos (by simp only; omega) hlen]
  simp only [Nat.one_ne_zero, if_false, List.append_assoc]

theorem strncpy_length (src : List Nat) (n : Nat) : (strncpy src n).length = n := by
  simp [strncpy]

theorem nboPackString_self (l : List Nat) (n : Nat) (h : l.length = n) : nboPackString l n = l := by
  subst h; simp [nboPackString]

theorem unpackString_mid (a b c : List Nat) (off n : Nat) (ha : a.length = off) (hb : b.length = n) :
    nboUnpackString (a ++ b ++ c) off n = b := by
  subst ha; subst hb
  simp [nboUnpackString]

/-- The seven integers at the front of the header buffer. -/
def packHeaderInts (K : Consts) (E : Server) (p : Nat) : List Nat :=
  nboPackUInt ReplayMagic ++ nboPackUInt ReplayVersion
    ++ nboPackUInt (ReplayHeaderSize K + E.worldDatabase.length % 2 ^ 32 + E.flagTypes.length % 2 ^ 32)
    ++ nboPackUInt 0 ++ nboPackUInt p ++ nboPackUInt (E.flagTypes.length % 2 ^ 32)
    ++ nboPackUInt (E.worldDatabase.length % 2 ^ 32)

theorem packHeaderInts_length (K : Consts) (E : Server) (p : Nat) :
    (packHeaderInts K E p).length = 28 := by
  simp [packHeaderInts, nboPackUInt]

theorem packHeader_eq (K : Consts) (E : Server) (s : State) (p : Nat) :
    packHeader K E s p =
      packHeaderInts K E p ++ strncpy (s.player.getD p default).callSign K.CallSignLen
        ++ strncpy (s.player.getD p default).email K.EmailLen
        ++ strncpy E.serverVersion 8 ++ strncpy E.appVersion K.MessageLen
        ++ strncpy E.hexDigest 64 := by
  simp only [packHeader, packHeaderInts, nboPackString_self _ _ (strncpy_length _ _),
    List.append_assoc]

theorem packHeader_length (K : Consts) (E : Server) (s : State) (p : Nat) :
    (packHeader K E s p).length = 28 + K.CallSignLen + K.EmailLen + 8 + K.MessageLen + 64 := by
  rw [packHeader_eq]
  simp only [List.length_append, packHeaderInts_length, strncpy_length]

theorem unpack_seven (a b c d e f g : Nat) (t : List Nat) :
    nboUnpackUInt (nboPackUInt a ++ nboPackUInt b ++ nboPackUInt c ++ nboPackUInt d
      ++ nboPackUInt e ++ nboPackUInt f ++ nboPackUInt g ++ t) 0 = a % 2 ^ 32 ∧
    nboUnpackUInt (nboPackUInt a ++ nboPackUInt b ++ nboPackUInt c ++ nboPackUInt d
      ++ nboPackUInt e ++ nboPackUInt f ++ nboPackUInt g ++ t) 4 = b % 2 ^ 32 ∧
    nboUnpackUInt (nboPackUInt a ++ nboPackUInt b ++ nboPackUInt c ++ nboPackUInt d
      ++ nboPackUInt e ++ nboPackUInt f ++ nboPackUInt g ++ t) 8 = c % 2 ^ 32 ∧
    nboUnpackUInt (nboPackUInt a ++ nboPackUInt b ++ nboPackUInt c ++ nboPackUInt d
      ++ nboPackUInt e ++ nboPackUInt f ++ nboPackUInt g ++ t) 12 = d % 2 ^ 32 ∧
    nboUnpackUInt (nboPackUInt a ++ nboPackUInt b ++ nboPackUInt c ++ nboPackUInt d
      ++ nboPackUInt e ++ nboPackUInt f ++ nboPackUInt g ++ t) 16 = e % 2 ^ 32 ∧
    nboUnpackUInt (nboPackUInt a ++ nboPackUInt b ++ nboPackUInt c ++ nboPackUInt d
      ++ nboPackUInt e ++ nboPackUInt f ++ nboPackUInt g ++ t) 20 = f % 2 ^ 32 ∧
    nboUnpackUInt (nboPackUInt a ++ nboPackUInt b ++ nboPackUInt c ++ nboPackUInt d
      ++ nboPackUInt e ++ nboPackUInt f ++ nboPackUInt g ++ t) 24 = g % 2 ^ 32 := by
  simp only [nboPackUInt, nboUnpackUInt,
    List.cons_append, List.nil_append, List.getD_cons_zero, List.getD_cons_succ]
  refine ⟨?_, ?_, ?_, ?_, ?_, ?_, ?_⟩ <;> omega

theorem unpack_packHeaderInts (K : Consts) (E : Server) (p : Nat) (t : List Nat) :
    nboUnpackUInt (packHeaderInts K E p ++ t) 0 = ReplayMagic ∧
    nboUnpackUInt (packHeaderInts K E p ++ t) 4 = ReplayVersion ∧
    nboUnpackUInt (packHeaderInts K E p ++ t) 8 =
      (ReplayHeaderSize K + E.worldDatabase.length % 2 ^ 32 + E.flagTypes.length % 2 ^ 32) % 2 ^ 32 ∧
    nboUnpackUInt (packHeaderInts K E p ++ t) 12 = 0 ∧
    nboUnpackUInt (packHeaderInts K E p ++ t) 16 = p % 2 ^ 32 ∧
    nboUnpackUInt (packHeaderInts K E p ++ t) 20 = E.flagTypes.length % 2 ^ 32 ∧
    nboUnpackUInt (packHeaderInts K E p ++ t) 24 = E.worldDatabase.length % 2 ^ 32 := by
  obtain ⟨h0, h1, h2, h3, h4, h5, h6⟩ := unpack_seven ReplayMagic ReplayVersion
    (ReplayHeaderSize K + E.worldDatabase.length % 2 ^ 32 + E.flagTypes.length % 2 ^ 32) 0 p
    (E.flagTypes.length % 2 ^ 32) (E.worldDatabase.length % 2 ^ 32) t
  refine ⟨?_, ?_, h2, ?_, h4, ?_, ?_⟩
  · rw [packHeaderInts, h0]; norm_num [ReplayMagic]
  · rw [packHeaderInts, h1]; norm_num [ReplayVersion]
  · rw [packHeaderInts, h3]; norm_num
  · rw [packHeaderInts, h5]; exact Nat.mod_mod _ _
  · rw [packHeaderInts, h6]; exact Nat.mod_mod _ _

theorem saveHeader_ok (K : Consts) (E : Server) (s : State) (f : WFile) (p : Nat)
    (hK : K.Sane) (hf : s.RecordFile = some f)
    (hw0 : 0 < E.worldDatabase.length) (hw : E.worldDatabase.length < 2 ^ 32)
    (hfl : E.flagTypes.length < 2 ^ 32)
    (hroom : ReplayHeaderSize K + E.flagTypes.length + E.worldDatabase.length ≤ f.room) :
    ∃ pad, pad.length = ReplayHeaderSize K - (28 + K.CallSignLen + K.EmailLen + 8 + K.MessageLen + 64) ∧
      saveHeader K E s p =
        (true,
         { s with
           RecordFile := some { f with
             bytes := f.bytes ++ ((packHeader K E s p ++ pad) ++ E.flagTypes ++ E.worldDatabase),
             room := f.room - (ReplayHeaderSize K + E.flagTypes.length + E.worldDatabase.length) },
           RecordFileBytes := (s.RecordFileBytes +
             (ReplayHeaderSize K + E.worldDatabase.length + E.flagTypes.length) % 2 ^ 32) % 2 ^ 32 }) := by
  have hge := replayHeaderSize_ge K hK
  obtain ⟨pad, hpad, hpl⟩ := autoBuf_eq s.junk (packHeader K E s p) (ReplayHeaderSize K)
    (by rw [packHeader_length]; exact hge)
  rw [packHeader_length] at hpl
  refine ⟨pad, hpl, ?_⟩
  have hbl : (packHeader K E s p ++ pad).length = ReplayHeaderSize K := by
    rw [List.length_append, packHeader_length, hpl]; omega
  have hwm : E.worldDatabase.length % 2 ^ 32 = E.worldDatabase.length := Nat.mod_eq_of_lt hw
  have hfm : E.flagTypes.length % 2 ^ 32 = E.flagTypes.length := Nat.mod_eq_of_lt hfl
  unfold saveHeader
  simp only [hf, hpad, hwm, hfm]
  rw [fwrite_ok _ _ f (by omega) (by omega) hbl]
  simp only [Nat.one_ne_zero, if_false]
  by_cases hz : E.flagTypes.length = 0
  · have hnil : E.flagTypes = [] := List.length_eq_zero.mp hz
    simp only [hz, gt_iff_lt, Nat.lt_irrefl, if_false, Nat.one_ne_zero]
    rw [fwrite_ok _ _ _ hw0 (by simp only; omega) rfl]
    simp only [Nat.one_ne_zero, if_false, hnil, List.append_nil, List.append_assoc, List.length_nil,
      Nat.add_zero, Nat.sub_sub]
  · have hpos : 0 < E.flagTypes.length := Nat.pos_of_ne_zero hz
    simp only [gt_iff_lt, hpos, if_true]
    rw [fwrite_ok _ _ _ hpos (by simp only; omega) rfl]
    simp only [Nat.one_ne_zero, if_false]
    rw [fwrite_ok _ _ _ hw0 (by simp only; omega) rfl]
    simp only [Nat.one_ne_zero, if_false, List.append_assoc, Nat.sub_sub]

theorem loadHeader_ok (K : Consts) (E : Server) (s : State) (f : RFile)
    (hb flags world rest : List Nat)
    (hf : s.ReplayFile = some f) (hrest : f.rest = hb ++ flags ++ world ++ rest)
    (hlen : hb.length = ReplayHeaderSize K) (hpos : 0 < ReplayHeaderSize K)
    (hfs : (unpackHeader K hb).flagsSize = flags.length)
    (hws : (unpackHeader K hb).worldSize = world.length) (hw0 : 0 < world.length) :
    ∃ msgs, loadHeader K E s =
      (some { unpackHeader K hb with flags := flags, world := world },
       { s with ReplayFile := some { f with rest := rest }, out := s.out ++ msgs }) := by
  obtain ⟨name, r⟩ := f
  simp only at hrest
  subst hrest
  unfold loadHeader
  simp only [hf]
  rw [List.append_assoc, List.append_assoc, fread_ok _ _ _ _ hpos hlen]
  simp only [hfs, hws]
  have hfl : (if flags.length > 0 then fread flags.length { name := name, rest := flags ++ (world ++ rest) }
      else (some [], { name := name, rest := flags ++ (world ++ rest) })) =
      (some flags, { name := name, rest := world ++ rest }) := by
    by_cases hz : flags.length = 0
    · have hnil : flags = [] := List.length_eq_zero.mp hz
      subst hnil
      simp
    · have : 0 < flags.length := Nat.pos_of_ne_zero hz
      simp only [gt_iff_lt, this, if_true]
      exact fread_ok _ _ _ _ this rfl
  rw [hfl]
  simp only
  rw [fread_ok _ _ _ _ hw0 rfl]
  simp only
  split
  · exact ⟨[.message none "An incompatible recording has been loaded",
            .message none "Please rejoin or face the consequences (client crashes)"], by
      simp [sendMessage]⟩
  · exact ⟨[], by simp⟩

theorem unpack_blocks (i cs em sv av rh pad : List Nat) (C E M : Nat)
    (hi : i.length = 28) (hcs : cs.length = C) (hem : em.length = E) (hsv : sv.length = 8)
    (hav : av.length = M) (hrh : rh.length = 64) :
    nboUnpackString (i ++ cs ++ em ++ sv ++ av ++ rh ++ pad) 28 C = cs ∧
    nboUnpackString (i ++ cs ++ em ++ sv ++ av ++ rh ++ pad) (28 + C) E = em ∧
    nboUnpackString (i ++ cs ++ em ++ sv ++ av ++ rh ++ pad) (28 + C + E) 8 = sv ∧
    nboUnpackString (i ++ cs ++ em ++ sv ++ av ++ rh ++ pad) (28 + C + E + 8) M = av ∧
    nboUnpackString (i ++ cs ++ em ++ sv ++ av ++ rh ++ pad) (28 + C + E + 8 + M) 64 = rh := by
  refine ⟨?_, ?_, ?_, ?_, ?_⟩
  · have e : i ++ cs ++ em ++ sv ++ av ++ rh ++ pad = i ++ cs ++ (em ++ sv ++ av ++ rh ++ pad) := by
      simp only [List.append_assoc]
    rw [e]; exact unpackString_mid _ _ _ _ _ hi hcs
  · have e : i ++ cs ++ em ++ sv ++ av ++ rh ++ pad = (i ++ cs) ++ em ++ (sv ++ av ++ rh ++ pad) := by
      simp only [List.append_assoc]
    rw [e]; exact unpackString_mid _ _ _ _ _ (by simp [hi, hcs]) hem
  · have e : i ++ cs ++ em ++ sv ++ av ++ rh ++ pad = (i ++ cs ++ em) ++ sv ++ (av ++ rh ++ pad) := by
      simp only [List.append_assoc]
    rw [e]; exact unpackString_mid _ _ _ _ _ (by simp [hi, hcs, hem]; omega) hsv
  · have e : i ++ cs ++ em ++ sv ++ av ++ rh ++ pad = (i ++ cs ++ em ++ sv) ++ av ++ (rh ++ pad) := by
      simp only [List.append_assoc]
    rw [e]; exact unpackString_mid _ _ _ _ _ (by simp [hi, hcs, hem, hsv]; omega) hav
  · exact unpackString_mid _ _ _ _ _ (by simp [hi, hcs, hem, hsv, hav]; omega) hrh

theorem unpackHeader_packHeader (K : Consts) (E : Server) (s : State) (p : Nat) (pad : List Nat) :
    unpackHeader K (packHeader K E s p ++ pad) =
      { magic := ReplayMagic, version := ReplayVersion,
        offset := (ReplayHeaderSize K + E.worldDatabase.length % 2 ^ 32
                    + E.flagTypes.length % 2 ^ 32) % 2 ^ 32,
        seconds := 0, player := p % 2 ^ 32,
        flagsSize := E.flagTypes.length % 2 ^ 32,
        worldSize := E.worldDatabase.length % 2 ^ 32,
        callSign := strncpy (s.player.getD p default).callSign K.CallSignLen,
        email := strncpy (s.player.getD p default).email K.EmailLen,
        serverVersion := strncpy E.serverVersion 8,
        appVersion := strncpy E.appVersion K.MessageLen,
        realHash := strncpy E.hexDigest 64,
        flags := [], world := [] } := by
  rw [packHeader_eq]
  obtain ⟨b1, b2, b3, b4, b5⟩ := unpack_blocks (packHeaderInts K E p)
    (strncpy (s.player.getD p default).callSign K.CallSignLen)
    (strncpy (s.player.getD p default).email K.EmailLen)
    (strncpy E.serverVersion 8) (strncpy E.appVersion K.MessageLen) (strncpy E.hexDigest 64) pad
    K.CallSignLen K.EmailLen K.MessageLen (packHeaderInts_length K E p)
    (strncpy_length _ _) (strncpy_length _ _) (strncpy_length _ _) (strncpy_length _ _)
    (strncpy_length _ _)
  have e : packHeaderInts K E p ++ strncpy (s.player.getD p default).callSign K.CallSignLen
        ++ strncpy (s.player.getD p default).email K.EmailLen
        ++ strncpy E.serverVersion 8 ++ strncpy E.appVersion K.MessageLen
        ++ strncpy E.hexDigest 64 ++ pad =
      packHeaderInts K E p ++ (strncpy (s.player.getD p default).callSign K.CallSignLen
        ++ strncpy (s.player.getD p default).email K.EmailLen
        ++ strncpy E.serverVersion 8 ++ strncpy E.appVersion K.MessageLen
        ++ strncpy E.hexDigest 64 ++ pad) := by
    simp only [List.append_assoc]
  obtain ⟨a0, a1, a2, a3, a4, a5, a6⟩ := unpack_packHeaderInts K E p
    (strncpy (s.player.getD p default).callSign K.CallSignLen
        ++ strncpy (s.player.getD p default).email K.EmailLen
        ++ strncpy E.serverVersion 8 ++ strncpy E.appVersion K.MessageLen
        ++ strncpy E.hexDigest 64 ++ pad)
  rw [← e] at a0 a1 a2 a3 a4 a5 a6
  unfold unpackHeader
  simp only [a0, a1, a2, a3, a4, a5, a6, b1, b2, b3, b4, b5]

/-! ## Sample inputs -/

/-- A file open for writing with room for a thousand bytes. -/
def sampleWFile : WFile := { name := ['a'], bytes := [], room := 1000 }

/-- A server with two teams, no flags, no rabbit, a 40-byte world, whose
record directory can be created. -/
def sampleServer : Server :=
  { team := [[0, 0, 1, 0, 2, 0, 3], [1, 0, 0, 0, 0, 0, 0]], flag := [], rabbit := none,
    worldDatabase := List.replicate 40 9, hexDigest := [112, 97], flagTypes := [71, 77],
    flagsInactive := fun _ => false, serverVersion := [66, 90], appVersion := [49],
    dirOk := true, canCreate := fun _ => true, room := 100000 }

/-- A buffered recording with a budget of 1024 bytes and an empty buffer. -/
def budget1024 : State := { initialState with Recording := true, RecordMaxBytes := 1024 }

/-- The scenario of the byte budget on an LP64 host (40-byte packet header):
one snapshot packet of 200 bytes (`MsgTeamUpdate`, 160 bytes of payload), then
ten live packets of 100 bytes (60 bytes of payload). -/
def budgetPushes : List (Nat × Nat × Nat) :=
  (lp64.MsgTeamUpdate, 160, lp64.StatePacket) :: List.replicate 10 (0x6d73, 60, lp64.RealPacket)

/-- The recording after the first `n` pushes of the scenario. -/
def afterPushes (n : Nat) : State :=
  (budgetPushes.take n).foldl
    (fun s c => (routePacket lp64 0 s c.1 c.2.1 (List.replicate c.2.1 7) c.2.2).2) budget1024

/-! ## Theorems on the codec and the sessions -/

/-- C2, at the failing input. A packet with an empty payload is not saved:
`savePacket` writes its header, takes the 0 that `fwrite` returns for a
zero-sized item for a failure and returns false; `loadPacket` on the bytes
written returns no packet either. -/
theorem empty_payload_not_saved :
    (savePacket lp64 { initialState with RecordFile := some sampleWFile }
      (initPacket 0 5 0 [] 77)).1 = false ∧
    (savePacket lp64 { initialState with RecordFile := some sampleWFile }
      (initPacket 0 5 0 [] 77)).2.RecordFile =
      some { sampleWFile with
             bytes := [0, 0, 0, 5, 0, 0, 0, 0, 0, 0, 0, 0, 0, 0, 0, 0, 0, 0, 0, 77]
                        ++ List.replicate 20 0,
             room := 960 } ∧
    (loadPacket lp64 { initialState with
      ReplayFile := some { name := ['a'],
                           rest := [0, 0, 0, 5, 0, 0, 0, 0, 0, 0, 0, 0, 0, 0, 0, 0, 0, 0, 0, 77]
                                     ++ List.replicate 20 0 } }).1 = none := by
  decide

/-- C3, at the failing input. The header `savePacket` writes is
`RRpacketHdrSize` bytes long, which is `sizeof(RRpacket) - sizeof(void*)`: 40
bytes on an LP64 host and 28 on an ILP32 host, not 20; a packet with 3 bytes
of payload makes a record of 43 bytes on the first and 31 on the second, the
20 packed bytes being followed by bytes that were never written. -/
theorem packet_header_size_depends_on_host :
    RRpacketHdrSize lp64 = 40 ∧ RRpacketHdrSize ilp32 = 28 ∧
    (savePacket lp64 { initialState with RecordFile := some sampleWFile }
      (initPacket 0 5 3 [1, 2, 3] 77)).2.RecordFile =
      some { sampleWFile with
             bytes := [0, 0, 0, 5, 0, 0, 0, 3, 0, 0, 0, 0, 0, 0, 0, 0, 0, 0, 0, 77]
                        ++ List.replicate 20 0 ++ [1, 2, 3],
             room := 957 } ∧
    (savePacket ilp32 { initialState with RecordFile := some sampleWFile }
      (initPacket 0 5 3 [1, 2, 3] 77)).2.RecordFile =
      some { sampleWFile with
             bytes := [0, 0, 0, 5, 0, 0, 0, 3, 0, 0, 0, 0, 0, 0, 0, 0, 0, 0, 0, 77]
                        ++ List.replicate 8 0 ++ [1, 2, 3],
             room := 969 } := by
  decide

/-- C7, at the failing input. Budget 1024 bytes, one 200-byte snapshot packet
and 100-byte live packets: the buffer holds 1000 bytes after the ninth push,
the tenth push (1100 bytes) starts the eviction, which removes the snapshot
packet itself and stops; the buffer is left with nine live packets, its tail
a live packet, and an eleventh push adds a tenth. -/
theorem eviction_removes_the_boundary :
    (afterPushes 9).RecordBuf.byteCount = 1000 ∧
    (afterPushes 9).RecordBuf.pkts.map (fun p => (p.mode, p.code)) =
      (lp64.StatePacket, lp64.MsgTeamUpdate) :: List.replicate 8 (lp64.RealPacket, 0x6d73) ∧
    (afterPushes 10).RecordBuf.byteCount = 900 ∧
    (afterPushes 10).RecordBuf.pkts.map (fun p => (p.mode, p.code)) =
      List.replicate 9 (lp64.RealPacket, 0x6d73) ∧
    (afterPushes 11).RecordBuf.pkts.map (fun p => (p.mode, p.code)) =
      List.replicate 10 (lp64.RealPacket, 0x6d73) := by
  decide

/-- C9, at the failing input. From the initial state, `Record::start` followed
by `Replay::kill` leaves Recording and ReplayMode both true: `Replay::kill`
calls `replayReset`, which sets ReplayMode, without the test of Recording
that `Replay::init` makes. -/
theorem kill_enters_replay_mode_while_recording :
    (Record.start lp64 sampleServer 0 initialState 0).1 = true ∧
    (Replay.kill lp64 (Record.start lp64 sampleServer 0 initialState 0).2).1 = true ∧
    (Replay.kill lp64 (Record.start lp64 sampleServer 0 initialState 0).2).2.Recording = true ∧
    (Replay.kill lp64 (Record.start lp64 sampleServer 0 initialState 0).2).2.ReplayMode = true := by
  decide

/-- C10. `Record::stop` returns false exactly when Recording is false, and
then changes nothing but for the message it sends. Otherwise it returns true
with Recording false; a buffered session keeps its mode, its buffer (packets,
order, byteCount, packetCount), its file counters and its files; a streaming
session has its output file closed (its bytes are on disk under its name) and
RecordFileBytes, RecordFilePackets and RecordFilePrevLen reset to 0. -/
theorem stop_postcondition (s : State) (playerIndex : Nat) :
    (((Record.stop s playerIndex).1 = false ∧
        { (Record.stop s playerIndex).2 with out := s.out } = s) ↔ s.Recording = false) ∧
    (s.Recording = false →
      (Record.stop s playerIndex).2 =
        sendMessage s (some playerIndex) "Couldn't stop capturing") ∧
    (s.Recording = true →
      (Record.stop s playerIndex).1 = true ∧
      (Record.stop s playerIndex).2.Recording = false ∧
      (s.RecordMode = .BufferedRecord →
        (Record.stop s playerIndex).2 =
          { sendMessage s (some playerIndex) "Record stopped" with Recording := false }) ∧
      (s.RecordMode = .StraightToFile →
        (Record.stop s playerIndex).2.RecordFile = none ∧
        (Record.stop s playerIndex).2.RecordFileBytes = 0 ∧
        (Record.stop s playerIndex).2.RecordFilePackets = 0 ∧
        (Record.stop s playerIndex).2.RecordFilePrevLen = 0 ∧
        (∀ f, s.RecordFile = some f →
          (Record.stop s playerIndex).2.disk = closeW s.disk f))) := by
  cases hrec : s.Recording with
  | false =>
    refine ⟨⟨fun _ => rfl, fun _ => ?_⟩, fun _ => ?_, fun h => absurd h (by simp)⟩
    · cases s
      simp_all [Record.stop, sendMessage]
    · simp [Record.stop, hrec]
  | true =>
    refine ⟨⟨fun h => ?_, fun h => absurd h (by simp)⟩, fun h => absurd h (by simp), fun _ => ?_⟩
    · exfalso
      have h1 := h.1
      cases hm : s.RecordMode <;> simp [Record.stop, hrec, hm, sendMessage] at h1
    · cases hm : s.RecordMode with
      | BufferedRecord =>
        simp [Record.stop, hrec, hm, sendMessage]
      | StraightToFile =>
        cases hf : s.RecordFile <;>
          simp [Record.stop, hrec, hm, sendMessage, recordReset, hf]

/-- A recording session with a freshly opened output file and one player slot. -/
def sampleSaving : State :=
  { initialState with
    RecordFile := some sampleWFile,
    player := [{ playing := true, replayState := .ReplayNone, callSign := [116, 105, 109],
                 email := [116, 64, 98], update := [1, 2], sizeOfIP := 4, properties := 0,
                 adminInfo := [127, 0, 0, 1] }] }

/-- C6. File header round trip. When `saveHeader` writes to a freshly opened
file with room for the header, for a player index, a world database (not
empty) and sizes that fit 32 bits, it returns true, writes exactly
`ReplayHeaderSize + flagsSize + worldSize` bytes, and `loadHeader` reading
those bytes (followed by anything) returns the header with magic 0x425A7272,
version 1, offset equal to the number of bytes written, seconds 0, the player
index, flagsSize, worldSize, the five text fields as the fixed-width arrays
that were written, the catalogue and the world, leaving the file at the first
byte after the world. -/
theorem header_round_trip (K : Consts) (E E2 : Server) (s s2 : State) (f : WFile) (p : Nat)
    (rest : List Nat) (hK : K.Sane) (hf : s.RecordFile = some f) (hfresh : f.bytes = [])
    (hp : p < 2 ^ 32) (hw0 : 0 < E.worldDatabase.length)
    (htot : ReplayHeaderSize K + E.flagTypes.length + E.worldDatabase.length < 2 ^ 32)
    (hroom : ReplayHeaderSize K + E.flagTypes.length + E.worldDatabase.length ≤ f.room) :
    (saveHeader K E s p).1 = true ∧
    ∃ written,
      (saveHeader K E s p).2.RecordFile =
        some { f with bytes := written, room := f.room - written.length } ∧
      written.length = ReplayHeaderSize K + E.flagTypes.length + E.worldDatabase.length ∧
      ∃ msgs,
        loadHeader K E2 { s2 with ReplayFile := some { name := f.name, rest := written ++ rest } } =
          (some { magic := ReplayMagic, version := ReplayVersion, offset := written.length,
                  seconds := 0, player := p,
                  flagsSize := E.flagTypes.length, worldSize := E.worldDatabase.length,
                  callSign := strncpy (s.player.getD p default).callSign K.CallSignLen,
                  email := strncpy (s.player.getD p default).email K.EmailLen,
                  serverVersion := strncpy E.serverVersion 8,
                  appVersion := strncpy E.appVersion K.MessageLen,
                  realHash := strncpy E.hexDigest 64,
                  flags := E.flagTypes, world := E.worldDatabase },
           { s2 with ReplayFile := some { name := f.name, rest := rest },
                     out := s2.out ++ msgs }) := by
  have hw : E.worldDatabase.length < 2 ^ 32 := by omega
  have hfl : E.flagTypes.length < 2 ^ 32 := by omega
  have hge := replayHeaderSize_ge K hK
  obtain ⟨pad, hpl, hsave⟩ := saveHeader_ok K E s f p hK hf hw0 hw hfl hroom
  have hbl : (packHeader K E s p ++ pad).length = ReplayHeaderSize K := by
    rw [List.length_append, packHeader_length, hpl]; omega
  have hwl : ((packHeader K E s p ++ pad) ++ E.flagTypes ++ E.worldDatabase).length =
      ReplayHeaderSize K + E.flagTypes.length + E.worldDatabase.length := by
    rw [List.length_append, List.length_append, hbl]
  have hun := unpackHeader_packHeader K E s p pad
  have hwm : E.worldDatabase.length % 2 ^ 32 = E.worldDatabase.length := Nat.mod_eq_of_lt hw
  have hfm : E.flagTypes.length % 2 ^ 32 = E.flagTypes.length := Nat.mod_eq_of_lt hfl
  have hpm : p % 2 ^ 32 = p := Nat.mod_eq_of_lt hp
  have hom : (ReplayHeaderSize K + E.worldDatabase.length + E.flagTypes.length) % 2 ^ 32 =
      ReplayHeaderSize K + E.flagTypes.length + E.worldDatabase.length := by
    rw [Nat.mod_eq_of_lt (by omega)]; omega
  rw [hwm, hfm, hpm, hom] at hun
  refine ⟨by rw [hsave], (packHeader K E s p ++ pad) ++ E.flagTypes ++ E.worldDatabase, ?_, hwl, ?_⟩
  · rw [hsave, hwl, hfresh, List.nil_append]
  · obtain ⟨msgs, hload⟩ := loadHeader_ok K E2
      { s2 with ReplayFile := some ⟨f.name,
          (packHeader K E s p ++ pad) ++ E.flagTypes ++ E.worldDatabase ++ rest⟩ }
      ⟨f.name, (packHeader K E s p ++ pad) ++ E.flagTypes ++ E.worldDatabase ++ rest⟩
      (packHeader K E s p ++ pad) E.flagTypes E.worldDatabase rest rfl rfl hbl (by omega)
      (by rw [hun]) (by rw [hun]) hw0
    refine ⟨msgs, ?_⟩
    rw [hload, hun, hwl]

/-- C6 at a concrete input: a player saving a 2-byte catalogue and a 40-byte
world on an LP64 host. -/
theorem header_round_trip_witness :
    lp64.Sane ∧ sampleSaving.RecordFile = some sampleWFile ∧
    (saveHeader lp64 sampleServer sampleSaving 0).1 = true ∧
    ∃ written msgs,
      written.length = 392 + 2 + 40 ∧
      (loadHeader lp64 sampleServer
        { initialState with ReplayFile := some { name := ['a'], rest := written ++ [5, 6] } }).1 =
        some { magic := 0x425A7272, version := 1, offset := written.length, seconds := 0,
               player := 0, flagsSize := 2, worldSize := 40,
               callSign := strncpy [116, 105, 109] 32, email := strncpy [116, 64, 98] 128,
               serverVersion := strncpy [66, 90] 8, appVersion := strncpy [49] 128,
               realHash := strncpy [112, 97] 64,
               flags := [71, 77], world := List.replicate 40 9 } ∧
      (loadHeader lp64 sampleServer
        { initialState with ReplayFile := some { name := ['a'], rest := written ++ [5, 6] } }).2 =
        { initialState with ReplayFile := some { name := ['a'], rest := [5, 6] },
                            out := initialState.out ++ msgs } := by
  obtain ⟨h1, written, _, h3, msgs, h4⟩ :=
    header_round_trip lp64 sampleServer sampleServer sampleSaving initialState sampleWFile 0
      [5, 6] (by decide) rfl rfl (by decide) (by decide) (by decide) (by decide)
  exact ⟨by decide, rfl, h1, written, msgs, h3, congrArg Prod.fst h4, congrArg Prod.snd h4⟩

/-- A packet record as it stands in a file: the header bytes and the payload. -/
def ValidRecord (K : Consts) (r : List Nat × List Nat) : Prop :=
  r.1.length = RRpacketHdrSize K ∧ declaredLen r.1 = r.2.length ∧ 0 < r.2.length ∧
    r.2.length ≤ maxLoadLen K

instance (K : Consts) (r : List Nat × List Nat) : Decidable (ValidRecord K r) := by
  unfold ValidRecord; infer_instance

/-- The bytes of a sequence of records. -/
def recordBytes (recs : List (List Nat × List Nat)) : List Nat :=
  (recs.map (fun r => r.1 ++ r.2)).flatten

theorem recordBytes_length (K : Consts) (h20 : 20 ≤ RRpacketHdrSize K)
    (recs : List (List Nat × List Nat)) (hv : ∀ r ∈ recs, ValidRecord K r) :
    recs.length ≤ (recordBytes recs).length := by
  induction recs with
  | nil => simp
  | cons r rs ih =>
    have h1 := (hv r (List.mem_cons_self _ _)).1
    have h2 := ih (fun q hq => hv q (List.mem_cons_of_mem _ hq))
    simp only [recordBytes, List.map_cons, List.flatten_cons, List.length_append, List.length_cons]
      at h2 ⊢
    omega

theorem preload_oversize (K : Consts) (h20 : 20 ≤ RRpacketHdrSize K) (bad rest : List Nat)
    (hbad : bad.length = RRpacketHdrSize K) (hbig : maxLoadLen K < declaredLen bad) :
    ∀ (recs : List (List Nat × List Nat)) (s : State) (f : RFile) (fuel : Nat),
      s.ReplayFile = some f → f.rest = recordBytes recs ++ bad ++ rest →
      (∀ r ∈ recs, ValidRecord K r) →
      s.ReplayBuf.byteCount + (recs.map (fun r => r.2.length + RRpacketHdrSize K)).sum
        < s.RecordMaxBytes →
      recs.length < fuel →
      ∃ t, preload K fuel s = replayReset K t := by
  intro recs
  induction recs with
  | nil =>
    intro s f fuel hf hrest _ hwin hfuel
    cases fuel with
    | zero => omega
    | succ n =>
      simp only [List.map_nil, List.sum_nil, Nat.add_zero] at hwin
      have hl := loadPacket_oversize K s f bad rest hf (by simpa [recordBytes] using hrest)
        hbad h20 hbig
      refine ⟨s, ?_⟩
      simp only [preload, hwin, if_true, hl]
  | cons r rs ih =>
    intro s f fuel hf hrest hv hwin hfuel
    cases fuel with
    | zero => omega
    | succ n =>
      obtain ⟨hv1, hv2, hv3, hv4⟩ := hv r (List.mem_cons_self _ _)
      simp only [List.map_cons, List.sum_cons] at hwin
      have hlt : s.ReplayBuf.byteCount < s.RecordMaxBytes := by omega
      have hrest' : f.rest = r.1 ++ r.2 ++ (recordBytes rs ++ bad ++ rest) := by
        rw [hrest]; simp [recordBytes, List.append_assoc]
      have hl := loadPacket_ok K s f r.1 r.2 (recordBytes rs ++ bad ++ rest) hf hrest' hv1 h20
        hv2 hv3 hv4
      simp only [preload, hlt, if_true, hl]
      apply ih _ { f with rest := recordBytes rs ++ bad ++ rest } n rfl rfl
        (fun q hq => hv q (List.mem_cons_of_mem _ hq))
      · simp only [addPacket]
        have := Nat.mod_le (s.ReplayBuf.byteCount + (r.2.length + RRpacketHdrSize K) % 2 ^ 32) (2 ^ 32)
        have := Nat.mod_le (r.2.length + RRpacketHdrSize K) (2 ^ 32)
        omega
      · simp only [List.length_cons] at hfuel
        omega

theorem loadFile_after_header (K : Consts) (E : Server) (s : State) (playerIndex : Nat)
    (filename : List Char) (f : RFile) (h : ReplayHeader) (s4 : State)
    (hmode : s.ReplayMode = true) (hname : badFilename filename = false)
    (hopen : openFileRead (replayReset K s) filename = some f)
    (hhdr : loadHeader K E { replayReset K s with ReplayFile := some f } = (some h, s4))
    (hmagic : h.magic = ReplayMagic) :
    Replay.loadFile K E s playerIndex filename =
      if (preload K (bytesLeft s4 + 1) s4).ReplayBuf.tail = none then
        (false, replayReset K
          (sendMessage (preload K (bytesLeft s4 + 1) s4) (some playerIndex) "No valid data"))
      else
        if !(preloadVariables K { preload K (bytesLeft s4 + 1) s4 with
              ReplayPos := (preload K (bytesLeft s4 + 1) s4).ReplayBuf.tail }).1 then
          (false, replayReset K
            (sendMessage (preloadVariables K { preload K (bytesLeft s4 + 1) s4 with
              ReplayPos := (preload K (bytesLeft s4 + 1) s4).ReplayBuf.tail }).2
              (some playerIndex) "Could not preload variables"))
        else
          (true, sendMessage (preloadVariables K { preload K (bytesLeft s4 + 1) s4 with
              ReplayPos := (preload K (bytesLeft s4 + 1) s4).ReplayBuf.tail }).2
              (some playerIndex) "Loaded file") := by
  have hrep : ¬ (replayReset K s).Replaying = true := by simp [replayReset]
  simp only at hhdr
  unfold Replay.loadFile
  simp only [hmode, hname, Bool.not_true, Bool.false_eq_true, if_false]
  rw [if_neg hrep]
  simp only [hopen, hhdr, hmagic, ne_eq, not_true_eq_false, if_false]

theorem openFileRead_found (s : State) (filename : List Char) (bytes : List Nat)
    (h : s.disk.find? (fun e => e.1 = filename) = some (filename, bytes)) :
    openFileRead s filename = some { name := filename, rest := bytes } := by
  simp [openFileRead, h]

/-- C4, amended. Given a whole packet header in the file, `loadPacket` returns
no packet and resets the replay session when the declared length exceeds
`MaxPacketLen - 4`, and returns the packet when the declared length is at
least 1 and at most `MaxPacketLen - 4` (equality included) and that many
payload bytes follow. And for every file with a readable header of the right
magic in which, after any number of valid records that fit the preload window
(their bytes stay below RecordMaxBytes), a record declares a length over
`MaxPacketLen - 4`, `Replay::loadFile` returns false and leaves the replay
session reset: empty ReplayBuf with zero counters, null cursor, no open file,
not playing. -/
theorem oversize_record_aborts_load (K : Consts) (E : Server) (s : State) (playerIndex : Nat)
    (filename : List Char) (hb flags world bad rest : List Nat)
    (recs : List (List Nat × List Nat))
    (hK : K.Sane) (hmode : s.ReplayMode = true) (hname : badFilename filename = false)
    (hdisk : s.disk.find? (fun e => e.1 = filename) =
      some (filename, hb ++ flags ++ world ++ (recordBytes recs ++ bad ++ rest)))
    (hlen : hb.length = ReplayHeaderSize K)
    (hmagic : (unpackHeader K hb).magic = ReplayMagic)
    (hfs : (unpackHeader K hb).flagsSize = flags.length)
    (hws : (unpackHeader K hb).worldSize = world.length) (hw0 : 0 < world.length)
    (hv : ∀ r ∈ recs, ValidRecord K r)
    (hbad : bad.length = RRpacketHdrSize K) (hbig : K.MaxPacketLen - 4 < declaredLen bad)
    (hwin : (recs.map (fun r => r.2.length + RRpacketHdrSize K)).sum < s.RecordMaxBytes) :
    (∀ (t : State) (g : RFile) (hd tl : List Nat),
      t.ReplayFile = some g → g.rest = hd ++ tl → hd.length = RRpacketHdrSize K →
      (K.MaxPacketLen - 4 < declaredLen hd → loadPacket K t = (none, replayReset K t)) ∧
      (0 < declaredLen hd → declaredLen hd ≤ K.MaxPacketLen - 4 → declaredLen hd ≤ tl.length →
        ∃ p, (loadPacket K t).1 = some p ∧ p.len = declaredLen hd ∧
          p.data = tl.take (declaredLen hd))) ∧
    (Replay.loadFile K E s playerIndex filename).1 = false ∧
    (Replay.loadFile K E s playerIndex filename).2.ReplayBuf =
      { byteCount := 0, packetCount := 0, pkts := [] } ∧
    (Replay.loadFile K E s playerIndex filename).2.ReplayPos = none ∧
    (Replay.loadFile K E s playerIndex filename).2.ReplayFile = none ∧
    (Replay.loadFile K E s playerIndex filename).2.Replaying = false := by
  have h20 : 20 ≤ RRpacketHdrSize K := by have := hdrSize_ge K hK; omega
  have hmax := maxLoadLen_eq K hK
  refine ⟨?_, ?_⟩
  · intro t g hd tl ht hg hhd
    refine ⟨fun hover => loadPacket_oversize K t g hd tl ht hg hhd h20 (by rw [hmax]; exact hover),
      fun hpos hle htl => ?_⟩
    have hsplit : tl = tl.take (declaredLen hd) ++ tl.drop (declaredLen hd) :=
      (List.take_append_drop _ _).symm
    have hlt : (tl.take (declaredLen hd)).length = declaredLen hd := by
      rw [List.length_take]; omega
    have hl := loadPacket_ok K t g hd (tl.take (declaredLen hd)) (tl.drop (declaredLen hd)) ht
      (by rw [hg, List.append_assoc, ← hsplit]) hhd h20 hlt.symm (by omega) (by rw [hlt, hmax]; exact hle)
    rw [hl]
    exact ⟨_, rfl, hlt, rfl⟩
  · have hopen := openFileRead_found (replayReset K s) filename _ hdisk
    have hrhs : 0 < ReplayHeaderSize K := by have := replayHeaderSize_ge K hK; omega
    obtain ⟨msgs, hhdr⟩ := loadHeader_ok K E
      { replayReset K s with ReplayFile := some ⟨filename,
          hb ++ flags ++ world ++ (recordBytes recs ++ bad ++ rest)⟩ }
      ⟨filename, hb ++ flags ++ world ++ (recordBytes recs ++ bad ++ rest)⟩
      hb flags world (recordBytes recs ++ bad ++ rest) rfl rfl hlen hrhs hfs hws hw0
    have hfuel : recs.length < bytesLeft
        { replayReset K s with
          ReplayFile := some ⟨filename, recordBytes recs ++ bad ++ rest⟩,
          out := (replayReset K s).out ++ msgs } + 1 := by
      have := recordBytes_length K h20 recs hv
      simp only [bytesLeft, List.length_append]
      omega
    obtain ⟨t, ht⟩ := preload_oversize K h20 bad rest hbad (by rw [hmax]; exact hbig) recs
      { replayReset K s with
        ReplayFile := some ⟨filename, recordBytes recs ++ bad ++ rest⟩,
        out := (replayReset K s).out ++ msgs }
      ⟨filename, recordBytes recs ++ bad ++ rest⟩ _ rfl rfl hv
      (by simpa [replayReset, freeBuffer] using hwin) hfuel
    rw [loadFile_after_header K E s playerIndex filename _ _ _ hmode hname hopen hhdr hmagic]
    have htail : (preload K (bytesLeft
        { replayReset K s with
          ReplayFile := some ⟨filename, recordBytes recs ++ bad ++ rest⟩,
          out := (replayReset K s).out ++ msgs } + 1)
        { replayReset K s with
          ReplayFile := some ⟨filename, recordBytes recs ++ bad ++ rest⟩,
          out := (replayReset K s).out ++ msgs }).ReplayBuf.tail = none := by
      rw [ht]; rfl
    rw [if_pos htail]
    exact ⟨rfl, rfl, rfl, rfl, rfl⟩

theorem loadHeader_state (K : Consts) (E : Server) (s : State) :
    (loadHeader K E s).2 =
      { s with ReplayFile := (loadHeader K E s).2.ReplayFile, out := (loadHeader K E s).2.out } := by
  unfold loadHeader
  cases hf : s.ReplayFile with
  | none => simp only
  | some f =>
    simp only
    cases hr : fread (ReplayHeaderSize K) f with
    | mk r f1 =>
      cases r with
      | none => rfl
      | some buffer =>
        simp only
        generalize (if (unpackHeader K buffer).flagsSize > 0 then
          fread (unpackHeader K buffer).flagsSize f1 else (some [], f1)) = x
        obtain ⟨fl, f2⟩ := x
        cases fl with
        | none => rfl
        | some flags =>
          simp only
          cases hw : fread (unpackHeader K buffer).worldSize f2 with
          | mk w f3 =>
            cases w with
            | none => rfl
            | some world =>
              simp only
              split <;> rfl

theorem loadHeader_frame (K : Consts) (E : Server) (s : State) :
    (loadHeader K E s).2.ReplayBuf = s.ReplayBuf := by
  rw [loadHeader_state]

theorem fread_some (size : Nat) (f : RFile) (buf : List Nat) (f1 : RFile)
    (h : fread size f = (some buf, f1)) : buf = f.rest.take size := by
  unfold fread at h
  split at h
  · simp at h
  · split at h
    · simp only [Prod.mk.injEq, Option.some.injEq] at h
      exact h.1.symm
    · simp at h

theorem unpackUInt_take (l : List Nat) (n off : Nat) (h : off + 4 ≤ n) :
    nboUnpackUInt (l.take n) off = nboUnpackUInt l off := by
  unfold nboUnpackUInt
  simp only [List.getD_eq_getElem?_getD]
  rw [List.getElem?_take_of_lt (by omega), List.getElem?_take_of_lt (by omega),
    List.getElem?_take_of_lt (by omega), List.getElem?_take_of_lt (by omega)]

theorem loadHeader_magic (K : Consts) (E : Server) (s : State) (f : RFile) (h : ReplayHeader)
    (hf : s.ReplayFile = some f) (h4 : 4 ≤ ReplayHeaderSize K)
    (hres : (loadHeader K E s).1 = some h) : h.magic = nboUnpackUInt f.rest 0 := by
  unfold loadHeader at hres
  simp only [hf] at hres
  cases hr : fread (ReplayHeaderSize K) f with
  | mk r f1 =>
    rw [hr] at hres
    cases r with
    | none => simp at hres
    | some buffer =>
      have hbuf := fread_some _ _ _ _ hr
      simp only at hres
      have hm : (unpackHeader K buffer).magic = nboUnpackUInt f.rest 0 := by
        rw [hbuf]; exact unpackUInt_take _ _ _ (by omega)
      generalize (if (unpackHeader K buffer).flagsSize > 0 then
          fread (unpackHeader K buffer).flagsSize f1 else (some [], f1)) = x at hres
      obtain ⟨fl, f2⟩ := x
      cases fl with
      | none => simp at hres
      | some flags =>
        simp only at hres
        cases hw : fread (unpackHeader K buffer).worldSize f2 with
        | mk w f3 =>
          rw [hw] at hres
          cases w with
          | none => simp at hres
          | some world =>
            simp only at hres
            split at hres <;>
              (simp only [Option.some.injEq] at hres; rw [← hres]; exact hm)

set_option maxRecDepth 100000

/-- A file header for an LP64 host: the given magic and version, no flag
catalogue, a world of 40 bytes. -/
def sampleHeader (magic version : Nat) : List Nat :=
  nboPackUInt magic ++ nboPackUInt version ++ nboPackUInt 432 ++ nboPackUInt 0 ++ nboPackUInt 0
    ++ nboPackUInt 0 ++ nboPackUInt 40 ++ List.replicate 364 0

/-- A valid record for an LP64 host: a `MsgSetVar` state packet with no pairs. -/
def sampleRecord : List Nat × List Nat :=
  (packPacketHeader { mode := lp64.StatePacket, code := lp64.MsgSetVar, len := 2, prev_len := 0,
                      timestamp := 5, data := [0, 0] } 0 ++ List.replicate 20 0, [0, 0])

/-- A packet header for an LP64 host that declares a payload of 5000 bytes. -/
def oversizeHeader : List Nat :=
  nboPackUShort 0 ++ nboPackUShort 5 ++ nboPackUInt 5000 ++ List.replicate 32 0

/-- A server in replay mode whose record directory holds the file `name`. -/
def replayServer (name : List Char) (bytes : List Nat) : State :=
  { initialState with ReplayMode := true, disk := [(name, bytes)] }

/-- C4 at a concrete input: a file with a good header, one valid record, then a
record that declares 5000 bytes. -/
theorem oversize_record_aborts_load_witness :
    lp64.MaxPacketLen - 4 < declaredLen oversizeHeader ∧
    (Replay.loadFile lp64 sampleServer
      (replayServer ['r'] (sampleHeader ReplayMagic 1 ++ [] ++ List.replicate 40 9 ++
        (recordBytes [sampleRecord] ++ oversizeHeader ++ [1, 2, 3]))) 0 ['r']).1 = false ∧
    (Replay.loadFile lp64 sampleServer
      (replayServer ['r'] (sampleHeader ReplayMagic 1 ++ [] ++ List.replicate 40 9 ++
        (recordBytes [sampleRecord] ++ oversizeHeader ++ [1, 2, 3]))) 0 ['r']).2.ReplayBuf =
      { byteCount := 0, packetCount := 0, pkts := [] } := by
  have h := oversize_record_aborts_load lp64 sampleServer
    (replayServer ['r'] (sampleHeader ReplayMagic 1 ++ [] ++ List.replicate 40 9 ++
        (recordBytes [sampleRecord] ++ oversizeHeader ++ [1, 2, 3]))) 0 ['r']
    (sampleHeader ReplayMagic 1) [] (List.replicate 40 9) oversizeHeader [1, 2, 3] [sampleRecord]
    (by decide) rfl (by decide) (by decide) (by decide) (by decide) (by decide) (by decide)
    (by decide) (by decide) (by decide) (by decide) (by decide)
  exact ⟨by decide, h.2.1, h.2.2.1⟩

/-- C4, the claim as stated fails: `loadPacket` also returns no packet for a
record cut short. The header declares 3 bytes of payload, within the bound of
1020, and only 2 bytes follow. -/
theorem truncated_record_returns_no_packet :
    declaredLen ([0, 0, 0, 5, 0, 0, 0, 3] ++ List.replicate 32 0) = 3 ∧
    ¬ (lp64.MaxPacketLen - 4 < 3) ∧
    (loadPacket lp64 { initialState with
      ReplayFile := some { name := ['r'],
                           rest := [0, 0, 0, 5, 0, 0, 0, 3] ++ List.replicate 32 0 ++ [1, 2] } }).1
      = none := by
  decide

/-- C5, amended: the magic gate. For every file of the record directory whose
first four bytes do not decode to the magic 0x425A7272, `Replay::loadFile`
returns false; when the server is in replay mode and the name is accepted, it
leaves ReplayBuf empty with zero counters, no file open and a null cursor,
and otherwise it leaves ReplayBuf as it was: no packet of the file is loaded.
The version field is not examined. -/
theorem magic_gate (K : Consts) (E : Server) (s : State) (playerIndex : Nat)
    (filename : List Char) (bytes : List Nat) (hK : K.Sane)
    (hdisk : s.disk.find? (fun e => e.1 = filename) = some (filename, bytes))
    (hmagic : nboUnpackUInt bytes 0 ≠ ReplayMagic) :
    (Replay.loadFile K E s playerIndex filename).1 = false ∧
    (s.ReplayMode = true → badFilename filename = false →
      (Replay.loadFile K E s playerIndex filename).2.ReplayBuf =
        { byteCount := 0, packetCount := 0, pkts := [] } ∧
      (Replay.loadFile K E s playerIndex filename).2.ReplayFile = none ∧
      (Replay.loadFile K E s playerIndex filename).2.ReplayPos = none) ∧
    ((s.ReplayMode = false ∨ badFilename filename = true) →
      (Replay.loadFile K E s playerIndex filename).2.ReplayBuf = s.ReplayBuf) := by
  have h4 : 4 ≤ ReplayHeaderSize K := by have := replayHeaderSize_ge K hK; omega
  cases hmode : s.ReplayMode with
  | false =>
    refine ⟨?_, fun h => absurd h (by simp), fun _ => ?_⟩ <;>
      simp [Replay.loadFile, hmode, sendMessage]
  | true =>
    cases hname : badFilename filename with
    | true =>
      refine ⟨?_, fun _ h => absurd h (by simp), fun _ => ?_⟩ <;>
        simp [Replay.loadFile, hmode, hname, sendMessage]
    | false =>
      have hopen := openFileRead_found (replayReset K s) filename _ hdisk
      have hrep : ¬ (replayReset K s).Replaying = true := by simp [replayReset]
      have key : (Replay.loadFile K E s playerIndex filename).1 = false ∧
          (Replay.loadFile K E s playerIndex filename).2.ReplayBuf =
            { byteCount := 0, packetCount := 0, pkts := [] } ∧
          (Replay.loadFile K E s playerIndex filename).2.ReplayFile = none ∧
          (Replay.loadFile K E s playerIndex filename).2.ReplayPos = none := by
        unfold Replay.loadFile
        simp only [hmode, hname, Bool.not_true, Bool.false_eq_true, if_false]
        rw [if_neg hrep]
        simp only [hopen]
        have hfr := loadHeader_frame K E
          { replayReset K s with ReplayFile := some ⟨filename, bytes⟩ }
        have hst := loadHeader_state K E
          { replayReset K s with ReplayFile := some ⟨filename, bytes⟩ }
        simp only at hfr hst
        split
        · rename_i s4 heq
          rw [heq] at hfr hst
          simp only at hfr hst
          refine ⟨rfl, ?_, rfl, ?_⟩
          · show s4.ReplayBuf = _
            rw [hfr]; rfl
          · show s4.ReplayPos = _
            rw [hst]; rfl
        · rename_i header s4 heq
          have hm := loadHeader_magic K E
            { replayReset K s with ReplayFile := some ⟨filename, bytes⟩ } ⟨filename, bytes⟩
            header rfl h4 (by simp only; rw [heq])
          simp only at hm
          have hne : header.magic ≠ ReplayMagic := by rw [hm]; exact hmagic
          rw [if_pos hne]
          rw [heq] at hfr hst
          simp only at hfr hst
          refine ⟨rfl, ?_, rfl, ?_⟩
          · show s4.ReplayBuf = _
            rw [hfr]; rfl
          · show s4.ReplayPos = _
            rw [hst]; rfl
      exact ⟨key.1, fun _ _ => key.2, fun h => by simp at h⟩

/-- C5 at a concrete input: a file whose magic is 0x425A7273. -/
theorem magic_gate_witness :
    nboUnpackUInt (sampleHeader 0x425A7273 1 ++ List.replicate 40 9 ++ recordBytes [sampleRecord]) 0
      ≠ ReplayMagic ∧
    (Replay.loadFile lp64 sampleServer
      (replayServer ['r']
        (sampleHeader 0x425A7273 1 ++ List.replicate 40 9 ++ recordBytes [sampleRecord]))
      0 ['r']).1 = false := by
  have h := magic_gate lp64 sampleServer
    (replayServer ['r']
      (sampleHeader 0x425A7273 1 ++ List.replicate 40 9 ++ recordBytes [sampleRecord]))
    0 ['r'] (sampleHeader 0x425A7273 1 ++ List.replicate 40 9 ++ recordBytes [sampleRecord])
    (by decide) (by decide) (by decide)
  exact ⟨by decide, h.1⟩

/-- C5, the claim as stated fails: a file with the right magic and version 2
is loaded. `Replay::loadFile` returns true and ReplayBuf holds its packet. -/
theorem version_is_not_checked :
    (unpackHeader lp64 (sampleHeader ReplayMagic 2)).version = 2 ∧
    (Replay.loadFile lp64 sampleServer
      (replayServer ['r']
        (sampleHeader ReplayMagic 2 ++ List.replicate 40 9 ++ recordBytes [sampleRecord]))
      0 ['r']).1 = true ∧
    (Replay.loadFile lp64 sampleServer
      (replayServer ['r']
        (sampleHeader ReplayMagic 2 ++ List.replicate 40 9 ++ recordBytes [sampleRecord]))
      0 ['r']).2.ReplayBuf.pkts =
      [{ mode := lp64.StatePacket, code := lp64.MsgSetVar, len := 2, prev_len := 0,
         timestamp := 5, data := [0, 0] }] := by
  decide

/-! ## The snapshot as a list of routed packets -/

/-- The arguments of one call of `routePacket`. -/
structure Call where
  code : Nat
  len : Nat
  data : List Nat
  mode : Nat
deriving DecidableEq, Repr

/-- The state after one call of `routePacket`. -/
def route (K : Consts) (now : Int) (s : State) (c : Call) : State :=
  (routePacket K now s c.code c.len c.data c.mode).2

/-- The state after a sequence of calls of `routePacket`. -/
def routeAll (K : Consts) (now : Int) (s : State) (cs : List Call) : State :=
  cs.foldl (route K now) s

/-- The call `saveTeamsState` makes. -/
def teamsCalls (K : Consts) (E : Server) : List Call :=
  [{ code := K.MsgTeamUpdate, len := (nboPackUByte E.team.length ++ E.team.flatten).length,
     data := nboPackUByte E.team.length ++ E.team.flatten, mode := K.StatePacket }]

/-- The calls the loop of `saveFlagsState` makes, with the buffer and count it ends with. -/
def flagsLoopCalls (K : Consts) :
    List (Nat × Option (List Nat)) → List Nat → Nat → Nat → List Call × List Nat × Nat
  | [], body, cnt, _ => ([], body, cnt)
  | (_, none) :: fs, body, cnt, length => flagsLoopCalls K fs body cnt length
  | (flagIndex, some packed) :: fs, body, cnt, length =>
    if length + 2 + K.FlagPLen > K.MaxPacketLen - 4 then
      ({ code := K.MsgFlagUpdate, len := 2 + body.length, data := nboPackUShort cnt ++ body,
         mode := K.StatePacket }
        :: (flagsLoopCalls K fs (nboPackUShort flagIndex ++ packed) 1 (2 + 2 + K.FlagPLen)).1,
       (flagsLoopCalls K fs (nboPackUShort flagIndex ++ packed) 1 (2 + 2 + K.FlagPLen)).2)
    else
      flagsLoopCalls K fs (body ++ nboPackUShort flagIndex ++ packed) (cnt + 1)
        (length + 2 + K.FlagPLen)

/-- The calls `saveFlagsState` makes. -/
def flagsCalls (K : Consts) (E : Server) : List Call :=
  let r := flagsLoopCalls K (indexed 0 E.flag) [] 0 2
  if r.2.2 > 0 then
    r.1 ++ [{ code := K.MsgFlagUpdate, len := 2 + r.2.1.length,
              data := nboPackUShort r.2.2 ++ r.2.1, mode := K.StatePacket }]
  else r.1

/-- The call `saveRabbitState` makes, if any. -/
def rabbitCalls (K : Consts) (E : Server) : List Call :=
  match E.rabbit with
  | some rabbitIndex =>
    [{ code := K.MsgNewRabbit, len := 1, data := nboPackUByte rabbitIndex, mode := K.StatePacket }]
  | none => []

/-- The calls the loop of `savePlayersState` makes, with the admin buffer it ends with. -/
def playersLoopCalls (K : Consts) : List (Nat × PlayerInfo) → List Nat → List Call × List Nat
  | [], admin => ([], admin)
  | (i, pl) :: rest, admin =>
    if pl.playing then
      ({ code := K.MsgAddPlayer, len := (nboPackUByte i ++ pl.update).length,
         data := nboPackUByte i ++ pl.update, mode := K.StatePacket }
        :: (playersLoopCalls K rest
              (admin ++ nboPackUByte pl.sizeOfIP ++ nboPackUByte i ++ nboPackUByte pl.properties
                ++ pl.adminInfo)).1,
       (playersLoopCalls K rest
              (admin ++ nboPackUByte pl.sizeOfIP ++ nboPackUByte i ++ nboPackUByte pl.properties
                ++ pl.adminInfo)).2)
    else playersLoopCalls K rest admin

/-- The calls `savePlayersState` makes. -/
def playersCalls (K : Consts) (players : List PlayerInfo) (junk : List Nat) : List Call :=
  let r := playersLoopCalls K (indexed 0 players) []
  if players.length > 0 then
    r.1 ++ [{ code := K.MsgAdminInfo, len := 1 + r.2.length, data := autoBuf junk [] 1 ++ r.2,
              mode := K.HiddenPacket }]
  else r.1

/-- What `packVars` does to its buffer for one variable, and the call it makes, if any. -/
def varsStep (K : Consts) (key value : List Nat) (acc : packVarData × List Call) :
    packVarData × List Call :=
  let pvd := acc.1
  let pairLen := key.length + 1 + value.length + 1
  let (pvd1, calls) :=
    if pairLen + pvd.len > K.MaxPacketLen - 4 then
      ({ body := [], len := 2, count := 0 : packVarData },
       acc.2 ++ [{ code := K.MsgSetVar, len := pvd.len, data := nboPackUShort pvd.count ++ pvd.body,
                   mode := K.StatePacket : Call }])
    else (pvd, acc.2)
  ({ body := pvd1.body ++ nboPackUByte key.length ++ nboPackString key key.length
              ++ nboPackUByte value.length ++ nboPackString value value.length,
     len := pvd1.len + pairLen,
     count := pvd1.count + 1 }, calls)

/-- The calls `saveVariablesState` makes. -/
def varsCalls (K : Consts) (db : List (List Nat × List Nat)) : List Call :=
  let r := db.foldl (fun acc kv => varsStep K kv.1 kv.2 acc)
    ({ body := [], len := 0, count := 0 : packVarData }, [])
  if r.1.len > 0 then
    r.2 ++ [{ code := K.MsgSetVar, len := r.1.len, data := nboPackUShort r.1.count ++ r.1.body,
              mode := K.StatePacket }]
  else r.2

/-- The calls of `routePacket` that `saveStates` makes: one full snapshot. -/
def snapshotCalls (K : Consts) (E : Server) (players : List PlayerInfo) (junk : List Nat)
    (db : List (List Nat × List Nat)) : List Call :=
  teamsCalls K E ++ flagsCalls K E ++ rabbitCalls K E ++ playersCalls K players junk
    ++ varsCalls K db

theorem routeAll_append (K : Consts) (now : Int) (s : State) (a b : List Call) :
    routeAll K now s (a ++ b) = routeAll K now (routeAll K now s a) b := by
  simp [routeAll, List.foldl_append]

theorem routeAll_cons (K : Consts) (now : Int) (s : State) (c : Call) (cs : List Call) :
    routeAll K now s (c :: cs) = routeAll K now (route K now s c) cs := rfl

theorem savePacket_frame (K : Consts) (s : State) (p : RRpacket) :
    (savePacket K s p).2.player = s.player ∧ (savePacket K s p).2.junk = s.junk ∧
    (savePacket K s p).2.BZDB = s.BZDB ∧ (savePacket K s p).2.Recording = s.Recording ∧
    (savePacket K s p).2.RecordMode = s.RecordMode := by
  unfold savePacket
  cases s.RecordFile with
  | none => exact ⟨rfl, rfl, rfl, rfl, rfl⟩
  | some f =>
    simp only
    split
    · exact ⟨rfl, rfl, rfl, rfl, rfl⟩
    · split <;> exact ⟨rfl, rfl, rfl, rfl, rfl⟩

theorem route_frame (K : Consts) (now : Int) (s : State) (c : Call) :
    (route K now s c).player = s.player ∧ (route K now s c).junk = s.junk ∧
    (route K now s c).BZDB = s.BZDB ∧ (route K now s c).Recording = s.Recording ∧
    (route K now s c).RecordMode = s.RecordMode := by
  unfold route routePacket
  split
  · exact ⟨rfl, rfl, rfl, rfl, rfl⟩
  · split
    · simp only
      split <;> exact ⟨rfl, rfl, rfl, rfl, rfl⟩
    · exact savePacket_frame K s _

theorem routeAll_frame (K : Consts) (now : Int) (cs : List Call) :
    ∀ s : State, (routeAll K now s cs).player = s.player ∧ (routeAll K now s cs).junk = s.junk ∧
      (routeAll K now s cs).BZDB = s.BZDB ∧ (routeAll K now s cs).Recording = s.Recording ∧
      (routeAll K now s cs).RecordMode = s.RecordMode := by
  induction cs with
  | nil => intro s; exact ⟨rfl, rfl, rfl, rfl, rfl⟩
  | cons c cs ih =>
    intro s
    rw [routeAll_cons]
    obtain ⟨a, b, d, e, g⟩ := ih (route K now s c)
    obtain ⟨a1, b1, d1, e1, g1⟩ := route_frame K now s c
    exact ⟨a.trans a1, b.trans b1, d.trans d1, e.trans e1, g.trans g1⟩

theorem saveFlagsLoop_eq (K : Consts) (now : Int) :
    ∀ (fs : List (Nat × Option (List Nat))) (body : List Nat) (cnt length : Nat) (s : State),
      saveFlagsLoop K now fs body cnt length s =
        ((flagsLoopCalls K fs body cnt length).2.1, (flagsLoopCalls K fs body cnt length).2.2,
          routeAll K now s (flagsLoopCalls K fs body cnt length).1) := by
  intro fs
  induction fs with
  | nil => intro body cnt length s; rfl
  | cons f fs ih =>
    intro body cnt length s
    obtain ⟨i, o⟩ := f
    cases o with
    | none =>
      simp only [saveFlagsLoop, flagsLoopCalls]
      exact ih _ _ _ _
    | some packed =>
      simp only [saveFlagsLoop, flagsLoopCalls]
      split
      · rw [ih]; rfl
      · exact ih _ _ _ _

theorem saveFlagsState_eq (K : Consts) (E : Server) (now : Int) (s : State) :
    saveFlagsState K E now s = routeAll K now s (flagsCalls K E) := by
  unfold saveFlagsState flagsCalls
  rw [saveFlagsLoop_eq]
  simp only
  split
  · rw [routeAll_append]; rfl
  · rfl

theorem savePlayersLoop_eq (K : Consts) (now : Int) :
    ∀ (ps : List (Nat × PlayerInfo)) (admin : List Nat) (s : State),
      savePlayersLoop K now ps admin s =
        ((playersLoopCalls K ps admin).2, routeAll K now s (playersLoopCalls K ps admin).1) := by
  intro ps
  induction ps with
  | nil => intro admin s; rfl
  | cons p ps ih =>
    intro admin s
    obtain ⟨i, pl⟩ := p
    simp only [savePlayersLoop, playersLoopCalls]
    split
    · rw [ih]; rfl
    · exact ih _ _

theorem savePlayersState_eq (K : Consts) (now : Int) (s : State) :
    savePlayersState K now s = routeAll K now s (playersCalls K s.player s.junk) := by
  unfold savePlayersState playersCalls
  rw [savePlayersLoop_eq]
  simp only
  split
  · rw [routeAll_append]; rfl
  · rfl

theorem packVars_fold_eq (K : Consts) (now : Int) (s : State) :
    ∀ (db : List (List Nat × List Nat)) (pvd : packVarData) (calls : List Call),
      db.foldl (fun acc kv => packVars K now kv.1 kv.2 acc) (pvd, routeAll K now s calls) =
        ((db.foldl (fun acc kv => varsStep K kv.1 kv.2 acc) (pvd, calls)).1,
         routeAll K now s (db.foldl (fun acc kv => varsStep K kv.1 kv.2 acc) (pvd, calls)).2) := by
  intro db
  induction db with
  | nil => intro pvd calls; rfl
  | cons kv db ih =>
    intro pvd calls
    simp only [List.foldl_cons]
    have hstep : packVars K now kv.1 kv.2 (pvd, routeAll K now s calls) =
        ((varsStep K kv.1 kv.2 (pvd, calls)).1,
         routeAll K now s (varsStep K kv.1 kv.2 (pvd, calls)).2) := by
      unfold packVars varsStep
      simp only
      split
      · simp only [routeAll_append]; rfl
      · rfl
    rw [hstep]
    exact ih _ _

theorem saveVariablesState_eq (K : Consts) (now : Int) (s : State) :
    saveVariablesState K now s = routeAll K now s (varsCalls K s.BZDB) := by
  unfold saveVariablesState varsCalls
  have h := packVars_fold_eq K now s s.BZDB { body := [], len := 0, count := 0 } []
  simp only [routeAll, List.foldl_nil] at h
  rw [h]
  simp only
  split
  · rw [routeAll_append]; rfl
  · rfl

theorem saveStates_eq (K : Consts) (E : Server) (now : Int) (s : State) :
    saveStates K E now s =
      { routeAll K now s (snapshotCalls K E s.player s.junk s.BZDB) with
        RecordUpdateTime := now } := by
  unfold saveStates snapshotCalls
  have h1 : saveTeamsState K E now s = routeAll K now s (teamsCalls K E) := rfl
  have h3 : ∀ t, saveRabbitState K E now t = routeAll K now t (rabbitCalls K E) := by
    intro t
    unfold saveRabbitState rabbitCalls
    cases E.rabbit <;> rfl
  simp only [h1, saveFlagsState_eq, h3, savePlayersState_eq, saveVariablesState_eq,
    routeAll_append]
  obtain ⟨a1, b1, d1, _, _⟩ := routeAll_frame K now (teamsCalls K E) s
  obtain ⟨a2, b2, d2, _, _⟩ := routeAll_frame K now (flagsCalls K E)
    (routeAll K now s (teamsCalls K E))
  obtain ⟨a3, b3, d3, _, _⟩ := routeAll_frame K now (rabbitCalls K E)
    (routeAll K now (routeAll K now s (teamsCalls K E)) (flagsCalls K E))
  obtain ⟨a4, b4, d4, _, _⟩ := routeAll_frame K now (playersCalls K s.player s.junk)
    (routeAll K now (routeAll K now (routeAll K now s (teamsCalls K E)) (flagsCalls K E))
      (rabbitCalls K E))
  rw [a3, a2, a1, b3, b2, b1, d4, d3, d2, d1]

/-- The packet `routePacket` makes of a call in buffered mode. -/
def Call.packet (c : Call) (now : Int) : RRpacket := newPacket c.mode c.code c.len c.data now

theorem route_buffered (K : Consts) (now : Int) (s : State) (c : Call)
    (hrec : s.Recording = true) (hmode : s.RecordMode = .BufferedRecord)
    (hfit : (addPacket K s.RecordBuf (c.packet now)).byteCount ≤ s.RecordMaxBytes) :
    route K now s c = { s with RecordBuf := addPacket K s.RecordBuf (c.packet now) } := by
  unfold route routePacket
  have hnot : ¬ (addPacket K s.RecordBuf (newPacket c.mode c.code c.len c.data now)).byteCount
      > s.RecordMaxBytes := by
    have := hfit
    simp only [Call.packet] at this
    omega
  simp only [hrec, hmode, Bool.true_eq_false, if_false, hnot]
  rfl

theorem routeAll_buffered (K : Consts) (now : Int) (cs : List Call) :
    ∀ s : State, s.Recording = true → s.RecordMode = .BufferedRecord →
      s.RecordBuf.byteCount + (cs.map (fun c => c.len % 2 ^ 32 + RRpacketHdrSize K)).sum
        ≤ s.RecordMaxBytes →
      (routeAll K now s cs).RecordBuf.pkts = s.RecordBuf.pkts ++ cs.map (fun c => c.packet now) ∧
      (routeAll K now s cs).RecordBuf.byteCount ≤
        s.RecordBuf.byteCount + (cs.map (fun c => c.len % 2 ^ 32 + RRpacketHdrSize K)).sum := by
  induction cs with
  | nil => intro s _ _ _; simp [routeAll]
  | cons c cs ih =>
    intro s hrec hmode hfit
    simp only [List.map_cons, List.sum_cons] at hfit
    have hlen : (c.packet now).len = c.len % 2 ^ 32 := rfl
    have hbc : (addPacket K s.RecordBuf (c.packet now)).byteCount ≤
        s.RecordBuf.byteCount + (c.len % 2 ^ 32 + RRpacketHdrSize K) := by
      simp only [addPacket, hlen]
      have := Nat.mod_le (s.RecordBuf.byteCount + (c.len % 2 ^ 32 + RRpacketHdrSize K) % 2 ^ 32)
        (2 ^ 32)
      have := Nat.mod_le (c.len % 2 ^ 32 + RRpacketHdrSize K) (2 ^ 32)
      omega
    have hr := route_buffered K now s c hrec hmode (by omega)
    rw [routeAll_cons, hr]
    obtain ⟨h1, h2⟩ := ih { s with RecordBuf := addPacket K s.RecordBuf (c.packet now) } hrec hmode
      (by simp only; omega)
    refine ⟨?_, ?_⟩
    · rw [h1]; simp [addPacket]
    · simp only [List.map_cons, List.sum_cons]
      simp only at h2
      omega

/-- C8, amended. In replay mode `Record::start` returns false and changes
nothing but for the message it sends. Otherwise, when the record directory
can be created, it returns true, sets Recording, leaves RecordMode as it was
and sets RecordUpdateTime to the time of the call; the snapshot it routes
starts with the boundary packet (StatePacket, MsgTeamUpdate); and in a
buffered session whose byte budget the snapshot does not exceed, RecordBuf
afterwards holds the packets it held before followed by exactly the packets
of that snapshot (the snapshot alone when the buffer was empty). -/
theorem start_appends_snapshot (K : Consts) (E : Server) (now : Int) (s : State)
    (playerIndex : Nat) :
    (s.ReplayMode = true →
      Record.start K E now s playerIndex =
        (false, sendMessage s (some playerIndex) "Couldn't start capturing")) ∧
    (s.ReplayMode = false → E.dirOk = true →
      (Record.start K E now s playerIndex).1 = true ∧
      (Record.start K E now s playerIndex).2.Recording = true ∧
      (Record.start K E now s playerIndex).2.RecordMode = s.RecordMode ∧
      (Record.start K E now s playerIndex).2.RecordUpdateTime = now ∧
      (∃ c rest, snapshotCalls K E s.player s.junk s.BZDB = c :: rest ∧
        c.code = K.MsgTeamUpdate ∧ c.mode = K.StatePacket) ∧
      (s.RecordMode = .BufferedRecord →
        s.RecordBuf.byteCount +
          ((snapshotCalls K E s.player s.junk s.BZDB).map
            (fun c => c.len % 2 ^ 32 + RRpacketHdrSize K)).sum ≤ s.RecordMaxBytes →
        (Record.start K E now s playerIndex).2.RecordBuf.pkts =
          s.RecordBuf.pkts ++
            (snapshotCalls K E s.player s.junk s.BZDB).map (fun c => c.packet now))) := by
  refine ⟨fun h => by simp [Record.start, h], fun hmode hdir => ?_⟩
  have hstart : Record.start K E now s playerIndex =
      (true, sendMessage
        { routeAll K now { s with Recording := true }
            (snapshotCalls K E s.player s.junk s.BZDB) with RecordUpdateTime := now }
        (some playerIndex) "Record started") := by
    simp only [Record.start, hmode, makeDirExistMsg, hdir, Bool.false_eq_true, if_false, if_true,
      Bool.not_true, saveStates_eq]
  obtain ⟨_, _, _, e, g⟩ := routeAll_frame K now (snapshotCalls K E s.player s.junk s.BZDB)
    { s with Recording := true }
  rw [hstart]
  refine ⟨rfl, e, g, rfl, ⟨_, _, rfl, rfl, rfl⟩, fun hbuf hfit => ?_⟩
  exact (routeAll_buffered K now _ { s with Recording := true } rfl hbuf hfit).1

/-- A session that was started, captured one live message at time 1, and was
stopped: the buffer that `Record::stop` keeps holds the snapshot of the start
and the message. -/
def stoppedSession : State :=
  (Record.stop
    (routePacket lp64 1 (Record.start lp64 sampleServer 0 initialState 0).2
      0x6d73 3 [1, 2, 3] lp64.RealPacket).2 0).2

/-- C8, the claim as stated fails: `Record::start` on a stopped buffered
session returns true and appends its snapshot after the packets the buffer
kept from the session before; the buffer then holds the old snapshot packet
(time 0), the old live packet (time 1) and the new snapshot packet (time 9). -/
theorem start_keeps_old_packets :
    stoppedSession.Recording = false ∧ stoppedSession.ReplayMode = false ∧
    (Record.start lp64 sampleServer 9 stoppedSession 0).1 = true ∧
    (Record.start lp64 sampleServer 9 stoppedSession 0).2.RecordBuf.pkts.map
        (fun p => (p.mode, p.code, p.timestamp)) =
      [(lp64.StatePacket, lp64.MsgTeamUpdate, 0), (lp64.RealPacket, 0x6d73, 1),
       (lp64.StatePacket, lp64.MsgTeamUpdate, 9)] := by
  decide

/-- X1. Packet codec round trip for a payload that is not empty: for a packet
with 1 to `MaxPacketLen - 4` bytes of payload and a 64-bit timestamp,
`savePacket` returns true, appends `RRpacketHdrSize + len` bytes to the file,
and `loadPacket` reading those bytes (followed by anything) returns the packet
with the same mode, code, length, payload and timestamp, its `prev_len` being
the RecordFilePrevLen of the save. -/
theorem packet_round_trip (K : Consts) (s s2 : State) (f : WFile) (p : RRpacket)
    (name : List Char) (rest : List Nat) (hK : K.Sane) (hf : s.RecordFile = some f)
    (hpos : 0 < p.len) (hmax : p.len ≤ K.MaxPacketLen - 4) (hlen : p.data.length = p.len)
    (hmode : p.mode < 2 ^ 16) (hcode : p.code < 2 ^ 16)
    (hts1 : -2 ^ 63 ≤ p.timestamp) (hts2 : p.timestamp < 2 ^ 63)
    (hprev : s.RecordFilePrevLen < 2 ^ 32)
    (hroom : RRpacketHdrSize K + p.len ≤ f.room) :
    (savePacket K s p).1 = true ∧
    ∃ written,
      (savePacket K s p).2.RecordFile =
        some { f with bytes := f.bytes ++ written, room := f.room - written.length } ∧
      written.length = RRpacketHdrSize K + p.len ∧
      loadPacket K { s2 with ReplayFile := some { name := name, rest := written ++ rest } } =
        (some { p with prev_len := s.RecordFilePrevLen },
         { s2 with ReplayFile := some { name := name, rest := rest } }) := by
  have h20 : 20 ≤ RRpacketHdrSize K := by have := hdrSize_ge K hK; omega
  have hmaxeq := maxLoadLen_eq K hK
  obtain ⟨_, _, hK3, hK4⟩ := hK
  obtain ⟨pad, hpl, hsave⟩ := savePacket_ok K s f p hf h20 hpos hlen hroom
  have hbl : (packPacketHeader p s.RecordFilePrevLen ++ pad).length = RRpacketHdrSize K := by
    rw [List.length_append, packPacketHeader_length, hpl]; omega
  have hwl : ((packPacketHeader p s.RecordFilePrevLen ++ pad) ++ p.data).length =
      RRpacketHdrSize K + p.len := by
    rw [List.length_append, hbl, hlen]
  obtain ⟨u0, u1, u2, u3, u4, u5⟩ := unpack_packPacketHeader p s.RecordFilePrevLen pad
  have hplen : p.len % 2 ^ 32 = p.len := Nat.mod_eq_of_lt (by omega)
  refine ⟨by rw [hsave], (packPacketHeader p s.RecordFilePrevLen ++ pad) ++ p.data, ?_, hwl, ?_⟩
  · rw [hsave, hwl, Nat.sub_sub]
    simp only [List.append_assoc]
  · have hl := loadPacket_ok K
      { s2 with ReplayFile := some ⟨name,
          (packPacketHeader p s.RecordFilePrevLen ++ pad) ++ p.data ++ rest⟩ }
      ⟨name, (packPacketHeader p s.RecordFilePrevLen ++ pad) ++ p.data ++ rest⟩
      (packPacketHeader p s.RecordFilePrevLen ++ pad) p.data rest rfl rfl hbl h20
      (by rw [declaredLen, u2, hplen, hlen]) (by omega) (by rw [hmaxeq]; omega)
    rw [hl, u0, u1, u3, u4, u5, wrapS64_words p.timestamp hts1 hts2,
      Nat.mod_eq_of_lt hmode, Nat.mod_eq_of_lt hcode, Nat.mod_eq_of_lt hprev, hlen]

/-- X1 at a concrete input: a 3-byte live packet with a negative timestamp. -/
theorem packet_round_trip_witness :
    lp64.Sane ∧
    (savePacket lp64 sampleSaving
      { mode := 0, code := 5, len := 3, prev_len := 0, timestamp := -5, data := [1, 2, 3] }).1
      = true ∧
    ∃ written,
      written.length = 43 ∧
      (loadPacket lp64
        { initialState with ReplayFile := some { name := ['r'], rest := written ++ [9] } }).1 =
        some { mode := 0, code := 5, len := 3, prev_len := 0, timestamp := -5, data := [1, 2, 3] }
      := by
  obtain ⟨h1, written, _, h3, h4⟩ := packet_round_trip lp64 sampleSaving initialState sampleWFile
    { mode := 0, code := 5, len := 3, prev_len := 0, timestamp := -5, data := [1, 2, 3] }
    ['r'] [9] (by decide) rfl (by decide) (by decide) rfl (by decide) (by decide) (by decide)
    (by decide) (by decide) (by decide)
  exact ⟨by decide, h1, written, h3, congrArg Prod.fst h4⟩

/-- X2. The packet header on any host: whatever the size and alignment of
pointers and of `s64`, `RRpacketHdrSize` is at least 20 bytes plus two
pointers, so `savePacket` never writes the 20-byte header alone. -/
theorem packet_header_exceeds_twenty (K : Consts) (hK : K.Sane) :
    20 + 2 * K.sizeofPtr ≤ RRpacketHdrSize K ∧
    RRpacketHdrSize K = sizeofRRpacket K - K.sizeofPtr := by
  refine ⟨hdrSize_ge K hK, ?_⟩
  unfold RRpacketHdrSize
  omega

/-- X2 at a concrete input: the ILP32 host. -/
theorem packet_header_exceeds_twenty_witness :
    ilp32.Sane ∧ 20 + 2 * ilp32.sizeofPtr ≤ RRpacketHdrSize ilp32 :=
  ⟨by decide, (packet_header_exceeds_twenty ilp32 (by decide)).1⟩

/-! ## The sequence model of the packet store against the pointer model -/

/-- The payload part of a packet, as the pointer model keeps it. -/
def RRpacket.contents (p : RRpacket) : Linked.Contents :=
  { mode := p.mode, code := p.code, len := p.len, timestamp := p.timestamp, data := p.data }

/-- One call on the store as a sequence. -/
def listStep (K : Consts) (b : RRbuffer) : Linked.Op → RRbuffer
  | .add mode code len data ts => addPacket K b (newPacket mode code len data ts)
  | .del => (delPacket K b).2

/-- Run a sequence of calls from the empty buffer, on the store as a sequence. -/
def listRun (K : Consts) (ops : List Linked.Op) : RRbuffer :=
  ops.foldl (listStep K) { byteCount := 0, packetCount := 0, pkts := [] }

theorem listRun_rep (K : Consts) (ops : List Linked.Op) :
    (listRun K ops).pkts.map RRpacket.contents = Linked.live ops ∧
    (listRun K ops).packetCount = (Linked.live ops).length % 2 ^ 32 ∧
    (listRun K ops).byteCount =
      ((Linked.live ops).map (fun c => c.len + RRpacketHdrSize K)).sum % 2 ^ 32 := by
  induction ops using List.reverseRecOn with
  | nil => exact ⟨rfl, rfl, rfl⟩
  | append_singleton ops op ih =>
    obtain ⟨h1, h2, h3⟩ := ih
    have hrun : listRun K (ops ++ [op]) = listStep K (listRun K ops) op := by
      simp [listRun, List.foldl_append]
    rw [hrun]
    cases op with
    | add mode code len data ts =>
      rw [Linked.live_snoc_add]
      refine ⟨?_, ?_, ?_⟩
      · simp only [listStep, addPacket, List.map_append, h1]
        rfl
      · simp only [listStep, addPacket, h2, List.length_append, List.length_singleton]
        omega
      · simp only [listStep, addPacket, h3, List.map_append, List.sum_append, List.map_cons,
          List.map_nil, List.sum_cons, List.sum_nil, Nat.add_zero]
        have : (newPacket mode code len data ts).len = len % 2 ^ 32 := rfl
        rw [this]
        omega
    | del =>
      rw [Linked.live_snoc_del]
      cases hp : (listRun K ops).pkts with
      | nil =>
        rw [hp] at h1
        have hl : Linked.live ops = [] := by simpa using h1.symm
        rw [hl] at h2 h3 ⊢
        simp only [listStep, delPacket, hp]
        exact ⟨rfl, h2, h3⟩
      | cons p rest =>
        rw [hp] at h1
        cases hl : Linked.live ops with
        | nil => rw [hl] at h1; simp at h1
        | cons c l1 =>
          rw [hl] at h1 h2 h3
          simp only [List.map_cons, List.cons.injEq] at h1
          have hlen : p.len = c.len := by rw [← h1.1]; rfl
          simp only [listStep, delPacket, hp, List.tail_cons]
          refine ⟨h1.2, ?_, ?_⟩
          · rw [h2]; simp only [List.length_cons]; omega
          · rw [h3, hlen]; simp only [List.map_cons, List.sum_cons]; omega

/-- X3. The store as a sequence agrees with the store over pointers: after
the same calls from the empty buffer, the sequence holds the contents of the
nodes the pointer chain visits from `tail` to `head`, in the same order, and
the two counters are equal. -/
theorem sequence_store_agrees (K : Consts) (h : Linked.Heap) (ops : List Linked.Op) :
    (∃ ps : List Linked.Ptr,
      Linked.Chain (Linked.run K h ops).heap none (Linked.run K h ops).buf.tail ps
        (Linked.run K h ops).buf.head ∧
      ps.map (fun p => ((Linked.run K h ops).heap p).contents) =
        (listRun K ops).pkts.map RRpacket.contents) ∧
    (listRun K ops).packetCount = (Linked.run K h ops).buf.packetCount ∧
    (listRun K ops).byteCount = (Linked.run K h ops).buf.byteCount := by
  obtain ⟨h1, h2, h3⟩ := listRun_rep K ops
  obtain ⟨ps, hc, _, _, hmap, hpc, hbc⟩ := Linked.rep_run K h ops
  exact ⟨⟨ps, hc, by rw [hmap, h1]⟩, by rw [h2, hpc], by rw [h3, hbc]⟩

/-- A packet of zeros: what reads of a packet that is not there give. -/
instance : Inhabited RRpacket := ⟨⟨0, 0, 0, 0, 0, []⟩⟩

/-! ## Saving the buffer, playing, skipping, sending

The operations below follow pointers the source does not test. Their result is
an `Option`: `none` stands for a run that reads through a null pointer, or
through a cursor that is not a packet of the buffer. -/

/-- The first loop of `Record::saveBuffer`, entered at position `j` of the buffer:
`while (p != NULL) { if (StatePacket, MsgTeamUpdate, diff >= usecs) break; p = p->prev; }`.
The result is the `p` the loop ends with. -/
def lookBack (K : Consts) (pkts : List RRpacket) (headTs usecs : Int) : Nat → Option Nat
  | 0 =>
    match pkts[0]? with
    | some q =>
      if q.mode = K.StatePacket ∧ q.code = K.MsgTeamUpdate ∧ headTs - q.timestamp ≥ usecs then
        some 0
      else none
    | none => none
  | j + 1 =>
    match pkts[j + 1]? with
    | some q =>
      if q.mode = K.StatePacket ∧ q.code = K.MsgTeamUpdate ∧ headTs - q.timestamp ≥ usecs then
        some (j + 1)
      else lookBack K pkts headTs usecs j
    | none => none

/-- The second loop of `Record::saveBuffer`, on the packets from `p` (at position
`j`) to the head: `while (!((p->mode == StatePacket) && (p->code == MsgTeamUpdate))) p = p->next;`.
The loop reads `p->mode` before any test of `p`: with no packet left the result
is `none`, a read through the null pointer. -/
def firstUpdate (K : Consts) : List RRpacket → Nat → Option Nat
  | [], _ => none
  | q :: rest, j =>
    if q.mode = K.StatePacket ∧ q.code = K.MsgTeamUpdate then some j
    else firstUpdate K rest (j + 1)

/-- The loop `while (p != NULL) { savePacket (p, RecordFile); p = p->next; }`;
what `savePacket` returns is not looked at. -/
def savePackets (K : Consts) (s : State) (ps : List RRpacket) : State :=
  ps.foldl (fun t q => (savePacket K t q).2) s

/-- The two scans of `Record::saveBuffer` that choose the packet to start from:
with a lookback, back from the head to a boundary packet that is old enough;
with `seconds == 0`, or when that scan ends with `p == NULL`, forward from the
tail. The result is the `p` they end with; `none` is the read through the null
pointer of the second scan. -/
def saveStart (K : Consts) (b : RRbuffer) (seconds : Int) : Option Nat :=
  -- `p` after the scan back from the head; not set when `seconds` is 0
  let p0 : Option Nat :=
    if seconds ≠ 0 then
      match b.head with
      | none => none
      | some h => lookBack K b.pkts (b.pkts.getD h default).timestamp (seconds * 1000000) h
    else none
  if seconds = 0 ∨ p0 = none then firstUpdate K b.pkts 0 else p0

namespace Record

/-- Source `Record::saveBuffer`. -/
def saveBuffer (K : Consts) (E : Server) (s : State) (playerIndex : Nat)
    (filename : List Char) (seconds : Int) : Option (Bool × State) :=
  if s.ReplayMode then
    some (false, sendMessage s (some playerIndex) "Can't record in replay mode")
  else if s.Recording = false ∨ s.RecordMode ≠ .BufferedRecord then
    some (false, sendMessage s (some playerIndex) "No buffer to save")
  else if badFilename filename then
    some (false, sendMessage s (some playerIndex) "Files must be with the local directory")
  else
    match saveStart K s.RecordBuf seconds with
    | none => none
    | some p =>
      -- the test `p == NULL` that follows the second loop cannot succeed
      let (f, s1) := openWriteFile E s playerIndex filename
      let s2 := { s1 with RecordFile := f }
      match f with
      | none =>
        some (false, sendMessage (recordReset s2) (some playerIndex) "Could not open for writing")
      | some _ =>
        let (ok, s3) := saveHeader K E s2 playerIndex
        if !ok then
          some (false, sendMessage (recordReset s3) (some playerIndex) "Could not save header")
        else
          let s4 := savePackets K s3 (s.RecordBuf.pkts.drop p)
          let s5 : State := match s4.RecordFile with
            | some g => { s4 with disk := closeW s4.disk g, RecordFile := none }
            | none => s4
          let s6 := { s5 with RecordFileBytes := 0, RecordFilePackets := 0, RecordFilePrevLen := 0 }
          some (true, sendMessage s6 (some playerIndex) "Record buffer saved")

end Record

/-- The bytes `memcpy (buf, p->data, p->len)` copies. -/
def payload (p : RRpacket) : List Nat :=
  (p.data ++ List.replicate p.len 0).take p.len

/-- The body of the `for` loop of `Replay::sendPackets` for the observer in
slot `i`: the state machine for state updates, then the delivery. -/
def sendToObserver (K : Consts) (p : RRpacket) (i : Nat) (pl : PlayerInfo) :
    PlayerInfo × List Output :=
  let fake : Bool := decide (p.mode ≠ K.RealPacket)
  if pl.playing then
    let st : PlayerReplayState :=
      if fake then
        if p.code = K.MsgTeamUpdate then
          if pl.replayState = .ReplayNone then .ReplayReceiving
          else if pl.replayState = .ReplayReceiving then .ReplayStateful
          else pl.replayState
        else pl.replayState
      else if pl.replayState = .ReplayReceiving then .ReplayStateful
      else pl.replayState
    if (fake = true ∧ st = .ReplayReceiving) ∨ (fake = false ∧ st = .ReplayStateful) then
      ({ pl with replayState := st }, [Output.direct i p.code (payload p)])
    else ({ pl with replayState := st }, [])
  else (pl, [])

/-- The loop `for (i = MaxPlayers; i < curMaxPlayers; i++)` of `Replay::sendPackets`. -/
def sendToObservers (K : Consts) (p : RRpacket) (s : State) : State :=
  let r := (indexed K.MaxPlayers (s.player.drop K.MaxPlayers)).map
    (fun e => sendToObserver K p e.1 e.2)
  { s with
    player := s.player.take K.MaxPlayers ++ r.map Prod.fst,
    out := s.out ++ (r.map Prod.snd).flatten }

/-- The test `p->mode && (p->code == MsgTeamUpdate)` of `Replay::skip`: a packet
that is not a live one, with code `MsgTeamUpdate`. -/
def isUpdate (K : Consts) (q : RRpacket) : Bool :=
  decide (q.mode ≠ 0 ∧ q.code = K.MsgTeamUpdate)

/-- The test of the forward loop of `Replay::skip` on the packet at position `j`:
`(p->timestamp >= target) && ((p == ReplayPos) || (p->mode && (p->code == MsgTeamUpdate)))`. -/
def forwardStop (K : Consts) (pkts : List RRpacket) (target : Int) (cursor j : Nat) : Bool :=
  decide ((pkts.getD j default).timestamp ≥ target) &&
    (decide (j = cursor) || isUpdate K (pkts.getD j default))

/-- The test of the backward loop of `Replay::skip` on the packet at position `j`:
`(p->timestamp <= target) && (p->mode && (p->code == MsgTeamUpdate))`. -/
def backwardStop (K : Consts) (pkts : List RRpacket) (target : Int) (j : Nat) : Bool :=
  decide ((pkts.getD j default).timestamp ≤ target) && isUpdate K (pkts.getD j default)

/-- The loop of the forward branch of `Replay::skip`, with `p` at position `j` and
`n` packets from `p` to the head: `while (p != NULL) { if (...) break; p = p->next; }`.
The result is the `p` the loop ends with. -/
def skipForward (K : Consts) (pkts : List RRpacket) (target : Int) (cursor : Nat) :
    Nat → Nat → Option Nat
  | 0, _ => none
  | n + 1, j =>
    if forwardStop K pkts target cursor j = true then some j
    else skipForward K pkts target cursor n (j + 1)

/-- The loop of the backward branch of `Replay::skip`, with `p` at position `j`:
`while (p != NULL) { if (...) break; p = p->prev; }`. -/
def skipBackward (K : Consts) (pkts : List RRpacket) (target : Int) : Nat → Option Nat
  | 0 => if backwardStop K pkts target 0 = true then some 0 else none
  | j + 1 =>
    if backwardStop K pkts target (j + 1) = true then some (j + 1)
    else skipBackward K pkts target j

/-- The quotient `n / d` rounded to the nearest integer, ties to the even one. -/
def roundHalfEven (n d : Nat) : Nat :=
  if 2 * (n % d) < d then n / d
  else if d < 2 * (n % d) then n / d + 1
  else if n / d % 2 = 0 then n / d else n / d + 1

/-- Halve `n / d` until it is below `2 ^ 24`: the denominator reached and the
number of halvings. -/
def scaleDown : Nat → Nat → Nat → Nat → Nat × Nat
  | 0, _, d, k => (d, k)
  | fuel + 1, n, d, k => if 2 ^ 24 * d ≤ n then scaleDown fuel n (2 * d) (k + 1) else (d, k)

/-- Double `n / d` until it is at least `2 ^ 23`: the numerator reached and the
number of doublings. -/
def scaleUp : Nat → Nat → Nat → Nat → Nat × Nat
  | 0, n, _, k => (n, k)
  | fuel + 1, n, d, k => if n < 2 ^ 23 * d then scaleUp fuel (2 * n) d (k + 1) else (n, k)

/-- The `float` (IEEE 754 binary32, round to nearest, ties to even) nearest to
the fraction `n / d`, as a fraction whose denominator is a power of 2. The
exponent range of `float` is not modelled: the values `Replay::skip` prints lie
between `2 ^ (-20)` and `2 ^ 63`. -/
def roundFloat (n d : Nat) : Nat × Nat :=
  if n = 0 ∨ d = 0 then (0, 1)
  else
    let down := scaleDown n n d 0
    let up := scaleUp d n down.1 0
    (roundHalfEven up.1 down.1 * 2 ^ down.2, 2 ^ up.2)

/-- C `printf ("%.3f", v)` for the value `v = ± n / d`, correctly rounded (ties
to even, as glibc prints). -/
def printFixed3 (negative : Bool) (v : Nat × Nat) : String :=
  let t := roundHalfEven (v.1 * 1000) v.2
  (if negative then "-" else "") ++ toString (t / 1000) ++ "." ++ toString (t % 1000 / 100)
    ++ toString (t % 100 / 10) ++ toString (t % 10)

/-- What `"%.3f"` prints for `(float)diff / 1000000.0f`: the conversion of the
`RRtime` to `float`, the division in `float`, and the decimal text. -/
def secondsText (diff : Int) : String :=
  let f := roundFloat diff.natAbs 1
  printFixed3 (decide (diff < 0)) (roundFloat f.1 (f.2 * 1000000))

/-- The text `Replay::skip` sends,
`sprintf (buffer, "Skipping %.3f seconds (asked %i)", (float)diff/1000000.0f, seconds)`. -/
def skipReport (diff seconds : Int) : String :=
  "Skipping " ++ secondsText diff ++ " seconds (asked " ++ toString seconds ++ ")"

namespace Replay

/-- Source `Replay::nextTime`, in microseconds: `1000.0f` seconds when there is
nothing to play, else the `RRtime` difference the source divides by 1000000
(the quotient is below `0.0f` exactly when the difference is below 0). The
result is `none` when the cursor is not a packet of the buffer. -/
def nextTime (now : Int) (s : State) : Option Int :=
  if s.ReplayMode = false ∨ s.Replaying = false then some 1000000000
  else
    match s.ReplayPos with
    | none => some 1000000000
    | some i =>
      match s.ReplayBuf.pkts[i]? with
      | none => none
      | some p => some ((p.timestamp + s.ReplayOffset) - now)

/-- Source `Replay::play`. -/
def play (K : Consts) (E : Server) (now : Int) (s : State) (playerIndex : Nat) :
    Option (Bool × State) :=
  if s.ReplayMode = false then
    some (false, sendMessage s (some playerIndex) "Server is not in replay mode")
  else if s.ReplayFile = none then
    some (false, sendMessage s (some playerIndex) "No replay file loaded")
  else
    let s1 := { s with Replaying := true }
    match s1.ReplayPos with
    | none => some (true, sendMessage (resetStates K E s1) (some playerIndex) "Starting replay")
    | some _ =>
      -- `ReplayBuf.tail->timestamp`
      match s1.ReplayBuf.pkts.head? with
      | none => none
      | some t =>
        let s2 := { s1 with ReplayOffset := now - t.timestamp }
        some (true, sendMessage (resetStates K E s2) (some playerIndex) "Starting replay")

/-- Source `Replay::skip`. -/
def skip (K : Consts) (E : Server) (now : Int) (s : State) (playerIndex : Nat)
    (seconds : Int) : Option (Bool × State) :=
  if s.ReplayMode = false then
    some (false, sendMessage s (some playerIndex) "Server is not in replay mode")
  else
    match s.ReplayFile, s.ReplayPos with
    | none, _ => some (false, sendMessage s (some playerIndex) "No replay file loaded")
    | some _, none => some (false, sendMessage s (some playerIndex) "No replay file loaded")
    | some _, some cur =>
      let pkts := s.ReplayBuf.pkts
      -- a cursor that is not a packet of the buffer: `p->timestamp` reads through it
      if pkts.length ≤ cur then none
      else
        let p : Option Nat :=
          if seconds ≠ 0 then
            let target := (now - s.ReplayOffset) + seconds * 1000000
            if seconds > 0 then
              match skipForward K pkts target cur (pkts.length - cur) cur with
              | some j => some j
              | none => s.ReplayBuf.head
            else
              match skipBackward K pkts target cur with
              | some j => some j
              | none => s.ReplayBuf.tail
          else some cur
        match p with
        | none =>
          some (false, sendMessage s (some playerIndex) "can't skip, no data available")
        | some j =>
          let s1 := if j ≠ cur then resetStates K E s else s
          let newOffset := now - (pkts.getD j default).timestamp
          let diff := s.ReplayOffset - newOffset
          some (true, sendMessage { s1 with ReplayOffset := newOffset, ReplayPos := some j }
            (some playerIndex) (skipReport diff seconds))

/-- The `while (Replay::nextTime () < 0.0f)` loop of `Replay::sendPackets`, for at
most `fuel` packets. The result is whether a packet was handled (`sent`), or
`none` for it when the loop returns false itself. -/
def sendDue (K : Consts) (E : Server) (now : Int) :
    Nat → Bool → State → Option (Option Bool × State)
  | 0, sent, s => some (some sent, s)
  | fuel + 1, sent, s =>
    match nextTime now s with
    | none => none
    | some t =>
      if t < 0 then
        match s.ReplayPos with
        | none =>
          some (none, sendMessage { resetStates K E s with
            Replaying := false, ReplayPos := s.ReplayBuf.tail } none "Replay Finished!!!")
        | some i =>
          match s.ReplayBuf.pkts[i]? with
          | none => none
          | some p =>
            let s1 :=
              if p.mode ≠ K.HiddenPacket then
                sendToObservers K p (if p.code = K.MsgSetVar then setVariables s p.data else s)
              else s
            sendDue K E now fuel true { s1 with ReplayPos := s1.ReplayBuf.next i }
      else some (some sent, s)

/-- Source `Replay::sendPackets`. The text of the last message leaves out the
time the source prints in it. -/
def sendPackets (K : Consts) (E : Server) (now : Int) (s : State) : Option (Bool × State) :=
  if s.Replaying = false then some (false, s)
  else
    match sendDue K E now (s.ReplayBuf.pkts.length + 1) false s with
    | none => none
    | some (none, s1) => some (false, s1)
    | some (some sent, s1) =>
      match s1.ReplayPos with
      | none =>
        some (false, sendMessage { resetStates K E s1 with
          Replaying := false, ReplayPos := s1.ReplayBuf.tail } none "Replay Finished")
      | some i =>
        match s1.ReplayBuf.pkts[i]? with
        | none => none
        | some q =>
          if sent = true ∧ i ≠ 0 then
            let diff := q.timestamp - (s1.ReplayBuf.pkts.getD (i - 1) default).timestamp
            if diff > 10 * 1000000 then
              some (true, sendMessage s1 none "No activity for the next seconds")
            else some (true, s1)
          else some (true, s1)

end Replay

/-! ## Saving the buffer -/

/-- A buffered recording on an LP64 host: started at time 0 (its snapshot is
one `MsgTeamUpdate` state packet), with one live message of 3 bytes captured at
time 1. -/
def liveSession : State :=
  (routePacket lp64 1 (Record.start lp64 sampleServer 0 initialState 0).2
    0x6d73 3 [1, 2, 3] lp64.RealPacket).2

/-- A buffered recording like `liveSession` that captured a live message with
an empty payload at time 1 before the message of 3 bytes (at time 2). -/
def gapSession : State :=
  (routePacket lp64 2
    (routePacket lp64 1 (Record.start lp64 sampleServer 0 initialState 0).2
      0x6d73 0 [] lp64.RealPacket).2
    0x6d73 3 [1, 2, 3] lp64.RealPacket).2

/-- C11, the claim as stated fails: a buffered recording whose buffer holds a
snapshot-boundary packet is stopped (`Record::stop` returns true and keeps the
two packets of the buffer); `Record::saveBuffer` with a valid filename then
returns false with "No buffer to save" and creates no file. -/
theorem stopped_session_save_refused :
    liveSession.Recording = true ∧ liveSession.RecordMode = .BufferedRecord ∧
    liveSession.RecordBuf.pkts.map (fun p => (p.mode, p.code)) =
      [(lp64.StatePacket, lp64.MsgTeamUpdate), (lp64.RealPacket, 0x6d73)] ∧
    (Record.stop liveSession 0).1 = true ∧
    (Record.stop liveSession 0).2.RecordBuf = liveSession.RecordBuf ∧
    badFilename ['b'] = false ∧
    Record.saveBuffer lp64 sampleServer (Record.stop liveSession 0).2 0 ['b'] 0 =
      some (false, sendMessage (Record.stop liveSession 0).2 (some 0) "No buffer to save") ∧
    (sendMessage (Record.stop liveSession 0).2 (some 0) "No buffer to save").disk = [] := by
  decide

/-- C11, amended. After `Record::stop` succeeds on a buffered session the buffer
is retained, but the session is no longer recording, and `Record::saveBuffer`
then returns false for every filename and lookback: with "No buffer to save"
(or "Can't record in replay mode"), the state changed by that message only, so
no file is opened or written. -/
theorem stopped_session_is_not_saved (K : Consts) (E : Server) (s : State) (playerIndex : Nat)
    (filename : List Char) (seconds : Int)
    (hrec : s.Recording = true) (hmode : s.RecordMode = .BufferedRecord) :
    (Record.stop s playerIndex).1 = true ∧
    (Record.stop s playerIndex).2.RecordBuf = s.RecordBuf ∧
    (Record.stop s playerIndex).2.Recording = false ∧
    Record.saveBuffer K E (Record.stop s playerIndex).2 playerIndex filename seconds =
      some (false, sendMessage (Record.stop s playerIndex).2 (some playerIndex)
        (if s.ReplayMode then "Can't record in replay mode" else "No buffer to save")) := by
  have hstop : Record.stop s playerIndex =
      (true, { sendMessage s (some playerIndex) "Record stopped" with Recording := false }) := by
    unfold Record.stop
    simp [hrec, hmode, sendMessage]
  rw [hstop]
  refine ⟨rfl, rfl, rfl, ?_⟩
  unfold Record.saveBuffer
  cases hr : s.ReplayMode <;> simp [sendMessage, hr]

/-- C11 at a concrete input: the session `liveSession`. -/
theorem stopped_session_is_not_saved_witness :
    (Record.stop liveSession 0).1 = true ∧
    (Record.stop liveSession 0).2.RecordBuf = liveSession.RecordBuf ∧
    (Record.stop liveSession 0).2.Recording = false ∧
    Record.saveBuffer lp64 sampleServer (Record.stop liveSession 0).2 0 ['b'] 5 =
      some (false, sendMessage (Record.stop liveSession 0).2 (some 0)
        (if liveSession.ReplayMode then "Can't record in replay mode" else "No buffer to save")) :=
  stopped_session_is_not_saved lp64 sampleServer liveSession 0 ['b'] 5 (by decide) (by decide)

/-- C12, at the failing input. The buffer of `gapSession` holds the snapshot
packet (15 bytes of payload), a live packet with an empty payload and a live
packet of 3 bytes. `Record::saveBuffer` returns true and writes, after the 434
bytes of the file header, three record headers; the second record declares a
payload of 0 bytes, and the third is written with prevLength 15, the length of
the first record, not the 0 of the record before it. -/
theorem save_buffer_prev_length_after_empty_payload :
    gapSession.RecordBuf.pkts.map (fun p => (p.mode, p.code, p.len)) =
      [(lp64.StatePacket, lp64.MsgTeamUpdate, 15), (lp64.RealPacket, 0x6d73, 0),
       (lp64.RealPacket, 0x6d73, 3)] ∧
    ∃ s1 bytes, Record.saveBuffer lp64 sampleServer gapSession 0 ['b'] 0 = some (true, s1) ∧
      s1.disk = [(['b'], bytes)] ∧ bytes.length = 434 + (40 + 15) + 40 + (40 + 3) ∧
      nboUnpackUInt (bytes.drop 434) 4 = 15 ∧ nboUnpackUInt (bytes.drop 434) 8 = 0 ∧
      nboUnpackUInt (bytes.drop (434 + 55)) 4 = 0 ∧
      nboUnpackUInt (bytes.drop (434 + 55)) 8 = 15 ∧
      nboUnpackUInt (bytes.drop (434 + 55 + 40)) 4 = 3 ∧
      nboUnpackUInt (bytes.drop (434 + 55 + 40)) 8 = 15 := by
  refine ⟨by decide, _, _, rfl, rfl, ?_⟩
  decide

/-- C13, at the failing inputs. `Record::saveBuffer` on the buffered recording
`liveSession` with a valid filename: when the file cannot be created, and when
the file has no room for the header, it returns false after `recordReset`, so
the two packets of the buffer are gone, its counters are 0 and the session is
no longer recording. -/
theorem failed_save_discards_buffer :
    liveSession.Recording = true ∧ liveSession.RecordMode = .BufferedRecord ∧
    liveSession.RecordBuf.pkts.length = 2 ∧ liveSession.RecordBuf.byteCount = 98 ∧
    (∃ s1, Record.saveBuffer lp64 { sampleServer with canCreate := fun _ => false }
        liveSession 0 ['b'] 0 = some (false, s1) ∧
      s1.RecordBuf = { byteCount := 0, packetCount := 0, pkts := [] } ∧ s1.Recording = false) ∧
    (∃ s1, Record.saveBuffer lp64 { sampleServer with room := 100 }
        liveSession 0 ['b'] 0 = some (false, s1) ∧
      s1.RecordBuf = { byteCount := 0, packetCount := 0, pkts := [] } ∧ s1.Recording = false) := by
  refine ⟨by decide, by decide, by decide, by decide, ⟨_, rfl, ?_⟩, ⟨_, rfl, ?_⟩⟩ <;> decide

/-- C14, at the failing inputs. On a buffered recording whose buffer holds no
snapshot-boundary packet (the nine live packets left after the eviction of the
boundary packet, or no packet at all) `Record::saveBuffer` with a valid
filename does not return: with a lookback of 0 or of 5 seconds the scan forward
from the tail reads `p->mode` through the null pointer. -/
theorem save_without_boundary_reads_null :
    (afterPushes 10).Recording = true ∧ (afterPushes 10).RecordMode = .BufferedRecord ∧
    (afterPushes 10).ReplayMode = false ∧
    (afterPushes 10).RecordBuf.pkts.map (fun p => (p.mode, p.code)) =
      List.replicate 9 (lp64.RealPacket, 0x6d73) ∧
    Record.saveBuffer lp64 sampleServer (afterPushes 10) 0 ['b'] 0 = none ∧
    Record.saveBuffer lp64 sampleServer (afterPushes 10) 0 ['b'] 5 = none ∧
    budget1024.RecordBuf.pkts = [] ∧
    Record.saveBuffer lp64 sampleServer budget1024 0 ['b'] 0 = none ∧
    Record.saveBuffer lp64 sampleServer budget1024 0 ['b'] 5 = none := by
  decide

/-! ## Loading a file -/

/-- The database after `setVariables` on the payload `data`. -/
def setVarsDb (db : List (List Nat × List Nat)) (data : List Nat) : List (List Nat × List Nat) :=
  setVariablesLoop (nboUnpackUShort data 0 % 2 ^ 16) (data.drop 2) db

/-- The packets `preloadVariables` skips: state and hidden packets that are not
`MsgSetVar`. -/
def beforeSetVar (K : Consts) (q : RRpacket) : Prop :=
  q.code ≠ K.MsgSetVar ∧ (q.mode = K.StatePacket ∨ q.mode = K.HiddenPacket)

theorem skipToSetVar_split (K : Consts) (l : List RRpacket) :
    ∃ pre, l = pre ++ skipToSetVar K l ∧ ∀ q ∈ pre, beforeSetVar K q := by
  induction l with
  | nil => exact ⟨[], rfl, by simp⟩
  | cons p rest ih =>
    unfold skipToSetVar
    split
    · rename_i hp
      obtain ⟨pre, h1, h2⟩ := ih
      refine ⟨p :: pre, by rw [List.cons_append, ← h1], ?_⟩
      intro q hq
      rcases List.mem_cons.1 hq with rfl | hq
      · exact hp
      · exact h2 q hq
    · exact ⟨[], rfl, by simp⟩

theorem skipToSetVar_append (K : Consts) (pre : List RRpacket) (p : RRpacket)
    (post : List RRpacket) (hpre : ∀ q ∈ pre, beforeSetVar K q) (hp : ¬ beforeSetVar K p) :
    skipToSetVar K (pre ++ p :: post) = p :: post := by
  induction pre with
  | nil =>
    simp only [List.nil_append]
    unfold skipToSetVar
    exact if_neg hp
  | cons a pre ih =>
    simp only [List.cons_append]
    unfold skipToSetVar
    exact (if_pos (hpre a (List.mem_cons_self _ _))).trans
      (ih (fun q hq => hpre q (List.mem_cons_of_mem _ hq)))

theorem loadSetVars_eq (K : Consts) (rest : List RRpacket) :
    ∀ s : State, loadSetVars K rest s =
      { s with BZDB := ((rest.takeWhile
          (fun q => decide (q.mode = K.StatePacket ∧ q.code = K.MsgSetVar))).map
            (fun q => q.data)).foldl setVarsDb s.BZDB } := by
  induction rest with
  | nil => intro s; rfl
  | cons p rest ih =>
    intro s
    unfold loadSetVars
    by_cases hp : p.mode = K.StatePacket ∧ p.code = K.MsgSetVar
    · rw [if_pos hp, ih]
      simp [List.takeWhile, hp, setVariables, setVarsDb]
    · rw [if_neg hp]
      simp [List.takeWhile, hp]

theorem loadPacket_cases (K : Consts) (s : State) :
    (∃ f, (loadPacket K s).2 = { s with ReplayFile := f }) ∨
    ((loadPacket K s).1 = none ∧
      ∃ f, (loadPacket K s).2 = replayReset K { s with ReplayFile := f }) := by
  unfold loadPacket
  cases hf : s.ReplayFile with
  | none => exact Or.inl ⟨none, by simp only; cases s; simp_all⟩
  | some f =>
    simp only
    cases hr : fread (RRpacketHdrSize K) f with
    | mk r f1 =>
      cases r with
      | none => exact Or.inl ⟨_, rfl⟩
      | some bufStart =>
        simp only
        split
        · exact Or.inr ⟨rfl, _, rfl⟩
        · cases hd : fread (nboUnpackUInt bufStart 4) f1 with
          | mk d f2 =>
            cases d with
            | none => exact Or.inl ⟨_, rfl⟩
            | some data => exact Or.inl ⟨_, rfl⟩

theorem preload_frame (K : Consts) (n : Nat) :
    ∀ s : State, s.Replaying = false → s.ReplayOffset = 0 →
      (preload K n s).Replaying = false ∧ (preload K n s).ReplayOffset = 0 ∧
      (preload K n s).BZDB = s.BZDB := by
  induction n with
  | zero => intro s h1 h2; exact ⟨h1, h2, rfl⟩
  | succ n ih =>
    intro s h1 h2
    unfold preload
    split
    · have hc := loadPacket_cases K s
      cases hl : loadPacket K s with
      | mk r s1 =>
        rw [hl] at hc
        simp only at hc
        have hs1 : s1.Replaying = false ∧ s1.ReplayOffset = 0 ∧ s1.BZDB = s.BZDB := by
          rcases hc with ⟨f, hf⟩ | ⟨_, f, hf⟩
          · rw [hf]; exact ⟨h1, h2, rfl⟩
          · rw [hf]; exact ⟨rfl, rfl, rfl⟩
        cases r with
        | none => exact hs1
        | some p =>
          simp only
          obtain ⟨a, b, c⟩ := ih { s1 with ReplayBuf := addPacket K s1.ReplayBuf p } hs1.1 hs1.2.1
          exact ⟨a, b, c.trans hs1.2.2⟩
    · exact ⟨h1, h2, rfl⟩

theorem fread_consumes (size : Nat) (f : RFile) (buf : List Nat) (f1 : RFile)
    (h : fread size f = (some buf, f1)) : f1.rest.length < f.rest.length := by
  unfold fread at h
  split at h
  · simp at h
  · split at h
    · simp only [Prod.mk.injEq, Option.some.injEq] at h
      rw [← h.2]
      simp only [List.length_drop]
      omega
    · simp at h

theorem loadPacket_consumes (K : Consts) (s : State) (p : RRpacket) (s1 : State)
    (h : loadPacket K s = (some p, s1)) : bytesLeft s1 < bytesLeft s := by
  unfold loadPacket at h
  cases hf : s.ReplayFile with
  | none => rw [hf] at h; simp at h
  | some f =>
    rw [hf] at h
    simp only at h
    cases hr : fread (RRpacketHdrSize K) f with
    | mk r f1 =>
      rw [hr] at h
      cases r with
      | none => simp at h
      | some bufStart =>
        simp only at h
        split at h
        · simp at h
        · cases hd : fread (nboUnpackUInt bufStart 4) f1 with
          | mk d f2 =>
            rw [hd] at h
            cases d with
            | none => simp at h
            | some data =>
              simp only [Prod.mk.injEq] at h
              have h1 := fread_consumes _ _ _ _ hr
              have h2 := fread_consumes _ _ _ _ hd
              rw [← h.2]
              simp only [bytesLeft, hf]
              omega

/-- The preload loop ends within `bytesLeft s + 1` packets: more fuel does not
change what it returns. -/
theorem preload_fuel (K : Consts) (n : Nat) :
    ∀ (m : Nat) (s : State), bytesLeft s < n → bytesLeft s < m →
      preload K n s = preload K m s := by
  induction n with
  | zero => intro m s h; omega
  | succ n ih =>
    intro m s hn hm
    cases m with
    | zero => omega
    | succ m =>
      unfold preload
      split
      · cases hl : loadPacket K s with
        | mk r s1 =>
          cases r with
          | none => rfl
          | some p =>
            simp only
            have hc := loadPacket_consumes K s p s1 hl
            have hb : bytesLeft { s1 with ReplayBuf := addPacket K s1.ReplayBuf p } =
                bytesLeft s1 := rfl
            exact ih m _ (by rw [hb]; omega) (by rw [hb]; omega)
      · rfl

theorem preloadVariables_true (K : Consts) (s : State) :
    (preloadVariables K s).1 = true ↔
      ∃ pre p post, s.ReplayBuf.pkts = pre ++ p :: post ∧ (∀ q ∈ pre, beforeSetVar K q) ∧
        p.code = K.MsgSetVar ∧ p.mode = K.StatePacket := by
  constructor
  · intro h
    obtain ⟨pre, h1, h2⟩ := skipToSetVar_split K s.ReplayBuf.pkts
    unfold preloadVariables at h
    cases hs : skipToSetVar K s.ReplayBuf.pkts with
    | nil => rw [hs] at h; simp at h
    | cons p rest =>
      rw [hs] at h h1
      simp only at h
      split at h
      · simp at h
      · rename_i hp
        refine ⟨pre, p, rest, h1, h2, ?_, ?_⟩
        · by_contra hc; exact hp (Or.inr hc)
        · by_contra hc; exact hp (Or.inl hc)
  · rintro ⟨pre, p, post, h1, h2, h3, h4⟩
    unfold preloadVariables
    rw [h1, skipToSetVar_append K pre p post h2 (fun hb => hb.1 h3)]
    simp only
    rw [if_neg (by rw [h3, h4]; simp)]

theorem preloadVariables_state (K : Consts) (s : State) (pre : List RRpacket) (p : RRpacket)
    (post : List RRpacket) (h1 : s.ReplayBuf.pkts = pre ++ p :: post)
    (h2 : ∀ q ∈ pre, beforeSetVar K q) (h3 : p.code = K.MsgSetVar)
    (h4 : p.mode = K.StatePacket) :
    (preloadVariables K s).2 =
      { s with BZDB := ((p :: post.takeWhile
          (fun q => decide (q.mode = K.StatePacket ∧ q.code = K.MsgSetVar))).map
            (fun q => q.data)).foldl setVarsDb s.BZDB } := by
  unfold preloadVariables
  rw [h1, skipToSetVar_append K pre p post h2 (fun hb => hb.1 h3)]
  simp only
  rw [if_neg (by rw [h3, h4]; simp), loadSetVars_eq]
  simp [setVariables, setVarsDb]

/-- The outcome of `Replay::loadFile` once the header is read, with the variables
given as what `setVariables` makes of the payloads. -/
theorem loadFile_outcome_decoded (K : Consts) (E : Server) (s : State) (playerIndex : Nat)
    (filename : List Char) (f : RFile) (h : ReplayHeader) (s4 : State)
    (hmode : s.ReplayMode = true) (hname : badFilename filename = false)
    (hopen : openFileRead (replayReset K s) filename = some f)
    (hhdr : loadHeader K E { replayReset K s with ReplayFile := some f } = (some h, s4))
    (hmagic : h.magic = ReplayMagic) :
    ((Replay.loadFile K E s playerIndex filename).1 = true ↔
      ((preload K (bytesLeft s4 + 1) s4).ReplayBuf.pkts ≠ [] ∧
        ∃ pre p post, (preload K (bytesLeft s4 + 1) s4).ReplayBuf.pkts = pre ++ p :: post ∧
          (∀ q ∈ pre, beforeSetVar K q) ∧ p.code = K.MsgSetVar ∧ p.mode = K.StatePacket)) ∧
    (∀ pre p post, (preload K (bytesLeft s4 + 1) s4).ReplayBuf.pkts = pre ++ p :: post →
      (∀ q ∈ pre, beforeSetVar K q) → p.code = K.MsgSetVar → p.mode = K.StatePacket →
      (Replay.loadFile K E s playerIndex filename).2.ReplayPos = some 0 ∧
      (Replay.loadFile K E s playerIndex filename).2.ReplayBuf =
        (preload K (bytesLeft s4 + 1) s4).ReplayBuf ∧
      (Replay.loadFile K E s playerIndex filename).2.Replaying = false ∧
      (Replay.loadFile K E s playerIndex filename).2.ReplayOffset = 0 ∧
      (Replay.loadFile K E s playerIndex filename).2.BZDB =
        ((p :: post.takeWhile
          (fun q => decide (q.mode = K.StatePacket ∧ q.code = K.MsgSetVar))).map
            (fun q => q.data)).foldl setVarsDb s.BZDB) ∧
    ((Replay.loadFile K E s playerIndex filename).1 = false →
      (Replay.loadFile K E s playerIndex filename).2.ReplayBuf =
        { byteCount := 0, packetCount := 0, pkts := [] } ∧
      (Replay.loadFile K E s playerIndex filename).2.ReplayPos = none ∧
      (Replay.loadFile K E s playerIndex filename).2.ReplayFile = none) := by
  rw [loadFile_after_header K E s playerIndex filename f h s4 hmode hname hopen hhdr hmagic]
  have hs4 : s4.Replaying = false ∧ s4.ReplayOffset = 0 ∧ s4.BZDB = s.BZDB := by
    have e := loadHeader_state K E { replayReset K s with ReplayFile := some f }
    rw [hhdr] at e
    simp only at e
    rw [e]
    exact ⟨rfl, rfl, rfl⟩
  obtain ⟨hrep, hoff, hdb⟩ := preload_frame K (bytesLeft s4 + 1) s4 hs4.1 hs4.2.1
  generalize preload K (bytesLeft s4 + 1) s4 = s5 at hrep hoff hdb ⊢
  by_cases hl : s5.ReplayBuf.pkts = []
  · have ht : s5.ReplayBuf.tail = none := by simp [RRbuffer.tail, hl]
    rw [if_pos ht]
    refine ⟨⟨fun hc => by simp at hc, fun hc => absurd hl hc.1⟩, ?_, fun _ => ⟨rfl, rfl, rfl⟩⟩
    intro pre p post hp
    rw [hl] at hp
    simp at hp
  · have ht : s5.ReplayBuf.tail = some 0 := by simp [RRbuffer.tail, hl]
    rw [if_neg (by rw [ht]; simp), ht]
    have hiff := preloadVariables_true K { s5 with ReplayPos := some 0 }
    by_cases hv : (preloadVariables K { s5 with ReplayPos := some 0 }).1 = true
    · rw [hv]
      rw [Bool.not_true, if_neg Bool.false_ne_true]
      refine ⟨⟨fun _ => ⟨hl, hiff.1 hv⟩, fun _ => rfl⟩, ?_, fun hc => by simp at hc⟩
      intro pre p post h1 h2 h3 h4
      rw [preloadVariables_state K { s5 with ReplayPos := some 0 } pre p post h1 h2 h3 h4]
      refine ⟨rfl, rfl, hrep, hoff, ?_⟩
      simp only [sendMessage]
      rw [hdb, hs4.2.2]
    · have hv2 : (preloadVariables K { s5 with ReplayPos := some 0 }).1 = false := by
        cases hb : (preloadVariables K { s5 with ReplayPos := some 0 }).1
        · rfl
        · exact absurd hb hv
      rw [hv2]
      rw [Bool.not_false, if_pos rfl]
      refine ⟨⟨fun hc => by simp at hc, fun hc => absurd (hiff.2 hc.2) hv⟩, ?_,
        fun _ => ⟨rfl, rfl, rfl⟩⟩
      intro pre p post h1 h2 h3 h4
      exact absurd (hiff.2 ⟨pre, p, post, h1, h2, h3, h4⟩) hv

/-! ## The variables a loaded file sets -/

/-- The value of a variable of the configuration database, if it is set. -/
def bzdbGet (db : List (List Nat × List Nat)) (name : List Nat) : Option (List Nat) :=
  (db.find? (fun e => decide (e.1 = name))).map (fun e => e.2)

/-- The payload of a `MsgSetVar` message that carries the pairs of `t`, in the
words of the format: the number of pairs in two bytes, most significant
first, then for each pair the length of the name in one byte, the name, the
length of the value in one byte, the value. -/
def setVarPayload (t : List (List Nat × List Nat)) : List Nat :=
  [t.length / 256, t.length % 256] ++
    (t.map (fun kv => [kv.1.length] ++ kv.1 ++ ([kv.2.length] ++ kv.2))).flatten

/-- A table that a `MsgSetVar` payload can carry: fewer than 65536 pairs, names
and values shorter than 256 bytes and without a NUL byte. -/
def wellFormedTable (t : List (List Nat × List Nat)) : Prop :=
  t.length < 65536 ∧
  ∀ kv ∈ t, kv.1.length < 256 ∧ kv.2.length < 256 ∧ (∀ c ∈ kv.1, c ≠ 0) ∧ (∀ c ∈ kv.2, c ≠ 0)

instance (t : List (List Nat × List Nat)) : Decidable (wellFormedTable t) := by
  unfold wellFormedTable; infer_instance

/-- The database with the pairs of `t` set into it in order, the variable "poll"
left out. -/
def applyTable (db : List (List Nat × List Nat)) (t : List (List Nat × List Nat)) :
    List (List Nat × List Nat) :=
  t.foldl (fun d kv => if kv.1 = [112, 111, 108, 108] then d else bzdbSet d kv.1 kv.2) db

theorem cstr_of_no_nul (l : List Nat) (h : ∀ c ∈ l, c ≠ 0) : cstr l = l := by
  unfold cstr
  rw [List.takeWhile_eq_self_iff]
  intro c hc
  simpa using h c hc

theorem find_after_set (db : List (List Nat × List Nat)) (n v m : List Nat) :
    (db.map (fun e => if e.1 = n then (n, v) else e)).find? (fun e => decide (e.1 = m)) =
      (db.find? (fun e => decide (e.1 = m))).map (fun e => if e.1 = n then (n, v) else e) := by
  induction db with
  | nil => rfl
  | cons e db ih =>
    simp only [List.map_cons, List.find?_cons]
    by_cases he : e.1 = n
    · by_cases hm : e.1 = m
      · have hnm : n = m := by rw [← he]; exact hm
        simp [he, hnm]
      · have hnm : ¬ n = m := by rw [← he]; exact hm
        simp only [if_pos he, hnm, decide_False, hm]
        exact ih
    · by_cases hm : e.1 = m
      · have hmn : ¬ m = n := by rw [← hm]; exact he
        simp [hmn, hm]
      · simp only [if_neg he, hm, decide_False]
        exact ih

theorem bzdbGet_set (db : List (List Nat × List Nat)) (n v : List Nat) :
    bzdbGet (bzdbSet db n v) n = some v ∧
    ∀ m, m ≠ n → bzdbGet (bzdbSet db n v) m = bzdbGet db m := by
  unfold bzdbGet bzdbSet
  by_cases ha : db.any (fun e => decide (e.1 = n)) = true
  · rw [if_pos ha]
    refine ⟨?_, ?_⟩
    · rw [find_after_set]
      rw [List.any_eq_true] at ha
      obtain ⟨e, he, hen⟩ := ha
      cases hf : db.find? (fun e => decide (e.1 = n)) with
      | none =>
        rw [List.find?_eq_none] at hf
        exact absurd hen (hf e he)
      | some g =>
        have hg := List.find?_some hf
        simp only [decide_eq_true_eq] at hg
        simp [hg]
    · intro m hm
      rw [find_after_set]
      cases hf : db.find? (fun e => decide (e.1 = m)) with
      | none => rfl
      | some g =>
        have hg := List.find?_some hf
        simp only [decide_eq_true_eq] at hg
        have hgn : ¬ g.1 = n := by rw [hg]; exact hm
        simp [hgn]
  · rw [if_neg ha]
    have hnone : ∀ e ∈ db, ¬ e.1 = n := by
      intro e he c
      apply ha
      rw [List.any_eq_true]
      exact ⟨e, he, by simpa using c⟩
    refine ⟨?_, ?_⟩
    · rw [List.find?_append]
      have : db.find? (fun e => decide (e.1 = n)) = none := by
        rw [List.find?_eq_none]
        intro e he
        simpa using hnone e he
      rw [this]
      simp
    · intro m hm
      rw [List.find?_append]
      cases hf : db.find? (fun e => decide (e.1 = m)) with
      | some e => simp
      | none =>
        have : ¬ n = m := fun c => hm c.symm
        simp [this]

theorem setVariablesLoop_table (t : List (List Nat × List Nat)) :
    ∀ (rest : List Nat) (db : List (List Nat × List Nat)),
      (∀ kv ∈ t, kv.1.length < 256 ∧ kv.2.length < 256 ∧ (∀ c ∈ kv.1, c ≠ 0) ∧
        (∀ c ∈ kv.2, c ≠ 0)) →
      setVariablesLoop t.length
        ((t.map (fun kv => [kv.1.length] ++ kv.1 ++ ([kv.2.length] ++ kv.2))).flatten ++ rest) db
        = applyTable db t := by
  induction t with
  | nil => intro rest db _; rfl
  | cons kv t ih =>
    intro rest db h
    obtain ⟨h1, h2, h3, h4⟩ := h kv (List.mem_cons_self _ _)
    have ht := fun q hq => h q (List.mem_cons_of_mem _ hq)
    simp only [List.length_cons, List.map_cons, List.flatten_cons, applyTable, List.foldl_cons]
    generalize hT : (t.map (fun kv => [kv.1.length] ++ kv.1 ++ ([kv.2.length] ++ kv.2))).flatten
      = T at ih ⊢
    unfold setVariablesLoop
    have e0 : ([kv.1.length] ++ kv.1 ++ ([kv.2.length] ++ kv.2) ++ T ++ rest).getD 0 0 % 256
        = kv.1.length := by
      simp only [List.singleton_append, List.cons_append, List.getD_cons_zero]
      exact Nat.mod_eq_of_lt h1
    have e1 : nboUnpackString ([kv.1.length] ++ kv.1 ++ ([kv.2.length] ++ kv.2) ++ T ++ rest) 1
        kv.1.length = kv.1 := by
      unfold nboUnpackString
      simp only [List.singleton_append, List.cons_append, List.drop_succ_cons, List.drop_zero,
        List.append_assoc]
      exact List.take_left' rfl
    have e2 : ([kv.1.length] ++ kv.1 ++ ([kv.2.length] ++ kv.2) ++ T ++ rest).drop
        (1 + kv.1.length) = [kv.2.length] ++ kv.2 ++ (T ++ rest) := by
      rw [show [kv.1.length] ++ kv.1 ++ ([kv.2.length] ++ kv.2) ++ T ++ rest =
        ([kv.1.length] ++ kv.1) ++ ([kv.2.length] ++ kv.2 ++ (T ++ rest)) by
          simp only [List.append_assoc]]
      exact List.drop_left' (by simp only [List.length_append, List.length_singleton])
    simp only [e0, e1, e2]
    have e3 : ([kv.2.length] ++ kv.2 ++ (T ++ rest)).getD 0 0 % 256 = kv.2.length := by
      simp only [List.singleton_append, List.cons_append, List.getD_cons_zero]
      exact Nat.mod_eq_of_lt h2
    have e4 : nboUnpackString ([kv.2.length] ++ kv.2 ++ (T ++ rest)) 1 kv.2.length = kv.2 := by
      unfold nboUnpackString
      simp only [List.singleton_append, List.cons_append, List.drop_succ_cons, List.drop_zero,
        List.append_assoc]
      exact List.take_left' rfl
    have e5 : ([kv.2.length] ++ kv.2 ++ (T ++ rest)).drop (1 + kv.2.length) = T ++ rest := by
      exact List.drop_left' (by simp only [List.length_append, List.length_singleton])
    simp only [e3, e4, e5, cstr_of_no_nul kv.1 h3, cstr_of_no_nul kv.2 h4]
    by_cases hp : kv.1 = [112, 111, 108, 108]
    · simp only [hp, ne_eq, not_true_eq_false, if_false, if_true]
      exact ih rest db ht
    · simp only [hp, ne_eq, not_false_eq_true, if_true, if_false]
      exact ih rest _ ht

/-- The decoder on a payload in the format: `setVariables` sets the pairs the
payload carries, in order, the variable "poll" left out. -/
theorem setVarsDb_table (db t : List (List Nat × List Nat)) (h : wellFormedTable t) :
    setVarsDb db (setVarPayload t) = applyTable db t := by
  unfold setVarsDb setVarPayload
  have hn : nboUnpackUShort ([t.length / 256, t.length % 256] ++
      (t.map (fun kv => [kv.1.length] ++ kv.1 ++ ([kv.2.length] ++ kv.2))).flatten) 0 % 2 ^ 16
      = t.length := by
    unfold nboUnpackUShort
    simp only [List.cons_append, List.getD_cons_zero, List.getD_cons_succ, Nat.zero_add]
    have := h.1
    omega
  rw [hn]
  have hd : ([t.length / 256, t.length % 256] ++
      (t.map (fun kv => [kv.1.length] ++ kv.1 ++ ([kv.2.length] ++ kv.2))).flatten).drop 2 =
      (t.map (fun kv => [kv.1.length] ++ kv.1 ++ ([kv.2.length] ++ kv.2))).flatten ++ [] := by
    simp
  rw [hd]
  exact setVariablesLoop_table t [] db h.2

theorem foldl_setVarsDb_tables (tables : List (List (List Nat × List Nat))) :
    ∀ db, (∀ t ∈ tables, wellFormedTable t) →
      (tables.map setVarPayload).foldl setVarsDb db = tables.foldl applyTable db := by
  induction tables with
  | nil => intro db _; rfl
  | cons t ts ih =>
    intro db h
    simp only [List.map_cons, List.foldl_cons]
    rw [setVarsDb_table db t (h t (List.mem_cons_self _ _))]
    exact ih _ (fun q hq => h q (List.mem_cons_of_mem _ hq))

theorem skipForward_some (K : Consts) (pkts : List RRpacket) (target : Int) (cursor : Nat)
    (n : Nat) : ∀ (j r : Nat), skipForward K pkts target cursor n j = some r →
      j ≤ r ∧ r < j + n ∧ forwardStop K pkts target cursor r = true ∧
      ∀ k, j ≤ k → k < r → forwardStop K pkts target cursor k = false := by
  induction n with
  | zero => intro j r h; simp [skipForward] at h
  | succ n ih =>
    intro j r h
    unfold skipForward at h
    split at h
    · rename_i hs
      simp only [Option.some.injEq] at h
      subst h
      exact ⟨le_refl _, by omega, hs, fun k h1 h2 => by omega⟩
    · rename_i hs
      obtain ⟨a, b, c, d⟩ := ih (j + 1) r h
      refine ⟨by omega, by omega, c, fun k h1 h2 => ?_⟩
      by_cases hk : k = j
      · subst hk
        simpa using hs
      · exact d k (by omega) h2

theorem skipForward_none (K : Consts) (pkts : List RRpacket) (target : Int) (cursor : Nat)
    (n : Nat) : ∀ (j : Nat), skipForward K pkts target cursor n j = none →
      ∀ k, j ≤ k → k < j + n → forwardStop K pkts target cursor k = false := by
  induction n with
  | zero => intro j _ k h1 h2; omega
  | succ n ih =>
    intro j h k h1 h2
    unfold skipForward at h
    split at h
    · simp at h
    · rename_i hs
      by_cases hk : k = j
      · subst hk
        simpa using hs
      · exact ih (j + 1) h k (by omega) (by omega)

theorem skipForward_of_none (K : Consts) (pkts : List RRpacket) (target : Int) (cursor : Nat)
    (n : Nat) : ∀ (j : Nat),
      (∀ k, j ≤ k → k < j + n → forwardStop K pkts target cursor k = false) →
      skipForward K pkts target cursor n j = none := by
  induction n with
  | zero => intro j _; rfl
  | succ n ih =>
    intro j h
    unfold skipForward
    rw [if_neg (by rw [h j (le_refl _) (by omega)]; simp)]
    exact ih (j + 1) (fun k h1 h2 => h k (by omega) (by omega))

theorem skipBackward_some (K : Consts) (pkts : List RRpacket) (target : Int) (j : Nat) :
    ∀ r : Nat, skipBackward K pkts target j = some r →
      r ≤ j ∧ backwardStop K pkts target r = true ∧
      ∀ k, r < k → k ≤ j → backwardStop K pkts target k = false := by
  induction j with
  | zero =>
    intro r h
    unfold skipBackward at h
    split at h
    · rename_i hs
      simp only [Option.some.injEq] at h
      subst h
      exact ⟨le_refl _, hs, fun k h1 h2 => by omega⟩
    · simp at h
  | succ j ih =>
    intro r h
    unfold skipBackward at h
    split at h
    · rename_i hs
      simp only [Option.some.injEq] at h
      subst h
      exact ⟨le_refl _, hs, fun k h1 h2 => by omega⟩
    · rename_i hs
      obtain ⟨a, b, c⟩ := ih r h
      refine ⟨by omega, b, fun k h1 h2 => ?_⟩
      by_cases hk : k = j + 1
      · subst hk
        simpa using hs
      · exact c k h1 (by omega)

theorem skipBackward_none (K : Consts) (pkts : List RRpacket) (target : Int) (j : Nat) :
    skipBackward K pkts target j = none →
      ∀ k, k ≤ j → backwardStop K pkts target k = false := by
  induction j with
  | zero =>
    intro h k hk
    unfold skipBackward at h
    split at h
    · simp at h
    · rename_i hs
      have : k = 0 := by omega
      subst this
      simpa using hs
  | succ j ih =>
    intro h k hk
    unfold skipBackward at h
    split at h
    · simp at h
    · rename_i hs
      by_cases hk2 : k = j + 1
      · subst hk2
        simpa using hs
      · exact ih h k (by omega)

/-- The position `Replay::skip` moves the cursor to, from a cursor at `cur`. -/
def skipTarget (K : Consts) (now : Int) (s : State) (cur : Nat) (seconds : Int) : Nat :=
  if seconds = 0 then cur
  else if seconds > 0 then
    (skipForward K s.ReplayBuf.pkts ((now - s.ReplayOffset) + seconds * 1000000) cur
      (s.ReplayBuf.pkts.length - cur) cur).getD (s.ReplayBuf.pkts.length - 1)
  else
    (skipBackward K s.ReplayBuf.pkts ((now - s.ReplayOffset) + seconds * 1000000) cur).getD 0

/-- With a file loaded and the cursor on a packet of the buffer, `Replay::skip`
returns true and moves the cursor to `skipTarget`. -/
theorem skip_eq (K : Consts) (E : Server) (now : Int) (s : State) (playerIndex : Nat)
    (seconds : Int) (cur : Nat) (hmode : s.ReplayMode = true) (hfile : s.ReplayFile ≠ none)
    (hpos : s.ReplayPos = some cur) (hcur : cur < s.ReplayBuf.pkts.length) :
    Replay.skip K E now s playerIndex seconds =
      some (true, sendMessage
        { (if skipTarget K now s cur seconds ≠ cur then resetStates K E s else s) with
          ReplayOffset :=
            now - (s.ReplayBuf.pkts.getD (skipTarget K now s cur seconds) default).timestamp,
          ReplayPos := some (skipTarget K now s cur seconds) }
        (some playerIndex)
        (skipReport (s.ReplayOffset - (now -
          (s.ReplayBuf.pkts.getD (skipTarget K now s cur seconds) default).timestamp))
          seconds)) := by
  have hne : s.ReplayBuf.pkts ≠ [] := by
    intro h; rw [h] at hcur; simp at hcur
  unfold Replay.skip
  cases hf : s.ReplayFile with
  | none => exact absurd hf hfile
  | some f =>
    simp only [hmode, hpos, Bool.true_eq_false, if_false, not_le.2 hcur]
    unfold skipTarget
    by_cases h0 : seconds = 0
    · simp [h0]
    · by_cases hp : seconds > 0
      · simp only [h0, hp, ne_eq, not_false_eq_true, if_true]
        cases hs : skipForward K s.ReplayBuf.pkts (now - s.ReplayOffset + seconds * 1000000) cur
            (s.ReplayBuf.pkts.length - cur) cur with
        | none => simp [RRbuffer.head, hne]
        | some j => simp
      · simp only [h0, hp, ne_eq, not_false_eq_true, if_true, if_false]
        cases hs : skipBackward K s.ReplayBuf.pkts (now - s.ReplayOffset + seconds * 1000000) cur
          with
        | none => simp [RRbuffer.tail, hne]
        | some j => simp

/-- Where `skipTarget` lies: the cursor itself for 0 seconds; for a forward skip
the first position from the cursor on that passes `forwardStop`, or else the
head; for a backward skip the first position from the cursor back that passes
`backwardStop`, or else the tail. -/
theorem skipTarget_spec (K : Consts) (now : Int) (s : State) (cur : Nat) (seconds : Int)
    (hcur : cur < s.ReplayBuf.pkts.length) :
    skipTarget K now s cur seconds < s.ReplayBuf.pkts.length ∧
    (seconds = 0 → skipTarget K now s cur seconds = cur) ∧
    (0 < seconds → cur ≤ skipTarget K now s cur seconds ∧
      ((forwardStop K s.ReplayBuf.pkts ((now - s.ReplayOffset) + seconds * 1000000) cur
          (skipTarget K now s cur seconds) = true ∧
        ∀ k, cur ≤ k → k < skipTarget K now s cur seconds →
          forwardStop K s.ReplayBuf.pkts ((now - s.ReplayOffset) + seconds * 1000000) cur k
            = false) ∨
       (skipTarget K now s cur seconds = s.ReplayBuf.pkts.length - 1 ∧
        ∀ k, cur ≤ k → k < s.ReplayBuf.pkts.length →
          forwardStop K s.ReplayBuf.pkts ((now - s.ReplayOffset) + seconds * 1000000) cur k
            = false))) ∧
    (seconds < 0 → skipTarget K now s cur seconds ≤ cur ∧
      ((backwardStop K s.ReplayBuf.pkts ((now - s.ReplayOffset) + seconds * 1000000)
          (skipTarget K now s cur seconds) = true ∧
        ∀ k, skipTarget K now s cur seconds < k → k ≤ cur →
          backwardStop K s.ReplayBuf.pkts ((now - s.ReplayOffset) + seconds * 1000000) k
            = false) ∨
       (skipTarget K now s cur seconds = 0 ∧
        ∀ k, k ≤ cur →
          backwardStop K s.ReplayBuf.pkts ((now - s.ReplayOffset) + seconds * 1000000) k
            = false))) := by
  unfold skipTarget
  by_cases h0 : seconds = 0
  · subst h0
    simp only [if_true]
    exact ⟨hcur, fun _ => trivial, fun h => absurd h (lt_irrefl _), fun h => absurd h (lt_irrefl _)⟩
  · by_cases hp : seconds > 0
    · rw [if_neg h0, if_pos hp]
      cases hs : skipForward K s.ReplayBuf.pkts (now - s.ReplayOffset + seconds * 1000000) cur
          (s.ReplayBuf.pkts.length - cur) cur with
      | none =>
        have hn := skipForward_none K _ _ _ _ _ hs
        simp only [Option.getD_none]
        refine ⟨by omega, fun h => absurd h h0, fun _ => ⟨by omega, Or.inr ⟨trivial, ?_⟩⟩,
          fun h => by omega⟩
        intro k h1 h2
        exact hn k h1 (by omega)
      | some j =>
        obtain ⟨a, b, c, d⟩ := skipForward_some K _ _ _ _ _ _ hs
        simp only [Option.getD_some]
        exact ⟨by omega, fun h => absurd h h0, fun _ => ⟨a, Or.inl ⟨c, d⟩⟩, fun h => by omega⟩
    · rw [if_neg h0, if_neg hp]
      cases hs : skipBackward K s.ReplayBuf.pkts (now - s.ReplayOffset + seconds * 1000000) cur
        with
      | none =>
        have hn := skipBackward_none K _ _ _ hs
        simp only [Option.getD_none]
        exact ⟨by omega, fun h => absurd h h0, fun h => absurd h hp,
          fun _ => ⟨by omega, Or.inr ⟨trivial, hn⟩⟩⟩
      | some j =>
        obtain ⟨a, b, c⟩ := skipBackward_some K _ _ _ _ hs
        simp only [Option.getD_some]
        exact ⟨by omega, fun h => absurd h h0, fun h => absurd h hp,
          fun _ => ⟨a, Or.inl ⟨b, c⟩⟩⟩

/-- What `Replay::skip` leaves as it was, whether or not it resets the states. -/
theorem skip_frame (K : Consts) (E : Server) (s : State) (j cur : Nat) (off : Int)
    (dest : Option Nat) (text : String) :
    (sendMessage { (if j ≠ cur then resetStates K E s else s) with
        ReplayOffset := off, ReplayPos := some j } dest text).ReplayMode = s.ReplayMode ∧
    (sendMessage { (if j ≠ cur then resetStates K E s else s) with
        ReplayOffset := off, ReplayPos := some j } dest text).ReplayFile = s.ReplayFile ∧
    (sendMessage { (if j ≠ cur then resetStates K E s else s) with
        ReplayOffset := off, ReplayPos := some j } dest text).ReplayBuf = s.ReplayBuf ∧
    (sendMessage { (if j ≠ cur then resetStates K E s else s) with
        ReplayOffset := off, ReplayPos := some j } dest text).Replaying = s.Replaying ∧
    (sendMessage { (if j ≠ cur then resetStates K E s else s) with
        ReplayOffset := off, ReplayPos := some j } dest text).player =
      (if j ≠ cur then clearReplayStates K s.player else s.player) := by
  by_cases h : j ≠ cur
  · simp only [if_pos h]
    exact ⟨rfl, rfl, rfl, rfl, rfl⟩
  · simp only [if_neg h]
    exact ⟨rfl, rfl, rfl, rfl, rfl⟩

/-- A record of a file for an LP64 host. -/
def sampleRec (mode code : Nat) (ts : Int) (data : List Nat) : List Nat × List Nat :=
  (packPacketHeader { mode := mode, code := code, len := data.length, prev_len := 0,
                      timestamp := ts, data := data } 0 ++ List.replicate 20 0, data)

/-- A recording for an LP64 host: three snapshots (a `MsgTeamUpdate` and a
`MsgSetVar` state packet each) at 0, 5 and 100 seconds, each followed by a live
message. -/
def sampleRecording : List Nat :=
  sampleHeader ReplayMagic 1 ++ List.replicate 40 9 ++ recordBytes
    [sampleRec lp64.StatePacket lp64.MsgTeamUpdate 0 [0],
     sampleRec lp64.StatePacket lp64.MsgSetVar 0 [0, 0],
     sampleRec lp64.RealPacket 0x6d73 2000000 [1],
     sampleRec lp64.StatePacket lp64.MsgTeamUpdate 5000000 [0],
     sampleRec lp64.StatePacket lp64.MsgSetVar 5000000 [0, 0],
     sampleRec lp64.RealPacket 0x6d73 7000000 [2],
     sampleRec lp64.StatePacket lp64.MsgTeamUpdate 100000000 [0],
     sampleRec lp64.StatePacket lp64.MsgSetVar 100000000 [0, 0],
     sampleRec lp64.RealPacket 0x6d73 101000000 [3]]

/-- The replay session after `Replay::loadFile` of the sample recording: nine
packets, the cursor on the oldest, offset 0. -/
def loadedSession : State :=
  (Replay.loadFile lp64 sampleServer (replayServer ['r'] sampleRecording) 0 ['r']).2

/-- Where a successful `Replay::skip` from a cursor at `cur` leaves the cursor,
`j`: at `cur` for 0 seconds; for a forward skip at the first packet from the
cursor on that passes `forwardStop` (at or after the target time, and the old
cursor packet or a packet that is not live with code `MsgTeamUpdate`), or at
the head when there is none; for a backward skip at the first packet from the
cursor back that passes `backwardStop`, or at the tail when there is none. -/
def SkipLanding (K : Consts) (now : Int) (s : State) (cur : Nat) (seconds : Int) (j : Nat) :
    Prop :=
  (seconds = 0 → j = cur) ∧
  (0 < seconds → cur ≤ j ∧
    ((forwardStop K s.ReplayBuf.pkts ((now - s.ReplayOffset) + seconds * 1000000) cur j = true ∧
      ∀ k, cur ≤ k → k < j →
        forwardStop K s.ReplayBuf.pkts ((now - s.ReplayOffset) + seconds * 1000000) cur k
          = false) ∨
     (j = s.ReplayBuf.pkts.length - 1 ∧
      ∀ k, cur ≤ k → k < s.ReplayBuf.pkts.length →
        forwardStop K s.ReplayBuf.pkts ((now - s.ReplayOffset) + seconds * 1000000) cur k
          = false))) ∧
  (seconds < 0 → j ≤ cur ∧
    ((backwardStop K s.ReplayBuf.pkts ((now - s.ReplayOffset) + seconds * 1000000) j = true ∧
      ∀ k, j < k → k ≤ cur →
        backwardStop K s.ReplayBuf.pkts ((now - s.ReplayOffset) + seconds * 1000000) k
          = false) ∨
     (j = 0 ∧
      ∀ k, k ≤ cur →
        backwardStop K s.ReplayBuf.pkts ((now - s.ReplayOffset) + seconds * 1000000) k
          = false)))

/-- The sample session after a skip of +10 seconds with the clock at 0: the
cursor is on the snapshot of 100 seconds (position 6). -/
def skippedSession : State :=
  match Replay.skip lp64 sampleServer 0 loadedSession 0 10 with
  | some r => r.2
  | none => loadedSession

theorem indexed_getElem (α : Type) (l : List α) :
    ∀ (start k : Nat), (indexed start l)[k]? = (l[k]?).map (fun a => (start + k, a)) := by
  induction l with
  | nil => intro start k; simp [indexed]
  | cons a l ih =>
    intro start k
    cases k with
    | zero => simp [indexed]
    | succ k =>
      simp only [indexed, List.getElem?_cons_succ]
      rw [ih (start + 1) k]
      congr 1
      funext x
      congr 1
      omega

theorem mem_indexed (α : Type) (l : List α) (start : Nat) (e : Nat × α) :
    e ∈ indexed start l ↔ ∃ k, l[k]? = some e.2 ∧ e.1 = start + k := by
  rw [List.mem_iff_getElem?]
  constructor
  · rintro ⟨k, hk⟩
    rw [indexed_getElem] at hk
    cases hl : l[k]? with
    | none => rw [hl] at hk; simp at hk
    | some a =>
      rw [hl] at hk
      simp only [Option.map_some', Option.some.injEq] at hk
      subst hk
      exact ⟨k, hl, rfl⟩
  · rintro ⟨k, h1, h2⟩
    refine ⟨k, ?_⟩
    rw [indexed_getElem, h1]
    simp only [Option.map_some', Option.some.injEq]
    rw [← h2]

/-- The handshake step as the specification words it: a snapshot packet (one
that is not live) with code `MsgTeamUpdate` moves ReplayNone to ReplayReceiving
and ReplayReceiving to ReplayStateful; a live packet moves ReplayReceiving to
ReplayStateful; every other combination leaves the state as it is. -/
def handshakeStep (K : Consts) (p : RRpacket) (st : PlayerReplayState) : PlayerReplayState :=
  if p.mode ≠ K.RealPacket ∧ p.code = K.MsgTeamUpdate ∧ st = .ReplayNone then .ReplayReceiving
  else if p.mode ≠ K.RealPacket ∧ p.code = K.MsgTeamUpdate ∧ st = .ReplayReceiving then
    .ReplayStateful
  else if p.mode = K.RealPacket ∧ st = .ReplayReceiving then .ReplayStateful
  else st

/-- Whether the specification has the packet delivered to an observer whose
state, after the step, is `st`: a snapshot packet to an observer that is
receiving, a live packet to a stateful one. -/
def deliverable (K : Consts) (p : RRpacket) (st : PlayerReplayState) : Prop :=
  (p.mode ≠ K.RealPacket ∧ st = .ReplayReceiving) ∨ (p.mode = K.RealPacket ∧ st = .ReplayStateful)

theorem sendToObserver_eq (K : Consts) (p : RRpacket) (i : Nat) (pl : PlayerInfo)
    (hplay : pl.playing = true) :
    (sendToObserver K p i pl).1 =
      { pl with replayState := handshakeStep K p pl.replayState } ∧
    (deliverable K p (handshakeStep K p pl.replayState) →
      (sendToObserver K p i pl).2 = [Output.direct i p.code (payload p)]) ∧
    (¬ deliverable K p (handshakeStep K p pl.replayState) → (sendToObserver K p i pl).2 = []) := by
  unfold sendToObserver handshakeStep deliverable
  by_cases hm : p.mode = K.RealPacket <;> by_cases hc : p.code = K.MsgTeamUpdate <;>
    cases hs : pl.replayState <;> simp [hm, hc, hs, hplay]

theorem sendToObserver_snd (K : Consts) (p : RRpacket) (i : Nat) (pl : PlayerInfo) :
    (sendToObserver K p i pl).2 = [] ∨
    (sendToObserver K p i pl).2 = [Output.direct i p.code (payload p)] := by
  unfold sendToObserver
  simp only
  split_ifs <;> simp

/-- The direct messages to the observer in slot `i` among `outs`, in order: the
code and payload of each. -/
def directsTo (i : Nat) (outs : List Output) : List (Nat × List Nat) :=
  outs.filterMap (fun o =>
    match o with
    | .direct j code data => if j = i then some (code, data) else none
    | .message _ _ => none)

instance (K : Consts) (p : RRpacket) (st : PlayerReplayState) : Decidable (deliverable K p st) := by
  unfold deliverable; infer_instance

theorem directsTo_append (i : Nat) (a b : List Output) :
    directsTo i (a ++ b) = directsTo i a ++ directsTo i b := by
  simp [directsTo, List.filterMap_append]

theorem directsTo_observer (K : Consts) (p : RRpacket) (i j : Nat) (pl : PlayerInfo)
    (h : j ≠ i) : directsTo i (sendToObserver K p j pl).2 = [] := by
  rcases sendToObserver_snd K p j pl with h0 | h1
  · rw [h0]; rfl
  · rw [h1]
    simp [directsTo, h]

theorem directs_indexed_gt (K : Consts) (p : RRpacket) (i : Nat) (l : List PlayerInfo) :
    ∀ start, i < start →
      directsTo i (((indexed start l).map
        (fun e => sendToObserver K p e.1 e.2)).map Prod.snd).flatten = [] := by
  induction l with
  | nil => intro start _; rfl
  | cons a l ih =>
    intro start h
    simp only [indexed, List.map_cons, List.flatten_cons, directsTo_append]
    rw [directsTo_observer K p i start a (by omega), ih (start + 1) (by omega)]
    rfl

theorem directs_indexed (K : Consts) (p : RRpacket) (i : Nat) (pl : PlayerInfo)
    (l : List PlayerInfo) :
    ∀ start, start ≤ i → l[i - start]? = some pl →
      directsTo i (((indexed start l).map
        (fun e => sendToObserver K p e.1 e.2)).map Prod.snd).flatten =
        directsTo i (sendToObserver K p i pl).2 := by
  induction l with
  | nil => intro start _ h; simp at h
  | cons a l ih =>
    intro start hle hget
    simp only [indexed, List.map_cons, List.flatten_cons, directsTo_append]
    by_cases he : start = i
    · subst he
      simp only [Nat.sub_self, List.getElem?_cons_zero, Option.some.injEq] at hget
      rw [hget, directs_indexed_gt K p start l (start + 1) (by omega), List.append_nil]
    · have hlt : start < i := by omega
      rw [directsTo_observer K p i start a he, List.nil_append]
      apply ih (start + 1) (by omega)
      have e : i - start = (i - (start + 1)) + 1 := by omega
      rw [e, List.getElem?_cons_succ] at hget
      exact hget

/-- The observer loop of `Replay::sendPackets`, seen from the observer in slot
`i`: its slot is as `sendToObserver` leaves it, and it is sent what
`sendToObserver` sends for it. -/
theorem sendToObservers_slot (K : Consts) (p : RRpacket) (s : State) (i : Nat) (pl : PlayerInfo)
    (hi : K.MaxPlayers ≤ i) (hget : s.player[i]? = some pl) :
    (sendToObservers K p s).player[i]? = some (sendToObserver K p i pl).1 ∧
    directsTo i (sendToObservers K p s).out =
      directsTo i s.out ++ directsTo i (sendToObserver K p i pl).2 := by
  have hlen : i < s.player.length := by
    by_contra hc
    rw [List.getElem?_eq_none (by omega)] at hget
    simp at hget
  have htake : (s.player.take K.MaxPlayers).length = K.MaxPlayers := by
    rw [List.length_take]; omega
  have hdrop : (s.player.drop K.MaxPlayers)[i - K.MaxPlayers]? = some pl := by
    rw [List.getElem?_drop, ← hget]
    congr 1
    omega
  refine ⟨?_, ?_⟩
  · unfold sendToObservers
    simp only
    rw [List.getElem?_append_right (by rw [htake]; exact hi), htake, List.map_map,
      List.getElem?_map, indexed_getElem, hdrop]
    simp only [Option.map_some', Function.comp_apply, Option.some.injEq]
    rw [show K.MaxPlayers + (i - K.MaxPlayers) = i by omega]
  · unfold sendToObservers
    simp only
    rw [directsTo_append, directs_indexed K p i pl _ K.MaxPlayers hi hdrop]

/-- An observer that has joined and has received nothing yet. -/
def watcher : PlayerInfo :=
  { playing := true, replayState := .ReplayNone, callSign := [111, 98, 115], email := [],
    update := [], sizeOfIP := 4, properties := 0, adminInfo := [] }

/-- The loaded sample session with one observer, in slot 200 (`MaxPlayers`). -/
def watchedSession : State :=
  { loadedSession with player := List.replicate 200 default ++ [watcher] }

/-- The first packet of the sample recording: the `MsgTeamUpdate` state packet
of time 0. -/
def firstUpdatePacket : RRpacket :=
  { mode := 1, code := 0x7475, len := 1, prev_len := 0, timestamp := 0, data := [0] }

/-- The first live packet of the sample recording, of time 2 seconds. -/
def firstLivePacket : RRpacket :=
  { mode := 0, code := 0x6d73, len := 1, prev_len := 0, timestamp := 2000000, data := [1] }

/-- C16, at the failing input. In the sample session a skip of +10 seconds has
left the cursor on the snapshot of 100 seconds (position 6). `Replay::play`
with the clock at 50 returns true and sets Replaying, but computes the offset
from `ReplayBuf.tail` (timestamp 0): ReplayOffset is 50, so the cursor's
timestamp plus the offset is 100000050, not the clock reading 50. -/
theorem play_offset_is_taken_from_the_tail :
    skippedSession.ReplayMode = true ∧ skippedSession.ReplayFile ≠ none ∧
    skippedSession.ReplayPos = some 6 ∧
    (skippedSession.ReplayBuf.pkts.getD 6 default).timestamp = 100000000 ∧
    (skippedSession.ReplayBuf.pkts.getD 0 default).timestamp = 0 ∧
    ∃ s1, Replay.play lp64 sampleServer 50 skippedSession 0 = some (true, s1) ∧
      s1.Replaying = true ∧ s1.ReplayPos = some 6 ∧ s1.ReplayOffset = 50 ∧
      (s1.ReplayBuf.pkts.getD 6 default).timestamp + s1.ReplayOffset = 100000050 := by
  refine ⟨by decide, by decide, by decide, by decide, by decide, _, rfl, ?_⟩
  decide

/-- Postcondition of `Replay::play`. In replay mode with a file loaded and a
buffer that is not empty, play returns true, sets Replaying, sets every observer
to ReplayNone, leaves the cursor and the buffer as they were, and, when the
cursor is not null, sets ReplayOffset to `now` less the timestamp of the tail of
the buffer: the cursor's timestamp plus the offset is `now` when the cursor is
on the tail (as it is after a load). With no file loaded play returns false
and changes nothing but for the message it sends. -/
theorem play_postcondition (K : Consts) (E : Server) (now : Int) (s : State)
    (playerIndex : Nat) (t : RRpacket) (rest : List RRpacket)
    (hmode : s.ReplayMode = true) (hbuf : s.ReplayBuf.pkts = t :: rest) :
    (s.ReplayFile = none →
      Replay.play K E now s playerIndex =
        some (false, sendMessage s (some playerIndex) "No replay file loaded")) ∧
    (s.ReplayFile ≠ none →
      ∃ s1, Replay.play K E now s playerIndex = some (true, s1) ∧
        s1.Replaying = true ∧ s1.player = clearReplayStates K s.player ∧
        s1.ReplayPos = s.ReplayPos ∧ s1.ReplayBuf = s.ReplayBuf ∧
        (s.ReplayPos ≠ none → s1.ReplayOffset = now - t.timestamp) ∧
        (s.ReplayPos = some 0 →
          (s1.ReplayBuf.pkts.getD 0 default).timestamp + s1.ReplayOffset = now)) := by
  constructor
  · intro hf
    unfold Replay.play
    simp [hmode, hf]
  · intro hf
    unfold Replay.play
    simp only [hmode, hf, Bool.true_eq_false, if_false, hbuf, List.head?_cons]
    cases hp : s.ReplayPos with
    | none =>
      refine ⟨_, rfl, rfl, rfl, rfl, rfl, fun h => absurd rfl h, fun h => by simp at h⟩
    | some c =>
      refine ⟨_, rfl, rfl, rfl, rfl, rfl, fun _ => rfl, fun _ => ?_⟩
      simp only [sendMessage, resetStates, hbuf, List.getD_cons_zero]
      omega

/-- The postcondition of play at a concrete input: the loaded sample session. -/
theorem play_postcondition_witness :
    ∃ s1, Replay.play lp64 sampleServer 50 loadedSession 0 = some (true, s1) ∧
      s1.Replaying = true ∧ s1.ReplayOffset = 50 ∧ s1.ReplayPos = some 0 := by
  obtain ⟨s1, h1, h2, _, h4, _, h6, _⟩ := (play_postcondition lp64 sampleServer 50 loadedSession 0
    firstUpdatePacket (loadedSession.ReplayBuf.pkts.drop 1) (by decide) (by decide)).2
    (by decide)
  exact ⟨s1, h1, h2, by rw [h6 (by decide)]; decide, by rw [h4]; decide⟩

/-- The sample recording once `Replay::loadFile` has opened it and read its
header. -/
def sampleAfterHeader : Option ReplayHeader × State :=
  loadHeader lp64 sampleServer
    { replayReset lp64 (replayServer ['r'] sampleRecording) with
      ReplayFile := some { name := ['r'], rest := sampleRecording } }

/-- The header `loadHeader` returns for the sample recording. -/
def sampleLoadedHeader : ReplayHeader :=
  match sampleAfterHeader.1 with
  | some h => h
  | none => unpackHeader lp64 []

/-- A recording for an LP64 host whose snapshot carries variables: a
`MsgTeamUpdate` state packet, a `MsgSetVar` state packet with the pairs g = 1 and
poll = 2, a `MsgSetVar` state packet with the pairs hi = 23 and g = 7, a live
message at 2 seconds, and a `MsgSetVar` state packet with the pair g = 9 at 5
seconds. -/
def variablesRecording : List Nat :=
  sampleHeader ReplayMagic 1 ++ List.replicate 40 9 ++ recordBytes
    [sampleRec lp64.StatePacket lp64.MsgTeamUpdate 0 [0],
     sampleRec lp64.StatePacket lp64.MsgSetVar 0
       [0, 2, 1, 103, 1, 49, 4, 112, 111, 108, 108, 1, 50],
     sampleRec lp64.StatePacket lp64.MsgSetVar 0 [0, 2, 2, 104, 105, 2, 50, 51, 1, 103, 1, 55],
     sampleRec lp64.RealPacket 0x6d73 2000000 [1],
     sampleRec lp64.StatePacket lp64.MsgSetVar 5000000 [0, 1, 1, 103, 1, 57]]

/-- That recording once `Replay::loadFile` has opened it and read its header. -/
def variablesAfterHeader : Option ReplayHeader × State :=
  loadHeader lp64 sampleServer
    { replayReset lp64 (replayServer ['v'] variablesRecording) with
      ReplayFile := some { name := ['v'], rest := variablesRecording } }

/-- The header `loadHeader` returns for that recording. -/
def variablesLoadedHeader : ReplayHeader :=
  match variablesAfterHeader.1 with
  | some h => h
  | none => unpackHeader lp64 []

/-- The packets of that recording. -/
def variablesPackets : List RRpacket :=
  (preload lp64 (bytesLeft variablesAfterHeader.2 + 1) variablesAfterHeader.2).ReplayBuf.pkts

/-- A snapshot-boundary packet as `Record::saveBuffer` tests it:
`(p->mode == StatePacket) && (p->code == MsgTeamUpdate)`. -/
def isBoundary (K : Consts) (q : RRpacket) : Prop :=
  q.mode = K.StatePacket ∧ q.code = K.MsgTeamUpdate

instance (K : Consts) (q : RRpacket) : Decidable (isBoundary K q) := by
  unfold isBoundary; infer_instance

/-- The packet at position `k` is a boundary packet at least `usecs` older
than the time `headTs`. -/
def oldBoundary (K : Consts) (pkts : List RRpacket) (headTs usecs : Int) (k : Nat) : Prop :=
  isBoundary K (pkts.getD k default) ∧ headTs - (pkts.getD k default).timestamp ≥ usecs

theorem lookBack_some (K : Consts) (pkts : List RRpacket) (headTs usecs : Int) (j : Nat) :
    ∀ r, lookBack K pkts headTs usecs j = some r →
      r ≤ j ∧ r < pkts.length ∧ oldBoundary K pkts headTs usecs r ∧
      ∀ k, r < k → k ≤ j → ¬ oldBoundary K pkts headTs usecs k := by
  induction j with
  | zero =>
    intro r h
    unfold lookBack at h
    cases hq : pkts[0]? with
    | none => rw [hq] at h; simp at h
    | some q =>
      rw [hq] at h
      simp only at h
      split at h
      · rename_i hc
        simp only [Option.some.injEq] at h
        subst h
        have hlt : 0 < pkts.length := by
          by_contra hn
          rw [List.getElem?_eq_none (by omega)] at hq
          simp at hq
        have hd : pkts.getD 0 default = q := by
          rw [List.getD_eq_getElem?_getD, hq]; rfl
        refine ⟨le_refl _, hlt, ?_, fun k h1 h2 => by omega⟩
        unfold oldBoundary isBoundary
        rw [hd]
        exact ⟨⟨hc.1, hc.2.1⟩, hc.2.2⟩
      · simp at h
  | succ j ih =>
    intro r h
    unfold lookBack at h
    cases hq : pkts[j + 1]? with
    | none => rw [hq] at h; simp at h
    | some q =>
      rw [hq] at h
      simp only at h
      have hd : pkts.getD (j + 1) default = q := by
        rw [List.getD_eq_getElem?_getD, hq]; rfl
      split at h
      · rename_i hc
        simp only [Option.some.injEq] at h
        subst h
        have hlt : j + 1 < pkts.length := by
          by_contra hn
          rw [List.getElem?_eq_none (by omega)] at hq
          simp at hq
        refine ⟨le_refl _, hlt, ?_, fun k h1 h2 => by omega⟩
        unfold oldBoundary isBoundary
        rw [hd]
        exact ⟨⟨hc.1, hc.2.1⟩, hc.2.2⟩
      · rename_i hc
        obtain ⟨a, b, c, d⟩ := ih r h
        refine ⟨by omega, b, c, fun k h1 h2 => ?_⟩
        by_cases hk : k = j + 1
        · subst hk
          unfold oldBoundary isBoundary
          rw [hd]
          intro hx
          exact hc ⟨hx.1.1, hx.1.2, hx.2⟩
        · exact d k h1 (by omega)

theorem lookBack_none (K : Consts) (pkts : List RRpacket) (headTs usecs : Int) (j : Nat)
    (hj : j < pkts.length) :
    lookBack K pkts headTs usecs j = none →
      ∀ k, k ≤ j → ¬ oldBoundary K pkts headTs usecs k := by
  induction j with
  | zero =>
    intro h k hk
    have hk0 : k = 0 := by omega
    subst hk0
    unfold lookBack at h
    rw [List.getElem?_eq_getElem hj] at h
    simp only at h
    split at h
    · simp at h
    · rename_i hc
      unfold oldBoundary isBoundary
      rw [List.getD_eq_getElem?_getD, List.getElem?_eq_getElem hj]
      intro hx
      exact hc ⟨hx.1.1, hx.1.2, hx.2⟩
  | succ j ih =>
    intro h k hk
    unfold lookBack at h
    rw [List.getElem?_eq_getElem hj] at h
    simp only at h
    split at h
    · simp at h
    · rename_i hc
      by_cases hk2 : k = j + 1
      · subst hk2
        unfold oldBoundary isBoundary
        rw [List.getD_eq_getElem?_getD, List.getElem?_eq_getElem hj]
        intro hx
        exact hc ⟨hx.1.1, hx.1.2, hx.2⟩
      · exact ih (by omega) h k (by omega)

theorem firstUpdate_some (K : Consts) (l : List RRpacket) :
    ∀ (j r : Nat), firstUpdate K l j = some r →
      j ≤ r ∧ r - j < l.length ∧ isBoundary K (l.getD (r - j) default) ∧
      ∀ k, k < r - j → ¬ isBoundary K (l.getD k default) := by
  induction l with
  | nil => intro j r h; simp [firstUpdate] at h
  | cons q rest ih =>
    intro j r h
    unfold firstUpdate at h
    split at h
    · rename_i hc
      simp only [Option.some.injEq] at h
      subst h
      refine ⟨le_refl _, by simp, ?_, fun k hk => by omega⟩
      simp only [Nat.sub_self, List.getD_cons_zero]
      exact hc
    · rename_i hc
      obtain ⟨a, b, c, d⟩ := ih (j + 1) r h
      have e : r - j = (r - (j + 1)) + 1 := by omega
      refine ⟨by omega, by rw [e]; simp only [List.length_cons]; omega, ?_, fun k hk => ?_⟩
      · rw [e, List.getD_cons_succ]; exact c
      · cases k with
        | zero => rw [List.getD_cons_zero]; exact hc
        | succ k =>
          rw [List.getD_cons_succ]
          exact d k (by omega)

theorem firstUpdate_none (K : Consts) (l : List RRpacket) :
    ∀ (j : Nat), firstUpdate K l j = none → ∀ q ∈ l, ¬ isBoundary K q := by
  induction l with
  | nil => intro j _ q hq; simp at hq
  | cons a rest ih =>
    intro j h q hq
    unfold firstUpdate at h
    split at h
    · simp at h
    · rename_i hc
      rcases List.mem_cons.1 hq with rfl | hq
      · exact hc
      · exact ih (j + 1) h q hq

/-- The bytes of the records of the packets `ps` in a file, as the file format
has them: each record is the packet header (mode, code, length, the length of
the payload of the record before it, timestamp, then the bytes of the header
buffer that `savePacket` does not set) followed by the payload; `prev` is the
previous length of the first record. -/
def recordsFrom (K : Consts) (junk : List Nat) : Nat → List RRpacket → List Nat
  | _, [] => []
  | prev, q :: rest =>
    autoBuf junk (packPacketHeader q prev) (RRpacketHdrSize K) ++ q.data
      ++ recordsFrom K junk q.len rest

theorem savePacket_bytes (K : Consts) (s : State) (f : WFile) (p : RRpacket)
    (hf : s.RecordFile = some f) (h20 : 20 ≤ RRpacketHdrSize K) (hpos : 0 < p.len)
    (hlen : p.data.length = p.len) (hroom : RRpacketHdrSize K + p.len ≤ f.room) :
    savePacket K s p =
      (true,
       { s with
         RecordFile := some ⟨f.name,
           f.bytes ++ (autoBuf s.junk (packPacketHeader p s.RecordFilePrevLen) (RRpacketHdrSize K)
             ++ p.data),
           f.room - (RRpacketHdrSize K + p.len)⟩,
         RecordFileBytes := (s.RecordFileBytes + (p.len + RRpacketHdrSize K) % 2 ^ 32) % 2 ^ 32,
         RecordFilePackets := (s.RecordFilePackets + 1) % 2 ^ 32,
         RecordFilePrevLen := p.len }) := by
  obtain ⟨pad, hpad, hpl⟩ := autoBuf_eq s.junk (packPacketHeader p s.RecordFilePrevLen)
    (RRpacketHdrSize K) (by rw [packPacketHeader_length]; exact h20)
  rw [packPacketHeader_length] at hpl
  have hbl : (autoBuf s.junk (packPacketHeader p s.RecordFilePrevLen) (RRpacketHdrSize K)).length
      = RRpacketHdrSize K := by
    rw [hpad, List.length_append, packPacketHeader_length, hpl]; omega
  unfold savePacket
  simp only [hf]
  rw [fwrite_ok _ _ f (by omega) (by omega) hbl]
  simp only [Nat.one_ne_zero, if_false]
  rw [fwrite_ok _ _ _ hpos (by simp only; omega) hlen]
  simp only [Nat.one_ne_zero, if_false, List.append_assoc, Nat.sub_sub]

theorem savePackets_ok (K : Consts) (h20 : 20 ≤ RRpacketHdrSize K) (ps : List RRpacket) :
    ∀ (s : State) (f : WFile), s.RecordFile = some f →
      (∀ q ∈ ps, 0 < q.len ∧ q.data.length = q.len) →
      (ps.map (fun q => q.len + RRpacketHdrSize K)).sum ≤ f.room →
      ∃ b c d, savePackets K s ps =
        { s with
          RecordFile := some ⟨f.name, f.bytes ++ recordsFrom K s.junk s.RecordFilePrevLen ps,
            f.room - (ps.map (fun q => q.len + RRpacketHdrSize K)).sum⟩,
          RecordFileBytes := b, RecordFilePackets := c, RecordFilePrevLen := d } := by
  induction ps with
  | nil =>
    intro s f hf _ _
    refine ⟨s.RecordFileBytes, s.RecordFilePackets, s.RecordFilePrevLen, ?_⟩
    simp only [savePackets, List.foldl_nil, recordsFrom, List.append_nil, List.map_nil,
      List.sum_nil, Nat.sub_zero]
    cases s
    simp_all
  | cons q ps ih =>
    intro s f hf hpay hroom
    simp only [List.map_cons, List.sum_cons] at hroom
    have hq := hpay q (List.mem_cons_self _ _)
    have e := savePacket_bytes K s f q hf h20 hq.1 hq.2 (by omega)
    obtain ⟨b, c, d, hi⟩ := ih (savePacket K s q).2 _ (by rw [e])
      (fun x hx => hpay x (List.mem_cons_of_mem _ hx)) (by simp only; omega)
    refine ⟨b, c, d, ?_⟩
    have hstep : savePackets K s (q :: ps) = savePackets K (savePacket K s q).2 ps := rfl
    rw [hstep, hi, e]
    simp only [recordsFrom, List.append_assoc, List.map_cons, List.sum_cons, Nat.sub_sub]
    congr 3
    omega

/-- The start point of `Record::saveBuffer` as the specification has it. With
`head` the newest packet, `start` is a boundary packet of the buffer, and
either the lookback is not 0 and `start` is the newest boundary packet with
`head.timestamp - p.timestamp >= seconds * 1000000`, or the lookback is 0 or no
boundary packet is that old, and `start` is the oldest boundary packet. -/
def SaveStart (K : Consts) (pkts : List RRpacket) (seconds : Int) (start : Nat) : Prop :=
  start < pkts.length ∧ isBoundary K (pkts.getD start default) ∧
  ((seconds ≠ 0 ∧
    oldBoundary K pkts (pkts.getD (pkts.length - 1) default).timestamp (seconds * 1000000) start ∧
    ∀ k, start < k → k < pkts.length →
      ¬ oldBoundary K pkts (pkts.getD (pkts.length - 1) default).timestamp (seconds * 1000000) k)
   ∨
   ((seconds = 0 ∨ ∀ k, k < pkts.length →
      ¬ oldBoundary K pkts (pkts.getD (pkts.length - 1) default).timestamp (seconds * 1000000) k)
    ∧ ∀ k, k < start → ¬ isBoundary K (pkts.getD k default)))

theorem saveStart_spec (K : Consts) (buf : RRbuffer) (seconds : Int)
    (hb : ∃ q ∈ buf.pkts, isBoundary K q) :
    ∃ start, saveStart K buf seconds = some start ∧ SaveStart K buf.pkts seconds start := by
  generalize hpk : buf.pkts = pkts at hb
  have hne : pkts ≠ [] := by
    obtain ⟨q, hq, _⟩ := hb
    intro h; rw [h] at hq; simp at hq
  have hpos : 0 < pkts.length := List.length_pos.2 hne
  have hfirst : ∃ r, firstUpdate K pkts 0 = some r ∧ r < pkts.length ∧
      isBoundary K (pkts.getD r default) ∧ ∀ k, k < r → ¬ isBoundary K (pkts.getD k default) := by
    cases hf : firstUpdate K pkts 0 with
    | none =>
      obtain ⟨q, hq, hqb⟩ := hb
      exact absurd hqb (firstUpdate_none K pkts 0 hf q hq)
    | some r =>
      obtain ⟨_, b, c, d⟩ := firstUpdate_some K pkts 0 r hf
      exact ⟨r, rfl, b, c, d⟩
  obtain ⟨r, hr, hr1, hr2, hr3⟩ := hfirst
  unfold saveStart
  simp only [RRbuffer.head, hpk]
  by_cases h0 : seconds = 0
  · rw [if_pos (Or.inl h0)]
    exact ⟨r, hr, hr1, hr2, Or.inr ⟨Or.inl h0, hr3⟩⟩
  · simp only [if_pos h0, ne_eq, not_false_eq_true, if_true, hne, if_false, h0, false_or]
    cases hl : lookBack K pkts (pkts.getD (pkts.length - 1) default).timestamp
        (seconds * 1000000) (pkts.length - 1) with
    | none =>
      simp only [if_true]
      have hn := lookBack_none K pkts _ _ _ (by omega) hl
      exact ⟨r, hr, hr1, hr2, Or.inr ⟨Or.inr (fun k hk => hn k (by omega)), hr3⟩⟩
    | some j =>
      simp only [reduceCtorEq, if_false]
      obtain ⟨a, b, c, d⟩ := lookBack_some K pkts _ _ _ j hl
      exact ⟨j, rfl, b, c.1, Or.inl ⟨h0, c, fun k h1 h2 => d k h1 (by omega)⟩⟩

theorem sum_drop_le (l : List Nat) (n : Nat) : (l.drop n).sum ≤ l.sum := by
  have h := List.sum_take_add_sum_drop l n
  omega

/-- Start point and output of `Record::saveBuffer` when no payload is empty. For
a buffered recording (not in replay mode, RecordFilePrevLen 0 as it is
whenever no file is being written) whose buffer holds a boundary packet and
whose packets all have a payload of at least one byte, with a valid filename, a
file that can be created and has room, and a world that is not empty:
`saveBuffer` returns true; the start point is as `SaveStart` has it; the file
holds the file header followed by exactly the records of the packets from the
start point to the head, in buffer order, the first with prevLength 0 and each
later one with the payload length of the one before it; and nothing else
changes but the three counters of the file, set to 0, and the message sent: the
buffer is as it was. -/
theorem save_buffer_output (K : Consts) (E : Server) (s : State) (playerIndex : Nat)
    (filename : List Char) (seconds : Int)
    (hK : K.Sane) (hrep : s.ReplayMode = false) (hrec : s.Recording = true)
    (hmode : s.RecordMode = .BufferedRecord) (hname : badFilename filename = false)
    (hdir : E.dirOk = true) (hcreate : E.canCreate filename = true)
    (hw0 : 0 < E.worldDatabase.length) (hw : E.worldDatabase.length < 2 ^ 32)
    (hfl : E.flagTypes.length < 2 ^ 32) (hprev : s.RecordFilePrevLen = 0)
    (hb : ∃ q ∈ s.RecordBuf.pkts, isBoundary K q)
    (hpay : ∀ q ∈ s.RecordBuf.pkts, 0 < q.len ∧ q.data.length = q.len)
    (hroom : ReplayHeaderSize K + E.flagTypes.length + E.worldDatabase.length +
      (s.RecordBuf.pkts.map (fun q => q.len + RRpacketHdrSize K)).sum ≤ E.room) :
    ∃ start pad, SaveStart K s.RecordBuf.pkts seconds start ∧
      Record.saveBuffer K E s playerIndex filename seconds =
        some (true, sendMessage
          { s with
            disk := (filename, (packHeader K E s playerIndex ++ pad) ++ E.flagTypes
                ++ E.worldDatabase ++ recordsFrom K s.junk 0 (s.RecordBuf.pkts.drop start))
              :: s.disk.filter (fun e => e.1 ≠ filename),
            RecordFile := none, RecordFileBytes := 0, RecordFilePackets := 0,
            RecordFilePrevLen := 0 }
          (some playerIndex) "Record buffer saved") := by
  obtain ⟨start, hst, hspec⟩ := saveStart_spec K s.RecordBuf seconds hb
  have h20 : 20 ≤ RRpacketHdrSize K := by
    have := hdrSize_ge K hK
    omega
  have hopen : openWriteFile E s playerIndex filename =
      (some { name := filename, bytes := [], room := E.room }, s) := by
    unfold openWriteFile makeDirExistMsg
    simp [hdir, hcreate]
  obtain ⟨pad, _, hsave⟩ := saveHeader_ok K E
    { s with RecordFile := some { name := filename, bytes := [], room := E.room } }
    { name := filename, bytes := [], room := E.room } playerIndex hK rfl hw0 hw hfl
    (by simp only; omega)
  have hsum := sum_drop_le (s.RecordBuf.pkts.map (fun q => q.len + RRpacketHdrSize K)) start
  rw [← List.map_drop] at hsum
  obtain ⟨b, c, d, hpk⟩ := savePackets_ok K h20 (s.RecordBuf.pkts.drop start)
    (saveHeader K E { s with RecordFile := some { name := filename, bytes := [], room := E.room } }
      playerIndex).2 _ (by rw [hsave])
    (fun q hq => hpay q (List.mem_of_mem_drop hq)) (by simp only; omega)
  refine ⟨start, pad, hspec, ?_⟩
  unfold Record.saveBuffer
  rw [if_neg (by rw [hrep]; simp), if_neg (by rw [hrec, hmode]; simp),
    if_neg (by rw [hname]; simp)]
  simp only [hst, hopen]
  rw [hsave] at hpk
  simp only at hpk
  rw [hsave]
  simp only [Bool.not_true, Bool.false_eq_true, if_false]
  rw [hpk]
  simp only [closeW, hprev, List.nil_append, sendMessage, packHeader]

/-- The output of saveBuffer at a concrete input: the session `liveSession`,
saved whole. -/
theorem save_buffer_output_witness :
    ∃ start pad, SaveStart lp64 liveSession.RecordBuf.pkts 0 start ∧
      Record.saveBuffer lp64 sampleServer liveSession 0 ['b'] 0 =
        some (true, sendMessage
          { liveSession with
            disk := (['b'], (packHeader lp64 sampleServer liveSession 0 ++ pad)
                ++ sampleServer.flagTypes ++ sampleServer.worldDatabase
                ++ recordsFrom lp64 liveSession.junk 0 (liveSession.RecordBuf.pkts.drop start))
              :: liveSession.disk.filter (fun e => e.1 ≠ ['b']),
            RecordFile := none, RecordFileBytes := 0, RecordFilePackets := 0,
            RecordFilePrevLen := 0 }
          (some 0) "Record buffer saved") :=
  save_buffer_output lp64 sampleServer liveSession 0 ['b'] 0 (by decide) (by decide) (by decide)
    (by decide) (by decide) (by decide) (by decide) (by decide) (by decide) (by decide)
    (by decide) (by decide) (by decide) (by decide)

theorem savePacket_keeps (K : Consts) (s : State) (p : RRpacket) :
    (savePacket K s p).2.RecordBuf = s.RecordBuf ∧ (savePacket K s p).2.disk = s.disk ∧
    (savePacket K s p).2.out = s.out := by
  unfold savePacket
  cases s.RecordFile with
  | none => exact ⟨rfl, rfl, rfl⟩
  | some f =>
    simp only
    split
    · exact ⟨rfl, rfl, rfl⟩
    · split <;> exact ⟨rfl, rfl, rfl⟩

theorem savePackets_keeps (K : Consts) (ps : List RRpacket) :
    ∀ s : State, (savePackets K s ps).RecordBuf = s.RecordBuf ∧
      (savePackets K s ps).Recording = s.Recording ∧
      (savePackets K s ps).RecordMode = s.RecordMode := by
  induction ps with
  | nil => intro s; exact ⟨rfl, rfl, rfl⟩
  | cons q ps ih =>
    intro s
    have hstep : savePackets K s (q :: ps) = savePackets K (savePacket K s q).2 ps := rfl
    rw [hstep]
    obtain ⟨a, b, c⟩ := ih (savePacket K s q).2
    obtain ⟨_, _, _, f4, f5⟩ := savePacket_frame K s q
    exact ⟨a.trans (savePacket_keeps K s q).1, b.trans f4, c.trans f5⟩

theorem saveHeader_keeps (K : Consts) (E : Server) (s : State) (p : Nat) :
    (saveHeader K E s p).2.RecordBuf = s.RecordBuf ∧
    (saveHeader K E s p).2.Recording = s.Recording ∧
    (saveHeader K E s p).2.RecordMode = s.RecordMode := by
  unfold saveHeader
  cases s.RecordFile with
  | none => exact ⟨rfl, rfl, rfl⟩
  | some f =>
    simp only
    split_ifs <;> exact ⟨rfl, rfl, rfl⟩

theorem openWriteFile_keeps (E : Server) (s : State) (playerIndex : Nat) (filename : List Char) :
    (openWriteFile E s playerIndex filename).2.RecordBuf = s.RecordBuf ∧
    (openWriteFile E s playerIndex filename).2.Recording = s.Recording ∧
    (openWriteFile E s playerIndex filename).2.RecordMode = s.RecordMode := by
  unfold openWriteFile makeDirExistMsg
  cases E.dirOk
  · exact ⟨rfl, rfl, rfl⟩
  · simp only [if_true, Bool.not_true, Bool.false_eq_true, if_false]
    split <;> exact ⟨rfl, rfl, rfl⟩

/-- What `Record::saveBuffer` does to the live buffer. When it returns true, and
when it returns false before it tries to open the file (replay mode, no
buffered recording, rejected filename), RecordBuf, Recording and RecordMode
are as before. When it returns false otherwise (the file cannot be opened, or
the header cannot be written), `recordReset` has run: the buffer is empty, its
counters 0, and the session is not recording. -/
theorem save_buffer_frame (K : Consts) (E : Server) (s : State) (playerIndex : Nat)
    (filename : List Char) (seconds : Int) (r : Bool) (s1 : State)
    (h : Record.saveBuffer K E s playerIndex filename seconds = some (r, s1)) :
    (r = true → s1.RecordBuf = s.RecordBuf ∧ s1.Recording = s.Recording ∧
      s1.RecordMode = s.RecordMode) ∧
    (r = false →
      (s1.RecordBuf = s.RecordBuf ∧ s1.Recording = s.Recording ∧ s1.RecordMode = s.RecordMode ∧
        (s.ReplayMode = true ∨ s.Recording = false ∨ s.RecordMode ≠ .BufferedRecord ∨
          badFilename filename = true)) ∨
      (s1.RecordBuf = { byteCount := 0, packetCount := 0, pkts := [] } ∧ s1.Recording = false ∧
        s.ReplayMode = false ∧ s.Recording = true ∧ s.RecordMode = .BufferedRecord ∧
        badFilename filename = false)) := by
  unfold Record.saveBuffer at h
  by_cases hrep : s.ReplayMode = true
  · rw [if_pos hrep] at h
    simp only [Option.some.injEq, Prod.mk.injEq] at h
    obtain ⟨rfl, rfl⟩ := h
    exact ⟨fun hc => by simp at hc, fun _ => Or.inl ⟨rfl, rfl, rfl, Or.inl hrep⟩⟩
  · rw [if_neg hrep] at h
    by_cases hrec : s.Recording = false ∨ s.RecordMode ≠ .BufferedRecord
    · rw [if_pos hrec] at h
      simp only [Option.some.injEq, Prod.mk.injEq] at h
      obtain ⟨rfl, rfl⟩ := h
      exact ⟨fun hc => by simp at hc, fun _ => Or.inl ⟨rfl, rfl, rfl, Or.inr (by tauto)⟩⟩
    · rw [if_neg hrec] at h
      by_cases hname : badFilename filename = true
      · rw [if_pos hname] at h
        simp only [Option.some.injEq, Prod.mk.injEq] at h
        obtain ⟨rfl, rfl⟩ := h
        exact ⟨fun hc => by simp at hc,
          fun _ => Or.inl ⟨rfl, rfl, rfl, Or.inr (Or.inr (Or.inr hname))⟩⟩
      · rw [if_neg hname] at h
        have hpre : s.ReplayMode = false ∧ s.Recording = true ∧ s.RecordMode = .BufferedRecord ∧
            badFilename filename = false := by
          refine ⟨by simpa using hrep, ?_, ?_, by simpa using hname⟩
          · cases hq : s.Recording
            · exact absurd (Or.inl hq) hrec
            · rfl
          · by_contra hq
            exact hrec (Or.inr hq)
        cases hst : saveStart K s.RecordBuf seconds with
        | none => rw [hst] at h; simp at h
        | some p =>
          rw [hst] at h
          simp only at h
          obtain ⟨o1, o2, o3⟩ := openWriteFile_keeps E s playerIndex filename
          cases ho : openWriteFile E s playerIndex filename with
          | mk f t1 =>
            rw [ho] at h o1 o2 o3
            simp only at h o1 o2 o3
            cases f with
            | none =>
              simp only [Option.some.injEq, Prod.mk.injEq] at h
              obtain ⟨rfl, rfl⟩ := h
              exact ⟨fun hc => by simp at hc, fun _ => Or.inr ⟨rfl, rfl, hpre⟩⟩
            | some f0 =>
              simp only at h
              obtain ⟨g1, g2, g3⟩ := saveHeader_keeps K E { t1 with RecordFile := some f0 }
                playerIndex
              cases hh : saveHeader K E { t1 with RecordFile := some f0 } playerIndex with
              | mk ok t3 =>
                rw [hh] at g1 g2 g3
                simp only at g1 g2 g3 hh
                rw [hh] at h
                simp only at h
                cases ok with
                | false =>
                  simp only [Bool.not_false, if_true, Option.some.injEq, Prod.mk.injEq] at h
                  obtain ⟨rfl, rfl⟩ := h
                  refine ⟨fun hc => by simp at hc, fun _ => Or.inr ⟨?_, ?_, hpre⟩⟩
                  · simp only [sendMessage, recordReset, freeBuffer]
                  · simp only [sendMessage, recordReset]
                | true =>
                  simp only [Bool.not_true, Bool.false_eq_true, if_false, Option.some.injEq,
                    Prod.mk.injEq] at h
                  obtain ⟨rfl, rfl⟩ := h
                  obtain ⟨k1, k2, k3⟩ := savePackets_keeps K (s.RecordBuf.pkts.drop p) t3
                  refine ⟨fun _ => ?_, fun hc => by simp at hc⟩
                  simp only [sendMessage]
                  split
                  · exact ⟨k1.trans (g1.trans o1), k2.trans (g2.trans o2), k3.trans (g3.trans o3)⟩
                  · exact ⟨k1.trans (g1.trans o1), k2.trans (g2.trans o2), k3.trans (g3.trans o3)⟩

/-- The frame of saveBuffer at a concrete input: the session `liveSession`
saved to a file that cannot be created. -/
theorem save_buffer_frame_witness :
    ∃ s1, Record.saveBuffer lp64 { sampleServer with canCreate := fun _ => false }
        liveSession 0 ['b'] 0 = some (false, s1) ∧
      s1.RecordBuf = { byteCount := 0, packetCount := 0, pkts := [] } ∧ s1.Recording = false := by
  have h : Record.saveBuffer lp64 { sampleServer with canCreate := fun _ => false }
      liveSession 0 ['b'] 0 = some (false,
        ((Record.saveBuffer lp64 { sampleServer with canCreate := fun _ => false }
          liveSession 0 ['b'] 0).getD (false, liveSession)).2) := by decide
  rcases (save_buffer_frame lp64 { sampleServer with canCreate := fun _ => false }
    liveSession 0 ['b'] 0 false _ h).2 rfl with ⟨_, _, _, hc⟩ | ⟨a, b, _⟩
  · exact absurd hc (by decide)
  · exact ⟨_, h, a, b⟩

/-- The fuel of the preload loop at a concrete input: the sample recording after
its header, with four packets of fuel to spare. -/
theorem preload_fuel_witness :
    preload lp64 (bytesLeft sampleAfterHeader.2 + 5) sampleAfterHeader.2 =
      preload lp64 (bytesLeft sampleAfterHeader.2 + 1) sampleAfterHeader.2 :=
  preload_fuel lp64 (bytesLeft sampleAfterHeader.2 + 5) (bytesLeft sampleAfterHeader.2 + 1)
    sampleAfterHeader.2 (by omega) (by omega)

/-! ## Filenames -/

/-- C24. Filename validation. `badFilename` returns true if and only if the
name contains one of the characters '/', backslash (character 92) or ':', or
two '.' characters in a row; the names "a.b" and "." are accepted, "a/b",
"c:", "..", "a..b" and a name with a backslash are rejected. -/
theorem bad_filename_iff (name : List Char) :
    (badFilename name = true ↔
      ('/' ∈ name ∨ Char.ofNat 92 ∈ name ∨ ':' ∈ name ∨
        ∃ pre post, name = pre ++ '.' :: '.' :: post)) ∧
    badFilename ['a', '.', 'b'] = false ∧ badFilename ['.'] = false ∧
    badFilename ['a', '/', 'b'] = true ∧ badFilename ['c', ':'] = true ∧
    badFilename ['.', '.'] = true ∧ badFilename ['a', '.', '.', 'b'] = true ∧
    badFilename ['a', Char.ofNat 92, 'b'] = true := by
  refine ⟨?_, by decide, by decide, by decide, by decide, by decide, by decide, by decide⟩
  induction name with
  | nil =>
    simp only [badFilename, Bool.false_eq_true, List.not_mem_nil, false_or, false_iff,
      not_exists]
    intro pre post h
    cases pre <;> simp at h
  | cons c rest ih =>
    unfold badFilename
    by_cases hsep : c = '/' ∨ c = ':' ∨ c = Char.ofNat 92
    · rw [if_pos hsep]
      simp only [true_iff]
      rcases hsep with h | h | h
      · exact Or.inl (by rw [h]; exact List.mem_cons_self _ _)
      · exact Or.inr (Or.inr (Or.inl (by rw [h]; exact List.mem_cons_self _ _)))
      · exact Or.inr (Or.inl (by rw [h]; exact List.mem_cons_self _ _))
    · rw [if_neg hsep]
      have h1 : c ≠ '/' := fun h => hsep (Or.inl h)
      have h2 : c ≠ ':' := fun h => hsep (Or.inr (Or.inl h))
      have h3 : c ≠ Char.ofNat 92 := fun h => hsep (Or.inr (Or.inr h))
      by_cases hdot : c = '.' ∧ rest.head? = some '.'
      · rw [if_pos hdot]
        simp only [true_iff]
        right; right; right
        obtain ⟨hc, hr⟩ := hdot
        cases rest with
        | nil => simp at hr
        | cons d post =>
          simp only [List.head?_cons, Option.some.injEq] at hr
          exact ⟨[], post, by rw [hc, hr]; rfl⟩
      · rw [if_neg hdot, ih]
        constructor
        · rintro (h | h | h | ⟨pre, post, h⟩)
          · exact Or.inl (List.mem_cons_of_mem _ h)
          · exact Or.inr (Or.inl (List.mem_cons_of_mem _ h))
          · exact Or.inr (Or.inr (Or.inl (List.mem_cons_of_mem _ h)))
          · exact Or.inr (Or.inr (Or.inr ⟨c :: pre, post, by rw [h]; rfl⟩))
        · rintro (h | h | h | ⟨pre, post, h⟩)
          · rcases List.mem_cons.1 h with h | h
            · exact absurd h.symm h1
            · exact Or.inl h
          · rcases List.mem_cons.1 h with h | h
            · exact absurd h.symm h3
            · exact Or.inr (Or.inl h)
          · rcases List.mem_cons.1 h with h | h
            · exact absurd h.symm h2
            · exact Or.inr (Or.inr (Or.inl h))
          · cases pre with
            | nil =>
              simp only [List.nil_append, List.cons.injEq] at h
              exact absurd ⟨h.1, by rw [h.2]; rfl⟩ hdot
            | cons a pre =>
              simp only [List.cons_append, List.cons.injEq] at h
              exact Or.inr (Or.inr (Or.inr ⟨pre, post, h.2⟩))

/-- C30. Rejected filenames are atomic. For a filename that `badFilename`
rejects and every state, `Record::saveFile`, `Record::saveBuffer` and
`Replay::loadFile` each return false and leave the state as it was but for
the one message they send: the filename is checked before any reset. -/
theorem rejected_filename_is_atomic (K : Consts) (E : Server) (now : Int) (s : State)
    (playerIndex : Nat) (filename : List Char) (seconds : Int)
    (hbad : badFilename filename = true) :
    (∃ text, Record.saveFile K E now s playerIndex filename =
      (false, sendMessage s (some playerIndex) text)) ∧
    (∃ text, Record.saveBuffer K E s playerIndex filename seconds =
      some (false, sendMessage s (some playerIndex) text)) ∧
    (∃ text, Replay.loadFile K E s playerIndex filename =
      (false, sendMessage s (some playerIndex) text)) ∧
    (∀ text, (sendMessage s (some playerIndex) text) = { s with out := s.out ++
      [Output.message (some playerIndex) text] }) := by
  refine ⟨?_, ?_, ?_, fun _ => rfl⟩
  · unfold Record.saveFile
    by_cases h : s.ReplayMode = true
    · exact ⟨_, by rw [if_pos h]⟩
    · exact ⟨_, by rw [if_neg h, if_pos hbad]⟩
  · unfold Record.saveBuffer
    by_cases h : s.ReplayMode = true
    · exact ⟨_, by rw [if_pos h]⟩
    · rw [if_neg h]
      by_cases h2 : s.Recording = false ∨ s.RecordMode ≠ .BufferedRecord
      · exact ⟨_, by rw [if_pos h2]⟩
      · exact ⟨_, by rw [if_neg h2, if_pos hbad]⟩
  · unfold Replay.loadFile
    by_cases h : (!s.ReplayMode) = true
    · exact ⟨_, by rw [if_pos h]⟩
    · exact ⟨_, by rw [if_neg h, if_pos hbad]⟩

/-- C30 at a concrete input: the name "../x" on the recording `liveSession`. -/
theorem rejected_filename_is_atomic_witness :
    (∃ text, Record.saveFile lp64 sampleServer 0 liveSession 0 ['.', '.', '/', 'x'] =
      (false, sendMessage liveSession (some 0) text)) ∧
    (∃ text, Record.saveBuffer lp64 sampleServer liveSession 0 ['.', '.', '/', 'x'] 0 =
      some (false, sendMessage liveSession (some 0) text)) ∧
    (∃ text, Replay.loadFile lp64 sampleServer liveSession 0 ['.', '.', '/', 'x'] =
      (false, sendMessage liveSession (some 0) text)) :=
  ⟨(rejected_filename_is_atomic lp64 sampleServer 0 liveSession 0 ['.', '.', '/', 'x'] 0
      (by decide)).1,
   (rejected_filename_is_atomic lp64 sampleServer 0 liveSession 0 ['.', '.', '/', 'x'] 0
      (by decide)).2.1,
   (rejected_filename_is_atomic lp64 sampleServer 0 liveSession 0 ['.', '.', '/', 'x'] 0
      (by decide)).2.2.1⟩

/-! ## The eviction loop -/

/-- The packets left when the oldest packets, up to and including the first one
that passes the test `p->mode && (p->code == MsgTeamUpdate)`, are removed. -/
def afterFirstUpdate (K : Consts) : List RRpacket → List RRpacket
  | [] => []
  | p :: rest => if isUpdate K p = true then rest else afterFirstUpdate K rest

theorem evictLoop_pkts (K : Consts) (fuel : Nat) :
    ∀ b : RRbuffer, b.pkts.length < fuel →
      (evictLoop K fuel b).pkts = afterFirstUpdate K b.pkts := by
  induction fuel with
  | zero => intro b h; omega
  | succ n ih =>
    intro b h
    unfold evictLoop delPacket
    cases hp : b.pkts with
    | nil => simp only [hp]; rfl
    | cons p rest =>
      simp only
      rw [hp] at h
      simp only [List.length_cons] at h
      by_cases hu : p.mode ≠ 0 ∧ p.code = K.MsgTeamUpdate
      · rw [if_pos hu]
        simp only [afterFirstUpdate, isUpdate, hu, ne_eq, not_false_eq_true, and_self,
          decide_True, if_true]
      · rw [if_neg hu, ih _ (by simp only; omega)]
        simp only [afterFirstUpdate, isUpdate, hu, decide_False, Bool.false_eq_true, if_false]

theorem evictLoop_fuel (K : Consts) (fuel : Nat) :
    ∀ (m : Nat) (b : RRbuffer), b.pkts.length < fuel → b.pkts.length < m →
      evictLoop K fuel b = evictLoop K m b := by
  induction fuel with
  | zero => intro m b h; omega
  | succ n ih =>
    intro m b h1 h2
    cases m with
    | zero => omega
    | succ m =>
      unfold evictLoop delPacket
      cases hp : b.pkts with
      | nil => rfl
      | cons p rest =>
        simp only
        rw [hp] at h1 h2
        simp only [List.length_cons] at h1 h2
        split
        · rfl
        · exact ih m _ (by simp only; omega) (by simp only; omega)

theorem afterFirstUpdate_split (K : Consts) (pre : List RRpacket) (p : RRpacket)
    (post : List RRpacket) (hpre : ∀ q ∈ pre, isUpdate K q = false)
    (hp : isUpdate K p = true) : afterFirstUpdate K (pre ++ p :: post) = post := by
  induction pre with
  | nil => simp [afterFirstUpdate, hp]
  | cons a pre ih =>
    simp only [List.cons_append, afterFirstUpdate, hpre a (List.mem_cons_self _ _),
      Bool.false_eq_true, if_false]
    exact ih (fun q hq => hpre q (List.mem_cons_of_mem _ hq))

theorem afterFirstUpdate_none (K : Consts) (l : List RRpacket)
    (h : ∀ q ∈ l, isUpdate K q = false) : afterFirstUpdate K l = [] := by
  induction l with
  | nil => rfl
  | cons a l ih =>
    simp only [afterFirstUpdate, h a (List.mem_cons_self _ _), Bool.false_eq_true, if_false]
    exact ih (fun q hq => h q (List.mem_cons_of_mem _ hq))

/-- C27. Eviction loop. In a buffered recording `routePacket` appends the packet
and returns true. If the byte count is then within `RecordMaxBytes` the buffer
is the old one with the packet added. Otherwise the packets left are those
after the first (oldest) packet that is not live and has code `MsgTeamUpdate`,
that packet removed too, or none at all when the buffer holds no such packet;
the loop ends within as many calls of `delPacket` as the buffer has packets
plus one (more fuel changes nothing), and it runs once, whatever the byte
count afterwards. -/
theorem eviction_round (K : Consts) (now : Int) (s : State) (code len : Nat) (data : List Nat)
    (mode : Nat) (hreal : K.RealPacket = 0) (hrec : s.Recording = true)
    (hmode : s.RecordMode = .BufferedRecord) :
    (routePacket K now s code len data mode).1 = true ∧
    ((addPacket K s.RecordBuf (newPacket mode code len data now)).byteCount ≤ s.RecordMaxBytes →
      (routePacket K now s code len data mode).2.RecordBuf =
        addPacket K s.RecordBuf (newPacket mode code len data now)) ∧
    (s.RecordMaxBytes < (addPacket K s.RecordBuf (newPacket mode code len data now)).byteCount →
      (∀ pre p post, s.RecordBuf.pkts ++ [newPacket mode code len data now] = pre ++ p :: post →
        (∀ q ∈ pre, ¬ (q.mode ≠ K.RealPacket ∧ q.code = K.MsgTeamUpdate)) →
        p.mode ≠ K.RealPacket → p.code = K.MsgTeamUpdate →
        (routePacket K now s code len data mode).2.RecordBuf.pkts = post) ∧
      ((∀ q ∈ s.RecordBuf.pkts ++ [newPacket mode code len data now],
          ¬ (q.mode ≠ K.RealPacket ∧ q.code = K.MsgTeamUpdate)) →
        (routePacket K now s code len data mode).2.RecordBuf.pkts = []) ∧
      ∀ fuel, (s.RecordBuf.pkts ++ [newPacket mode code len data now]).length < fuel →
        (routePacket K now s code len data mode).2.RecordBuf =
          evictLoop K fuel (addPacket K s.RecordBuf (newPacket mode code len data now))) := by
  have hpk : (addPacket K s.RecordBuf (newPacket mode code len data now)).pkts =
      s.RecordBuf.pkts ++ [newPacket mode code len data now] := rfl
  have hup : ∀ q : RRpacket, isUpdate K q = true ↔
      (q.mode ≠ K.RealPacket ∧ q.code = K.MsgTeamUpdate) := by
    intro q
    simp only [isUpdate, hreal, decide_eq_true_eq]
  unfold routePacket
  simp only [hrec, hmode, Bool.true_eq_false, if_false]
  refine ⟨?_, ?_, ?_⟩
  · split <;> rfl
  · intro h
    rw [if_neg (by omega)]
  · intro h
    rw [if_pos h]
    simp only
    refine ⟨?_, ?_, ?_⟩
    · intro pre p post hsplit hpre hp1 hp2
      rw [evictLoop_pkts K _ _ (by omega), hpk, hsplit]
      apply afterFirstUpdate_split
      · intro q hq
        cases hb : isUpdate K q
        · rfl
        · exact absurd ((hup q).1 hb) (hpre q hq)
      · exact (hup p).2 ⟨hp1, hp2⟩
    · intro hnone
      rw [evictLoop_pkts K _ _ (by omega), hpk]
      apply afterFirstUpdate_none
      intro q hq
      cases hb : isUpdate K q
      · rfl
      · exact absurd ((hup q).1 hb) (hnone q hq)
    · intro fuel hf
      exact evictLoop_fuel K _ fuel _ (by omega) (by rw [hpk]; exact hf)

/-! ## Capturing a message -/

namespace Record

/-- Source `Record::addPacket`. A packet that adds a player is saved before the
state update. -/
def addPacket (K : Consts) (E : Server) (now : Int) (s : State) (code len : Nat)
    (data : List Nat) (mode : Nat) : Bool × State :=
  let (retval, s1) :=
    if code = K.MsgAddPlayer then routePacket K now s code len data mode else (false, s)
  -- save the states periodically
  let s2 :=
    if now - s1.RecordUpdateTime > wrapS32 s1.RecordUpdateRate then saveStates K E now s1
    else s1
  if code = K.MsgAddPlayer then (retval, s2)
  else routePacket K now s2 code len data mode

end Record

theorem wrapS32_id (x : Int) (h0 : -2 ^ 31 ≤ x) (h1 : x < 2 ^ 31) : wrapS32 x = x := by
  unfold wrapS32
  omega

theorem routePacket_buffered (K : Consts) (now : Int) (s : State) (code len : Nat)
    (data : List Nat) (mode : Nat) (hrec : s.Recording = true)
    (hmode : s.RecordMode = .BufferedRecord)
    (hfit : s.RecordBuf.byteCount + (len % 2 ^ 32 + RRpacketHdrSize K) ≤ s.RecordMaxBytes) :
    routePacket K now s code len data mode =
      (true, { s with RecordBuf :=
        RecordReplay.addPacket K s.RecordBuf (newPacket mode code len data now) }) := by
  have hlen : (newPacket mode code len data now).len = len % 2 ^ 32 := rfl
  have hnot : ¬ (RecordReplay.addPacket K s.RecordBuf (newPacket mode code len data now)).byteCount
      > s.RecordMaxBytes := by
    simp only [RecordReplay.addPacket, hlen]
    have := Nat.mod_le (s.RecordBuf.byteCount + (len % 2 ^ 32 + RRpacketHdrSize K) % 2 ^ 32)
      (2 ^ 32)
    have := Nat.mod_le (len % 2 ^ 32 + RRpacketHdrSize K) (2 ^ 32)
    omega
  unfold routePacket
  simp only [hrec, hmode, Bool.true_eq_false, if_false, hnot]

theorem addPacket_byteCount_le (K : Consts) (b : RRbuffer) (p : RRpacket) :
    (RecordReplay.addPacket K b p).byteCount ≤ b.byteCount + (p.len + RRpacketHdrSize K) := by
  simp only [RecordReplay.addPacket]
  have := Nat.mod_le (b.byteCount + (p.len + RRpacketHdrSize K) % 2 ^ 32) (2 ^ 32)
  have := Nat.mod_le (p.len + RRpacketHdrSize K) (2 ^ 32)
  omega

theorem routePacket_fst (K : Consts) (now : Int) (s : State) (code len : Nat)
    (data : List Nat) (mode : Nat) (hrec : s.Recording = true) :
    (routePacket K now s code len data mode).1 = true := by
  unfold routePacket
  rw [if_neg (by rw [hrec]; simp)]
  cases s.RecordMode with
  | BufferedRecord => simp only; split <;> rfl
  | StraightToFile => rfl

/-- C26. Capture ordering. In a buffered recording whose byte budget is not
exceeded by the message and a snapshot, `Record::addPacket` returns true and:
with a snapshot due (`now - RecordUpdateTime > (int)RecordUpdateRate`) the
buffer becomes the old packets, the message, then the packets of the snapshot
when the message is `MsgAddPlayer`, and the old packets, the packets of the
snapshot, then the message for any other code, and RecordUpdateTime becomes
`now`; with no snapshot due the buffer becomes the old packets followed by the
message, and RecordUpdateTime stays. The cast to `int` leaves a rate within
31 bits as it is. -/
theorem capture_ordering (K : Consts) (E : Server) (now : Int) (s : State) (code len : Nat)
    (data : List Nat) (mode : Nat) (hrec : s.Recording = true)
    (hmode : s.RecordMode = .BufferedRecord)
    (hfit : s.RecordBuf.byteCount + (len % 2 ^ 32 + RRpacketHdrSize K) +
      ((snapshotCalls K E s.player s.junk s.BZDB).map
        (fun c => c.len % 2 ^ 32 + RRpacketHdrSize K)).sum ≤ s.RecordMaxBytes) :
    (Record.addPacket K E now s code len data mode).1 = true ∧
    (now - s.RecordUpdateTime > wrapS32 s.RecordUpdateRate → code = K.MsgAddPlayer →
      (Record.addPacket K E now s code len data mode).2.RecordBuf.pkts =
        s.RecordBuf.pkts ++ [newPacket mode code len data now] ++
          (snapshotCalls K E s.player s.junk s.BZDB).map (fun c => c.packet now) ∧
      (Record.addPacket K E now s code len data mode).2.RecordUpdateTime = now) ∧
    (now - s.RecordUpdateTime > wrapS32 s.RecordUpdateRate → code ≠ K.MsgAddPlayer →
      (Record.addPacket K E now s code len data mode).2.RecordBuf.pkts =
        s.RecordBuf.pkts ++
          (snapshotCalls K E s.player s.junk s.BZDB).map (fun c => c.packet now) ++
          [newPacket mode code len data now] ∧
      (Record.addPacket K E now s code len data mode).2.RecordUpdateTime = now) ∧
    (¬ (now - s.RecordUpdateTime > wrapS32 s.RecordUpdateRate) →
      (Record.addPacket K E now s code len data mode).2.RecordBuf.pkts =
        s.RecordBuf.pkts ++ [newPacket mode code len data now] ∧
      (Record.addPacket K E now s code len data mode).2.RecordUpdateTime =
        s.RecordUpdateTime) ∧
    (-2 ^ 31 ≤ s.RecordUpdateRate → s.RecordUpdateRate < 2 ^ 31 →
      wrapS32 s.RecordUpdateRate = s.RecordUpdateRate) := by
  have hmsg := routePacket_buffered K now s code len data mode hrec hmode (by omega)
  have hlen : (newPacket mode code len data now).len = len % 2 ^ 32 := rfl
  refine ⟨?_, ?_, ?_, ?_, wrapS32_id _⟩
  · unfold Record.addPacket
    by_cases hc : code = K.MsgAddPlayer
    · simp only [if_pos hc, hmsg]
    · simp only [if_neg hc]
      apply routePacket_fst
      split
      · rw [saveStates_eq]
        exact (routeAll_frame K now _ s).2.2.2.1.trans hrec
      · exact hrec
  · intro hdue hc
    unfold Record.addPacket
    simp only [if_pos hc, hmsg, if_pos hdue, saveStates_eq]
    have h := routeAll_buffered K now (snapshotCalls K E s.player s.junk s.BZDB)
      { s with RecordBuf :=
        RecordReplay.addPacket K s.RecordBuf (newPacket mode code len data now) }
      hrec hmode (by
        have := addPacket_byteCount_le K s.RecordBuf (newPacket mode code len data now)
        simp only
        rw [hlen] at this
        omega)
    exact ⟨h.1, trivial⟩
  · intro hdue hc
    unfold Record.addPacket
    simp only [if_neg hc, if_pos hdue, saveStates_eq]
    obtain ⟨h1, h2⟩ := routeAll_buffered K now (snapshotCalls K E s.player s.junk s.BZDB) s
      hrec hmode (by omega)
    obtain ⟨_, _, _, f4, f5⟩ := routeAll_frame K now (snapshotCalls K E s.player s.junk s.BZDB) s
    have hmax : (routeAll K now s (snapshotCalls K E s.player s.junk s.BZDB)).RecordMaxBytes =
        s.RecordMaxBytes := by
      have : ∀ (cs : List Call) (t : State),
          (routeAll K now t cs).RecordMaxBytes = t.RecordMaxBytes := by
        intro cs
        induction cs with
        | nil => intro t; rfl
        | cons c cs ih =>
          intro t
          rw [routeAll_cons, ih]
          unfold route routePacket
          split
          · rfl
          · split
            · simp only
              split <;> rfl
            · unfold savePacket
              cases t.RecordFile with
              | none => rfl
              | some f =>
                simp only
                split
                · rfl
                · split <;> rfl
      exact this _ s
    rw [routePacket_buffered K now
      { routeAll K now s (snapshotCalls K E s.player s.junk s.BZDB) with RecordUpdateTime := now }
      code len data mode (f4.trans hrec) (f5.trans hmode) (by simp only [hmax]; omega)]
    exact ⟨by simp only [RecordReplay.addPacket, h1], rfl⟩
  · intro hdue
    unfold Record.addPacket
    by_cases hc : code = K.MsgAddPlayer
    · simp only [if_pos hc, hmsg, if_neg hdue]
      exact ⟨rfl, trivial⟩
    · simp only [if_neg hc, if_neg hdue, hmsg]
      exact ⟨rfl, trivial⟩

/-- C26 at a concrete input: on the recording `liveSession` (RecordUpdateTime 0,
rate 0), a `MsgAddPlayer` message at time 5. -/
theorem capture_ordering_witness :
    (Record.addPacket lp64 sampleServer 5 liveSession lp64.MsgAddPlayer 2 [7, 8] 0).1 = true ∧
    (Record.addPacket lp64 sampleServer 5 liveSession lp64.MsgAddPlayer 2 [7, 8]
        0).2.RecordBuf.pkts.map (fun p => (p.mode, p.code, p.timestamp)) =
      [(1, 0x7475, 0), (0, 0x6d73, 1), (0, 0x6170, 5), (1, 0x7475, 5)] :=
  ⟨(capture_ordering lp64 sampleServer 5 liveSession lp64.MsgAddPlayer 2 [7, 8] 0
      (by decide) (by decide) (by decide)).1,
   by
    rw [((capture_ordering lp64 sampleServer 5 liveSession lp64.MsgAddPlayer 2 [7, 8] 0
      (by decide) (by decide) (by decide)).2.1 (by decide) (by decide)).1]
    decide⟩

/-! ## Runs of sendPackets -/

/-- What the loop of `Replay::sendPackets` does with the cursor packet `p` before
it moves the cursor: nothing for a hidden packet, else the variables of a
`MsgSetVar` packet are set and the packet is offered to the observers. -/
def handlePacket (K : Consts) (p : RRpacket) (s : State) : State :=
  if p.mode ≠ K.HiddenPacket then
    sendToObservers K p (if p.code = K.MsgSetVar then setVariables s p.data else s)
  else s

/-- The packets `ps` handled one after the other. -/
def handleAll (K : Consts) (ps : List RRpacket) (s : State) : State :=
  ps.foldl (fun t p => handlePacket K p t) s

/-- How many packets at the start of `ps` are due at the clock reading `now`:
those the loop `while (Replay::nextTime () < 0.0f)` takes. -/
def dueCount (now off : Int) : List RRpacket → Nat
  | [] => 0
  | p :: rest => if (p.timestamp + off) - now < 0 then dueCount now off rest + 1 else 0

theorem dueCount_le (now off : Int) (ps : List RRpacket) : dueCount now off ps ≤ ps.length := by
  induction ps with
  | nil => exact le_refl _
  | cons p rest ih =>
    simp only [dueCount, List.length_cons]
    split <;> omega

theorem handleAll_cons (K : Consts) (p : RRpacket) (ps : List RRpacket) (s : State) :
    handleAll K (p :: ps) s = handleAll K ps (handlePacket K p s) := rfl

theorem handleAll_append (K : Consts) (a b : List RRpacket) (s : State) :
    handleAll K (a ++ b) s = handleAll K b (handleAll K a s) := by
  simp [handleAll, List.foldl_append]

/-- What `handlePacket` leaves alone. -/
theorem handlePacket_frame (K : Consts) (p : RRpacket) (s : State) :
    (handlePacket K p s).ReplayMode = s.ReplayMode ∧
    (handlePacket K p s).Replaying = s.Replaying ∧
    (handlePacket K p s).ReplayOffset = s.ReplayOffset ∧
    (handlePacket K p s).ReplayBuf = s.ReplayBuf ∧
    (handlePacket K p s).ReplayFile = s.ReplayFile ∧
    (handlePacket K p s).ReplayPos = s.ReplayPos := by
  unfold handlePacket
  split
  · split <;> exact ⟨rfl, rfl, rfl, rfl, rfl, rfl⟩
  · exact ⟨rfl, rfl, rfl, rfl, rfl, rfl⟩

theorem handleAll_frame (K : Consts) (ps : List RRpacket) :
    ∀ s : State, (handleAll K ps s).ReplayMode = s.ReplayMode ∧
      (handleAll K ps s).Replaying = s.Replaying ∧
      (handleAll K ps s).ReplayOffset = s.ReplayOffset ∧
      (handleAll K ps s).ReplayBuf = s.ReplayBuf ∧
      (handleAll K ps s).ReplayFile = s.ReplayFile ∧
      (handleAll K ps s).ReplayPos = s.ReplayPos := by
  induction ps with
  | nil => intro s; exact ⟨rfl, rfl, rfl, rfl, rfl, rfl⟩
  | cons p ps ih =>
    intro s
    rw [handleAll_cons]
    obtain ⟨a1, a2, a3, a4, a5, a6⟩ := ih (handlePacket K p s)
    obtain ⟨b1, b2, b3, b4, b5, b6⟩ := handlePacket_frame K p s
    exact ⟨a1.trans b1, a2.trans b2, a3.trans b3, a4.trans b4, a5.trans b5, a6.trans b6⟩

/-- The cursor does not matter to `handlePacket`. -/
theorem handlePacket_pos (K : Consts) (p : RRpacket) (s : State) (r : Option Nat) :
    handlePacket K p { s with ReplayPos := r } = { handlePacket K p s with ReplayPos := r } := by
  unfold handlePacket
  split
  · split <;> rfl
  · rfl

theorem handleAll_pos (K : Consts) (ps : List RRpacket) :
    ∀ (s : State) (r : Option Nat),
      handleAll K ps { s with ReplayPos := r } = { handleAll K ps s with ReplayPos := r } := by
  induction ps with
  | nil => intro s r; rfl
  | cons p ps ih =>
    intro s r
    rw [handleAll_cons, handleAll_cons, handlePacket_pos, ih]

theorem state_pos_eta (s : State) (r : Option Nat) (h : s.ReplayPos = r) :
    { s with ReplayPos := r } = s := by
  cases s
  simp_all

/-- The loop of `Replay::sendPackets` in a playing session with the cursor on the
packet at `cur`: it handles the packets from the cursor on that are due, in
order, and leaves the cursor after them (null after the head). -/
theorem sendDue_eq (K : Consts) (E : Server) (now : Int) (pkts : List RRpacket) (off : Int)
    (fuel : Nat) :
    ∀ (sent : Bool) (s : State) (cur : Nat), s.ReplayMode = true → s.Replaying = true →
      s.ReplayBuf.pkts = pkts → s.ReplayOffset = off →
      s.ReplayPos = some cur → cur < pkts.length → pkts.length - cur ≤ fuel →
      Replay.sendDue K E now fuel sent s =
        some (some (sent || decide (0 < dueCount now off (pkts.drop cur))),
          { handleAll K ((pkts.drop cur).take (dueCount now off (pkts.drop cur))) s with
            ReplayPos :=
              if cur + dueCount now off (pkts.drop cur) < pkts.length then
                some (cur + dueCount now off (pkts.drop cur))
              else none }) := by
  induction fuel with
  | zero => intro sent s cur _ _ _ _ _ hcur hf; omega
  | succ k ih =>
    intro sent s cur hmode hrep hbuf hoff hpos hcur hf
    have hget : s.ReplayBuf.pkts[cur]? = some (pkts[cur]) := by
      rw [hbuf]; exact List.getElem?_eq_getElem hcur
    have hdrop : pkts.drop cur = pkts[cur] :: pkts.drop (cur + 1) :=
      List.drop_eq_getElem_cons hcur
    generalize pkts[cur] = p at hget hdrop
    unfold Replay.sendDue
    simp only [Replay.nextTime, hmode, hrep, hpos, hget, Bool.true_eq_false, or_self, if_false]
    rw [hdrop, hoff]
    by_cases hdue : (p.timestamp + off) - now < 0
    · rw [if_pos hdue]
      simp only [dueCount, if_pos hdue, List.take_succ_cons, handleAll_cons]
      have hs1 : (if p.mode ≠ K.HiddenPacket then
          sendToObservers K p (if p.code = K.MsgSetVar then setVariables s p.data else s)
          else s) = handlePacket K p s := rfl
      rw [hs1]
      obtain ⟨f1, f2, f3, f4, _, _⟩ := handlePacket_frame K p s
      generalize handlePacket K p s = t at f1 f2 f3 f4
      have hlen : t.ReplayBuf.pkts.length = pkts.length := by rw [f4, hbuf]
      by_cases hnext : cur + 1 < pkts.length
      · have hpos2 : t.ReplayBuf.next cur = some (cur + 1) := by
          simp only [RRbuffer.next, hlen, hnext, if_true]
        rw [hpos2]
        rw [ih true { t with ReplayPos := some (cur + 1) } (cur + 1) (f1.trans hmode)
          (f2.trans hrep) ((congrArg RRbuffer.pkts f4).trans hbuf) (f3.trans hoff) rfl hnext
          (by omega), handleAll_pos]
        simp only [Bool.true_or, Nat.zero_lt_succ, decide_True, Bool.or_true, Nat.add_assoc,
          Nat.add_comm 1]
      · have hpos2 : t.ReplayBuf.next cur = none := by
          simp only [RRbuffer.next, hlen, hnext, if_false]
        have hnil : pkts.drop (cur + 1) = [] := List.drop_eq_nil_of_le (by omega)
        rw [hpos2, hnil]
        simp only [dueCount, List.take_nil, Nat.zero_add, hnext, if_false,
          Nat.zero_lt_one, decide_True, Bool.or_true]
        rw [show handleAll K [] t = t from rfl]
        cases k with
        | zero => rfl
        | succ k =>
          unfold Replay.sendDue
          simp only [Replay.nextTime, f1, f2, hmode, hrep, Bool.true_eq_false, or_self, if_false]
          rfl
    · rw [if_neg hdue]
      simp only [dueCount, if_neg hdue, lt_self_iff_false, decide_False, Bool.or_false,
        List.take_zero, Nat.add_zero, hcur, if_true]
      rw [show handleAll K [] s = s from rfl, state_pos_eta s _ hpos]

/-- `Replay::sendPackets` in a playing session while packets are left after the
due ones: it returns true, having handled the due packets and moved the cursor
past them; a message about the pause ahead may follow. -/
theorem sendPackets_playing (K : Consts) (E : Server) (now : Int) (s : State) (cur : Nat)
    (hmode : s.ReplayMode = true) (hrep : s.Replaying = true)
    (hpos : s.ReplayPos = some cur)
    (hleft : cur + dueCount now s.ReplayOffset (s.ReplayBuf.pkts.drop cur)
      < s.ReplayBuf.pkts.length) :
    Replay.sendPackets K E now s =
      some (true,
        { handleAll K ((s.ReplayBuf.pkts.drop cur).take
            (dueCount now s.ReplayOffset (s.ReplayBuf.pkts.drop cur))) s with
          ReplayPos := some (cur + dueCount now s.ReplayOffset (s.ReplayBuf.pkts.drop cur)) }) ∨
    Replay.sendPackets K E now s =
      some (true, sendMessage
        { handleAll K ((s.ReplayBuf.pkts.drop cur).take
            (dueCount now s.ReplayOffset (s.ReplayBuf.pkts.drop cur))) s with
          ReplayPos := some (cur + dueCount now s.ReplayOffset (s.ReplayBuf.pkts.drop cur)) }
        none "No activity for the next seconds") := by
  have hcur : cur < s.ReplayBuf.pkts.length := by omega
  have e := sendDue_eq K E now s.ReplayBuf.pkts s.ReplayOffset (s.ReplayBuf.pkts.length + 1)
    false s cur hmode hrep rfl rfl hpos hcur (by omega)
  rw [if_pos hleft] at e
  obtain ⟨_, _, _, f4, _, _⟩ := handleAll_frame K ((s.ReplayBuf.pkts.drop cur).take
    (dueCount now s.ReplayOffset (s.ReplayBuf.pkts.drop cur))) s
  generalize dueCount now s.ReplayOffset (s.ReplayBuf.pkts.drop cur) = n at e hleft f4 ⊢
  generalize handleAll K ((s.ReplayBuf.pkts.drop cur).take n) s = h at e f4 ⊢
  unfold Replay.sendPackets
  rw [if_neg (by rw [hrep]; simp), e]
  have hq : ({ h with ReplayPos := some (cur + n) } : State).ReplayBuf.pkts[cur + n]? =
      some (s.ReplayBuf.pkts[cur + n]) := by
    show h.ReplayBuf.pkts[cur + n]? = _
    rw [f4]
    exact List.getElem?_eq_getElem hleft
  simp only [hq]
  split
  · split
    · exact Or.inr rfl
    · exact Or.inl rfl
  · exact Or.inl rfl

/-- `Replay::sendPackets` in a playing session when every packet from the cursor
on is due: it handles them all, then resets the states, stops playing, puts
the cursor back on the tail and returns false. -/
theorem sendPackets_finish (K : Consts) (E : Server) (now : Int) (s : State) (cur : Nat)
    (hmode : s.ReplayMode = true) (hrep : s.Replaying = true)
    (hpos : s.ReplayPos = some cur) (hcur : cur < s.ReplayBuf.pkts.length)
    (hall : ¬ cur + dueCount now s.ReplayOffset (s.ReplayBuf.pkts.drop cur)
      < s.ReplayBuf.pkts.length) :
    Replay.sendPackets K E now s =
      some (false, sendMessage
        { resetStates K E { handleAll K (s.ReplayBuf.pkts.drop cur) s with ReplayPos := none } with
          Replaying := false, ReplayPos := some 0 }
        none "Replay Finished") := by
  have e := sendDue_eq K E now s.ReplayBuf.pkts s.ReplayOffset (s.ReplayBuf.pkts.length + 1)
    false s cur hmode hrep rfl rfl hpos hcur (by omega)
  rw [if_neg hall] at e
  have hn := dueCount_le now s.ReplayOffset (s.ReplayBuf.pkts.drop cur)
  have htake : (s.ReplayBuf.pkts.drop cur).take
      (dueCount now s.ReplayOffset (s.ReplayBuf.pkts.drop cur)) = s.ReplayBuf.pkts.drop cur := by
    apply List.take_of_length_le
    simp only [List.length_drop] at hn ⊢
    omega
  rw [htake] at e
  obtain ⟨_, _, _, f4, _, _⟩ := handleAll_frame K (s.ReplayBuf.pkts.drop cur) s
  generalize handleAll K (s.ReplayBuf.pkts.drop cur) s = h at e f4 ⊢
  unfold Replay.sendPackets
  rw [if_neg (by rw [hrep]; simp), e]
  have hne : s.ReplayBuf.pkts ≠ [] := by
    intro hc; rw [hc] at hcur; simp at hcur
  have ht : (resetStates K E { h with ReplayPos := none }).ReplayBuf.tail = some 0 := by
    show h.ReplayBuf.tail = some 0
    rw [f4]
    simp [RRbuffer.tail, hne]
  simp only [ht]
  have ht2 : ({ h with ReplayPos := none } : State).ReplayBuf.tail = some 0 := by
    show h.ReplayBuf.tail = some 0
    rw [f4]
    simp [RRbuffer.tail, hne]
  simp only [ht2]

theorem dueCount_all (now off : Int) (l : List RRpacket)
    (h : ∀ p ∈ l, (p.timestamp + off) - now < 0) : dueCount now off l = l.length := by
  induction l with
  | nil => rfl
  | cons p rest ih =>
    simp only [dueCount, if_pos (h p (List.mem_cons_self _ _)), List.length_cons]
    rw [ih (fun q hq => h q (List.mem_cons_of_mem _ hq))]

theorem clearReplayStates_none (K : Consts) (players : List PlayerInfo) (i : Nat)
    (pl : PlayerInfo) (hi : K.MaxPlayers ≤ i)
    (hget : (clearReplayStates K players)[i]? = some pl) :
    pl.replayState = .ReplayNone := by
  unfold clearReplayStates at hget
  by_cases hlen : K.MaxPlayers ≤ players.length
  · have htake : (players.take K.MaxPlayers).length = K.MaxPlayers := by
      rw [List.length_take]; omega
    rw [List.getElem?_append_right (by rw [htake]; exact hi), List.getElem?_map] at hget
    cases hd : (players.drop K.MaxPlayers)[i - (players.take K.MaxPlayers).length]? with
    | none => rw [hd] at hget; simp at hget
    | some q =>
      rw [hd] at hget
      simp only [Option.map_some', Option.some.injEq] at hget
      rw [← hget]
  · have hlt : (players.take K.MaxPlayers ++
        (players.drop K.MaxPlayers).map
          (fun pl : PlayerInfo => { pl with replayState := .ReplayNone })).length
        ≤ i := by
      simp only [List.length_append, List.length_take, List.length_map, List.length_drop]
      omega
    rw [List.getElem?_eq_none hlt] at hget
    simp at hget

/-- The loaded sample session after `Replay::play` with the clock at 0. -/
def playedSession : State :=
  match Replay.play lp64 sampleServer 0 loadedSession 0 with
  | some r => r.2
  | none => loadedSession

/-- A recording for an LP64 host with a hidden `MsgSetVar` packet: a snapshot at
time 0 (a `MsgTeamUpdate` and an empty `MsgSetVar` state packet), at 1 second a
hidden packet with code `MsgSetVar` that carries the pair ("g", "1"), and a live
message at 5 seconds. -/
def hiddenRecording : List Nat :=
  sampleHeader ReplayMagic 1 ++ List.replicate 40 9 ++ recordBytes
    [sampleRec lp64.StatePacket lp64.MsgTeamUpdate 0 [0],
     sampleRec lp64.StatePacket lp64.MsgSetVar 0 [0, 0],
     sampleRec lp64.HiddenPacket lp64.MsgSetVar 1000000 [0, 1, 1, 103, 1, 49],
     sampleRec lp64.RealPacket 0x6d73 5000000 [1]]

/-- The session after `Replay::loadFile` of `hiddenRecording` and `Replay::play` with
the clock at 0. -/
def hiddenSession : State :=
  match Replay.play lp64 sampleServer 0
    (Replay.loadFile lp64 sampleServer (replayServer ['r'] hiddenRecording) 0 ['r']).2 0 with
  | some r => r.2
  | none => initialState

/-- C23, the claim as stated fails: in the session `hiddenSession` the packet at
position 2 is hidden, has code `MsgSetVar` and carries the pair ("g", "1").
`Replay::sendPackets` with the clock at 2 seconds handles the three packets that
are due and leaves the cursor on position 3, and the configuration store is
as empty as before: the pair of the hidden packet has not been set (decoding
the payload would set it). -/
theorem hidden_variables_are_not_applied :
    (Replay.loadFile lp64 sampleServer (replayServer ['r'] hiddenRecording) 0 ['r']).1 = true ∧
    hiddenSession.Replaying = true ∧ hiddenSession.ReplayPos = some 0 ∧
    hiddenSession.BZDB = [] ∧
    hiddenSession.ReplayBuf.pkts.map (fun p => (p.mode, p.code, p.timestamp, p.data)) =
      [(1, 0x7475, 0, [0]), (1, 0x7376, 0, [0, 0]),
       (2, 0x7376, 1000000, [0, 1, 1, 103, 1, 49]), (0, 0x6d73, 5000000, [1])] ∧
    (setVariables hiddenSession [0, 1, 1, 103, 1, 49]).BZDB = [([103], [49])] ∧
    (Replay.sendPackets lp64 sampleServer 2000000 hiddenSession).map
        (fun r => (r.1, r.2.ReplayPos, r.2.BZDB)) = some (true, some 3, []) := by
  decide

/-- C23, amended. A due packet with mode `HiddenPacket` is only stepped over: the
loop of `Replay::sendPackets` handles it without any change to the state (no
observer is sent anything, no handshake state changes, and the configuration
store stays as it is even when the code is `MsgSetVar`) and moves the cursor to
the next packet. The variables of a due `MsgSetVar` packet are set when the
packet is not hidden. -/
theorem hidden_packet_is_stepped_over (K : Consts) (E : Server) (now : Int) (fuel : Nat)
    (sent : Bool) (s : State) (cur : Nat) (p : RRpacket)
    (hmode : s.ReplayMode = true) (hrep : s.Replaying = true) (hpos : s.ReplayPos = some cur)
    (hget : s.ReplayBuf.pkts[cur]? = some p) (hdue : (p.timestamp + s.ReplayOffset) - now < 0)
    (hhid : p.mode = K.HiddenPacket) :
    handlePacket K p s = s ∧
    Replay.sendDue K E now (fuel + 1) sent s =
      Replay.sendDue K E now fuel true { s with ReplayPos := s.ReplayBuf.next cur } ∧
    (∀ q : RRpacket, q.mode ≠ K.HiddenPacket → q.code = K.MsgSetVar →
      (handlePacket K q s).BZDB = setVarsDb s.BZDB q.data) := by
  refine ⟨?_, ?_, ?_⟩
  · unfold handlePacket
    rw [if_neg (by rw [hhid]; simp)]
  · have hn : Replay.nextTime now s = some ((p.timestamp + s.ReplayOffset) - now) := by
      simp only [Replay.nextTime, hmode, hrep, hpos, hget, Bool.true_eq_false, or_self, if_false]
    conv_lhs => unfold Replay.sendDue
    simp only [hn, hpos, hget]
    rw [if_pos hdue, if_neg (by rw [hhid]; simp)]
  · intro q hq hc
    unfold handlePacket
    rw [if_pos hq, if_pos hc]
    rfl

/-- C23 at a concrete input: the hidden packet of `hiddenSession`, with the cursor
on it. -/
theorem hidden_packet_is_stepped_over_witness :
    handlePacket lp64
        { mode := 2, code := 0x7376, len := 6, prev_len := 0, timestamp := 1000000,
          data := [0, 1, 1, 103, 1, 49] }
        { hiddenSession with ReplayPos := some 2 } =
      { hiddenSession with ReplayPos := some 2 } :=
  (hidden_packet_is_stepped_over lp64 sampleServer 2000000 5 true
    { hiddenSession with ReplayPos := some 2 } 2
    { mode := 2, code := 0x7376, len := 6, prev_len := 0, timestamp := 1000000,
      data := [0, 1, 1, 103, 1, 49] }
    (by decide) (by decide) (by decide) (by decide) (by decide) (by decide)).1

/-! ## What an observer is sent -/

/-- The handshake state of an observer that started in `st`, after the packets
`ps` have been handled: hidden packets are passed over, every other packet
makes a handshake step. -/
def finalState (K : Consts) : PlayerReplayState → List RRpacket → PlayerReplayState
  | st, [] => st
  | st, p :: rest =>
    if p.mode = K.HiddenPacket then finalState K st rest
    else finalState K (handshakeStep K p st) rest

/-- The packets of `ps` that an observer that started in `st` is sent, in order:
a packet that is not hidden is sent when it is `deliverable` in the state its
handshake step leads to. -/
def deliveredTo (K : Consts) : PlayerReplayState → List RRpacket → List RRpacket
  | _, [] => []
  | st, p :: rest =>
    if p.mode = K.HiddenPacket then deliveredTo K st rest
    else if deliverable K p (handshakeStep K p st) then
      p :: deliveredTo K (handshakeStep K p st) rest
    else deliveredTo K (handshakeStep K p st) rest

theorem handlePacket_observer (K : Consts) (p : RRpacket) (s : State) (i : Nat)
    (pl : PlayerInfo) (hi : K.MaxPlayers ≤ i) (hget : s.player[i]? = some pl)
    (hplay : pl.playing = true) :
    (handlePacket K p s).player[i]? =
      some { pl with replayState := finalState K pl.replayState [p] } ∧
    directsTo i (handlePacket K p s).out =
      directsTo i s.out ++ (deliveredTo K pl.replayState [p]).map (fun q => (q.code, payload q)) := by
  unfold handlePacket
  by_cases hh : p.mode = K.HiddenPacket
  · rw [if_neg (by rw [hh]; simp)]
    simp only [finalState, deliveredTo, hh, if_true, List.map_nil, List.append_nil]
    exact ⟨hget, trivial⟩
  · rw [if_pos hh]
    have hg : (if p.code = K.MsgSetVar then setVariables s p.data else s).player[i]? = some pl := by
      split
      · exact hget
      · exact hget
    have ho : (if p.code = K.MsgSetVar then setVariables s p.data else s).out = s.out := by
      split <;> rfl
    obtain ⟨a, b⟩ := sendToObservers_slot K p
      (if p.code = K.MsgSetVar then setVariables s p.data else s) i pl hi hg
    obtain ⟨e1, e2, e3⟩ := sendToObserver_eq K p i pl hplay
    rw [a, b, ho, e1]
    simp only [finalState, deliveredTo, hh, if_false]
    refine ⟨trivial, ?_⟩
    by_cases hd : deliverable K p (handshakeStep K p pl.replayState)
    · rw [e2 hd, if_pos hd]
      simp [directsTo]
    · rw [e3 hd, if_neg hd]
      simp [directsTo]

theorem finalState_cons (K : Consts) (p : RRpacket) (ps : List RRpacket)
    (st : PlayerReplayState) :
    finalState K st (p :: ps) = finalState K (finalState K st [p]) ps := by
  simp only [finalState]
  split <;> rfl

theorem deliveredTo_cons (K : Consts) (p : RRpacket) (ps : List RRpacket)
    (st : PlayerReplayState) :
    deliveredTo K st (p :: ps) = deliveredTo K st [p] ++ deliveredTo K (finalState K st [p]) ps := by
  simp only [deliveredTo, finalState]
  split
  · rfl
  · split <;> rfl

/-- A run of the loop of `Replay::sendPackets` over the packets `ps`, seen from a
playing observer in slot `i`: its handshake state ends as `finalState` has it,
and the packets it is sent are those of `deliveredTo`, in order. -/
theorem handleAll_observer (K : Consts) (i : Nat) (hi : K.MaxPlayers ≤ i) (ps : List RRpacket) :
    ∀ (s : State) (pl : PlayerInfo), s.player[i]? = some pl → pl.playing = true →
      (handleAll K ps s).player[i]? =
        some { pl with replayState := finalState K pl.replayState ps } ∧
      directsTo i (handleAll K ps s).out =
        directsTo i s.out ++
          (deliveredTo K pl.replayState ps).map (fun q => (q.code, payload q)) := by
  induction ps with
  | nil =>
    intro s pl hget _
    simp only [handleAll, List.foldl_nil, finalState, deliveredTo, List.map_nil, List.append_nil]
    exact ⟨hget, trivial⟩
  | cons p ps ih =>
    intro s pl hget hplay
    obtain ⟨a, b⟩ := handlePacket_observer K p s i pl hi hget hplay
    obtain ⟨c, d⟩ := ih (handlePacket K p s)
      { pl with replayState := finalState K pl.replayState [p] } a hplay
    rw [handleAll_cons]
    refine ⟨?_, ?_⟩
    · rw [c, finalState_cons K p ps pl.replayState]
    · rw [d, b, deliveredTo_cons K p ps pl.replayState, List.map_append, List.append_assoc]

/-- `Replay::sendPackets` called at each of the clock readings `nows` in turn; the
result is `none` when a call reads through a bad pointer. -/
def sendRun (K : Consts) (E : Server) : List Int → State → Option State
  | [], s => some s
  | now :: rest, s =>
    match Replay.sendPackets K E now s with
    | none => none
    | some r => sendRun K E rest r.2

/-- Two states that the loop of `Replay::sendPackets` cannot tell apart, and in
which the observers have been sent the same: they differ at most in the
cursor, in whether the session is playing, and in the text messages sent. -/
def Sim (a b : State) : Prop :=
  a.player = b.player ∧ a.BZDB = b.BZDB ∧ a.ReplayBuf = b.ReplayBuf ∧
  a.ReplayOffset = b.ReplayOffset ∧ a.ReplayMode = b.ReplayMode ∧
  a.ReplayFile = b.ReplayFile ∧ ∀ i, directsTo i a.out = directsTo i b.out

theorem Sim.rfl_ (a : State) : Sim a a := ⟨rfl, rfl, rfl, rfl, rfl, rfl, fun _ => rfl⟩

theorem Sim.trans_ (a b c : State) (h1 : Sim a b) (h2 : Sim b c) : Sim a c := by
  obtain ⟨a1, a2, a3, a4, a5, a6, a7⟩ := h1
  obtain ⟨b1, b2, b3, b4, b5, b6, b7⟩ := h2
  exact ⟨a1.trans b1, a2.trans b2, a3.trans b3, a4.trans b4, a5.trans b5, a6.trans b6,
    fun i => (a7 i).trans (b7 i)⟩

theorem sendToObservers_sim (K : Consts) (p : RRpacket) (a b : State) (h : Sim a b) :
    Sim (sendToObservers K p a) (sendToObservers K p b) := by
  obtain ⟨a1, a2, a3, a4, a5, a6, a7⟩ := h
  unfold sendToObservers
  refine ⟨?_, a2, a3, a4, a5, a6, ?_⟩
  · simp only [a1]
  · intro i
    simp only [directsTo_append, a7 i, a1]

theorem handlePacket_sim (K : Consts) (p : RRpacket) (a b : State) (h : Sim a b) :
    Sim (handlePacket K p a) (handlePacket K p b) := by
  unfold handlePacket
  split
  · apply sendToObservers_sim
    split
    · obtain ⟨a1, a2, a3, a4, a5, a6, a7⟩ := h
      exact ⟨a1, by simp only [setVariables, a2], a3, a4, a5, a6, a7⟩
    · exact h
  · exact h

theorem handleAll_sim (K : Consts) (ps : List RRpacket) :
    ∀ a b : State, Sim a b → Sim (handleAll K ps a) (handleAll K ps b) := by
  induction ps with
  | nil => intro a b h; exact h
  | cons p ps ih =>
    intro a b h
    rw [handleAll_cons, handleAll_cons]
    exact ih _ _ (handlePacket_sim K p a b h)

theorem resetStates_sim (K : Consts) (E : Server) (a b : State) (h : Sim a b) :
    Sim (resetStates K E a) (resetStates K E b) := by
  obtain ⟨a1, a2, a3, a4, a5, a6, a7⟩ := h
  unfold resetStates playingObservers
  refine ⟨?_, a2, a3, a4, a5, a6, ?_⟩
  · simp only [a1]
  · intro i
    simp only [directsTo_append, a7 i, a1]

theorem directsTo_message (i : Nat) (outs : List Output) (dest : Option Nat) (text : String) :
    directsTo i (outs ++ [Output.message dest text]) = directsTo i outs := by
  simp [directsTo, List.filterMap_append]

theorem sendRun_stopped (K : Consts) (E : Server) (nows : List Int) :
    ∀ s : State, s.Replaying = false → sendRun K E nows s = some s := by
  induction nows with
  | nil => intro s _; rfl
  | cons now rest ih =>
    intro s h
    unfold sendRun
    have e : Replay.sendPackets K E now s = some (false, s) := by
      unfold Replay.sendPackets
      rw [if_pos h]
    rw [e]
    exact ih s h

theorem take_drop_add {α : Type} (l : List α) (c n k : Nat) :
    (l.drop c).take n ++ (l.drop (c + n)).take k = (l.drop c).take (n + k) := by
  rw [List.take_add, List.drop_drop]

/-- One call of `Replay::sendPackets` in a playing session with the cursor on a
packet: either packets are left, the due ones have been handled and the
session still plays, or every packet has been handled, the states have been
reset and the session has stopped with the cursor on the oldest packet. -/
theorem sendPackets_step (K : Consts) (E : Server) (now : Int) (s : State) (cur : Nat)
    (hmode : s.ReplayMode = true) (hrep : s.Replaying = true)
    (hpos : s.ReplayPos = some cur) (hcur : cur < s.ReplayBuf.pkts.length) :
    ∃ r t, Replay.sendPackets K E now s = some (r, t) ∧
      ((∃ n, cur + n < s.ReplayBuf.pkts.length ∧ r = true ∧ t.ReplayPos = some (cur + n) ∧
          t.Replaying = true ∧ Sim t (handleAll K ((s.ReplayBuf.pkts.drop cur).take n) s)) ∨
       (r = false ∧ t.Replaying = false ∧ t.ReplayPos = some 0 ∧
          Sim t (resetStates K E (handleAll K (s.ReplayBuf.pkts.drop cur) s)))) := by
  by_cases hleft : cur + dueCount now s.ReplayOffset (s.ReplayBuf.pkts.drop cur)
      < s.ReplayBuf.pkts.length
  · obtain ⟨_, f2, _, _, _, _⟩ := handleAll_frame K ((s.ReplayBuf.pkts.drop cur).take
      (dueCount now s.ReplayOffset (s.ReplayBuf.pkts.drop cur))) s
    rcases sendPackets_playing K E now s cur hmode hrep hpos hleft with e | e
    · refine ⟨_, _, e, Or.inl ⟨_, hleft, rfl, rfl, ?_, ?_⟩⟩
      · show (handleAll K _ s).Replaying = true
        rw [f2, hrep]
      · exact ⟨rfl, rfl, rfl, rfl, rfl, rfl, fun _ => rfl⟩
    · refine ⟨_, _, e, Or.inl ⟨_, hleft, rfl, rfl, ?_, ?_⟩⟩
      · show (handleAll K _ s).Replaying = true
        rw [f2, hrep]
      · exact ⟨rfl, rfl, rfl, rfl, rfl, rfl, fun i => directsTo_message i _ _ _⟩
  · refine ⟨_, _, sendPackets_finish K E now s cur hmode hrep hpos hcur hleft,
      Or.inr ⟨rfl, rfl, rfl, ?_⟩⟩
    exact ⟨rfl, rfl, rfl, rfl, rfl, rfl, fun i => directsTo_message i _ _ _⟩

/-- A run of `Replay::sendPackets` from a playing session with the cursor on
packet `cur`: it never reads through a bad pointer, and either the session
still plays with the cursor on a packet `m`, the packets from `cur` up to `m`
handled in order, or it has stopped with the cursor on the oldest packet, all
the packets from `cur` on handled and the states reset. -/
theorem sendRun_trace (K : Consts) (E : Server) (nows : List Int) :
    ∀ (s : State) (cur : Nat), s.ReplayMode = true → s.Replaying = true →
      s.ReplayPos = some cur → cur < s.ReplayBuf.pkts.length →
      ∃ t, sendRun K E nows s = some t ∧
        ((∃ m, cur ≤ m ∧ m < s.ReplayBuf.pkts.length ∧ t.ReplayPos = some m ∧
            t.Replaying = true ∧
            Sim t (handleAll K ((s.ReplayBuf.pkts.drop cur).take (m - cur)) s)) ∨
         (t.Replaying = false ∧ t.ReplayPos = some 0 ∧
            Sim t (resetStates K E (handleAll K (s.ReplayBuf.pkts.drop cur) s)))) := by
  induction nows with
  | nil =>
    intro s cur _ hrep hpos hcur
    refine ⟨s, rfl, Or.inl ⟨cur, le_refl _, hcur, hpos, hrep, ?_⟩⟩
    rw [Nat.sub_self, List.take_zero]
    exact Sim.rfl_ s
  | cons now rest ih =>
    intro s cur hmode hrep hpos hcur
    obtain ⟨r, t, e, h⟩ := sendPackets_step K E now s cur hmode hrep hpos hcur
    unfold sendRun
    rw [e]
    show ∃ u, sendRun K E rest t = some u ∧ _
    rcases h with ⟨n, hn, _, tpos, trep, tsim⟩ | ⟨_, trep, tpos, tsim⟩
    · have tbuf : t.ReplayBuf = s.ReplayBuf := by
        rw [tsim.2.2.1]
        exact (handleAll_frame K _ s).2.2.2.1
      have tmode : t.ReplayMode = true := by
        rw [tsim.2.2.2.2.1, (handleAll_frame K _ s).1, hmode]
      obtain ⟨u, eu, hu⟩ := ih t (cur + n) tmode trep tpos (by rw [tbuf]; exact hn)
      rw [tbuf] at hu
      refine ⟨u, eu, ?_⟩
      rcases hu with ⟨m, hm1, hm2, upos, urep, usim⟩ | ⟨urep, upos, usim⟩
      · refine Or.inl ⟨m, by omega, hm2, upos, urep, ?_⟩
        refine Sim.trans_ _ _ _ usim ?_
        have hs := handleAll_sim K ((s.ReplayBuf.pkts.drop (cur + n)).take (m - (cur + n))) _ _ tsim
        rw [← handleAll_append, take_drop_add] at hs
        have hk : n + (m - (cur + n)) = m - cur := by omega
        rw [hk] at hs
        exact hs
      · refine Or.inr ⟨urep, upos, ?_⟩
        refine Sim.trans_ _ _ _ usim ?_
        apply resetStates_sim
        have hs := handleAll_sim K (s.ReplayBuf.pkts.drop (cur + n)) _ _ tsim
        rw [← handleAll_append] at hs
        have hk : (s.ReplayBuf.pkts.drop cur).take n ++ s.ReplayBuf.pkts.drop (cur + n)
            = s.ReplayBuf.pkts.drop cur := by
          rw [← List.drop_drop]
          exact List.take_append_drop n _
        rw [hk] at hs
        exact hs
    · refine ⟨t, sendRun_stopped K E rest t trep, Or.inr ⟨trep, tpos, tsim⟩⟩

/-- A packet that starts a snapshot for an observer in ReplayNone, as the test of
`Replay::sendPackets` has it: not hidden, not live, with code `MsgTeamUpdate`. -/
def isSnapshotStart (K : Consts) (p : RRpacket) : Prop :=
  p.mode ≠ K.HiddenPacket ∧ p.mode ≠ K.RealPacket ∧ p.code = K.MsgTeamUpdate

instance (K : Consts) (p : RRpacket) : Decidable (isSnapshotStart K p) := by
  unfold isSnapshotStart; infer_instance

theorem finalState_append (K : Consts) (a b : List RRpacket) :
    ∀ st, finalState K st (a ++ b) = finalState K (finalState K st a) b := by
  induction a with
  | nil => intro st; rfl
  | cons p a ih =>
    intro st
    simp only [List.cons_append, finalState]
    split
    · exact ih st
    · exact ih _

theorem deliveredTo_append (K : Consts) (a b : List RRpacket) :
    ∀ st, deliveredTo K st (a ++ b) =
      deliveredTo K st a ++ deliveredTo K (finalState K st a) b := by
  induction a with
  | nil => intro st; rfl
  | cons p a ih =>
    intro st
    simp only [List.cons_append, deliveredTo, finalState]
    split
    · exact ih st
    · split
      · exact congrArg (List.cons p) (ih _)
      · exact ih _

theorem handshakeStep_stateful (K : Consts) (p : RRpacket) :
    handshakeStep K p .ReplayStateful = .ReplayStateful := by
  simp [handshakeStep]

theorem finalState_stateful (K : Consts) (ps : List RRpacket) :
    finalState K .ReplayStateful ps = .ReplayStateful := by
  induction ps with
  | nil => rfl
  | cons p ps ih =>
    simp only [finalState, handshakeStep_stateful]
    split <;> exact ih

theorem deliveredTo_stateful (K : Consts) (ps : List RRpacket) :
    ∀ q ∈ deliveredTo K .ReplayStateful ps, q.mode = K.RealPacket ∧ q.mode ≠ K.HiddenPacket := by
  induction ps with
  | nil => intro q hq; simp [deliveredTo] at hq
  | cons p ps ih =>
    intro q hq
    simp only [deliveredTo, handshakeStep_stateful] at hq
    split at hq
    · exact ih q hq
    · rename_i hh
      split at hq
      · rename_i hd
        rcases List.mem_cons.1 hq with e | e
        · subst e
          refine ⟨?_, hh⟩
          rcases hd with ⟨_, h2⟩ | ⟨h1, _⟩
          · cases h2
          · exact h1
        · exact ih q e
      · exact ih q hq

theorem deliveredTo_none_head (K : Consts) (ps : List RRpacket) :
    ∀ p rest, deliveredTo K .ReplayNone ps = p :: rest → isSnapshotStart K p := by
  induction ps with
  | nil => intro p rest h; simp [deliveredTo] at h
  | cons p0 ps ih =>
    intro p rest h
    simp only [deliveredTo] at h
    split at h
    · exact ih p rest h
    · rename_i hh
      by_cases hb : p0.mode ≠ K.RealPacket ∧ p0.code = K.MsgTeamUpdate
      · have e : handshakeStep K p0 .ReplayNone = .ReplayReceiving := by
          simp [handshakeStep, hb.1, hb.2]
        rw [e] at h
        have hd : deliverable K p0 .ReplayReceiving := Or.inl ⟨hb.1, rfl⟩
        rw [if_pos hd] at h
        have hp : p0 = p := (List.cons.inj h).1
        rw [← hp]
        exact ⟨hh, hb.1, hb.2⟩
      · have e : handshakeStep K p0 .ReplayNone = .ReplayNone := by
          unfold handshakeStep
          rw [if_neg (fun c => hb ⟨c.1, c.2.1⟩), if_neg (fun c => by cases c.2.2),
            if_neg (fun c => by cases c.2)]
        rw [e] at h
        have hd : ¬ deliverable K p0 .ReplayNone := by
          intro c
          rcases c with ⟨_, c⟩ | ⟨_, c⟩ <;> cases c
        rw [if_neg hd] at h
        exact ih p rest h

theorem deliveredTo_none_live (K : Consts) (ps pre : List RRpacket) (q : RRpacket)
    (post : List RRpacket) (h : deliveredTo K .ReplayNone ps = pre ++ q :: post)
    (hq : q.mode = K.RealPacket) : ∃ b rest, pre = b :: rest ∧ isSnapshotStart K b := by
  cases pre with
  | nil =>
    have := deliveredTo_none_head K ps q post h
    exact absurd hq this.2.1
  | cons b rest =>
    exact ⟨b, rest, rfl, deliveredTo_none_head K ps b (rest ++ q :: post) h⟩

theorem deliveredTo_sublist (K : Consts) (ps : List RRpacket) :
    ∀ st, (deliveredTo K st ps).Sublist
      (ps.filter (fun p => decide (p.mode ≠ K.HiddenPacket))) := by
  induction ps with
  | nil => intro st; exact List.Sublist.slnil
  | cons p ps ih =>
    intro st
    simp only [deliveredTo, List.filter_cons]
    by_cases hh : p.mode = K.HiddenPacket
    · simp only [hh, if_true, ne_eq, not_true_eq_false, decide_False, Bool.false_eq_true,
        if_false]
      exact ih st
    · simp only [hh, if_false, ne_eq, not_false_eq_true, decide_True, if_true]
      split
      · exact (ih _).cons₂ p
      · exact (ih _).cons p

/-- The sample session with its observer in slot 200, after `Replay::play` with
the clock at 0. -/
def watchedPlaying : State :=
  match Replay.play lp64 sampleServer 0 watchedSession 200 with
  | some r => r.2
  | none => watchedSession

/-- C21. No live traffic before a snapshot. A run of `Replay::sendPackets` (one
call per clock reading of `nows`) from a playing session with the cursor on
packet `cur` never fails; while the session still plays (no end-of-stream
reset) the cursor is on a packet `m`, and a playing observer in slot `i` has
been sent exactly `deliveredTo` of the packets from `cur` up to `m`, in order,
its handshake state being `finalState` of them. For every packet stream: the
first packet delivered to an observer that starts in ReplayNone is not hidden,
not live and has code `MsgTeamUpdate` (so it is a StatePacket boundary packet
when its mode is one of the three modes); every live packet delivered to it
comes after such a first packet; and once the observer is ReplayStateful it
stays ReplayStateful and everything delivered later is live. -/
theorem no_live_before_snapshot (K : Consts) (E : Server) (nows : List Int) (s : State)
    (cur i : Nat) (pl : PlayerInfo)
    (hmode : s.ReplayMode = true) (hrep : s.Replaying = true)
    (hpos : s.ReplayPos = some cur) (hcur : cur < s.ReplayBuf.pkts.length)
    (hi : K.MaxPlayers ≤ i) (hget : s.player[i]? = some pl) (hplay : pl.playing = true) :
    (∃ t, sendRun K E nows s = some t ∧
      (t.Replaying = true →
        ∃ m, cur ≤ m ∧ m < s.ReplayBuf.pkts.length ∧ t.ReplayPos = some m ∧
          t.player[i]? = some { pl with
            replayState := finalState K pl.replayState ((s.ReplayBuf.pkts.drop cur).take (m - cur)) } ∧
          directsTo i t.out = directsTo i s.out ++
            (deliveredTo K pl.replayState ((s.ReplayBuf.pkts.drop cur).take (m - cur))).map
              (fun q => (q.code, payload q)))) ∧
    (∀ ps p rest, deliveredTo K .ReplayNone ps = p :: rest →
      isSnapshotStart K p ∧
      ((p.mode = K.RealPacket ∨ p.mode = K.StatePacket ∨ p.mode = K.HiddenPacket) →
        isBoundary K p)) ∧
    (∀ ps pre q post, deliveredTo K .ReplayNone ps = pre ++ q :: post → q.mode = K.RealPacket →
      ∃ b rest, pre = b :: rest ∧ isSnapshotStart K b) ∧
    (∀ st a b, finalState K st a = .ReplayStateful →
      finalState K st (a ++ b) = .ReplayStateful ∧
      ∃ later, deliveredTo K st (a ++ b) = deliveredTo K st a ++ later ∧
        ∀ q ∈ later, q.mode = K.RealPacket ∧ q.mode ≠ K.HiddenPacket) := by
  refine ⟨?_, ?_, ?_, ?_⟩
  · obtain ⟨t, et, ht⟩ := sendRun_trace K E nows s cur hmode hrep hpos hcur
    refine ⟨t, et, fun hplaying => ?_⟩
    rcases ht with ⟨m, hm1, hm2, tpos, _, tsim⟩ | ⟨tstop, _, _⟩
    · obtain ⟨a, b⟩ := handleAll_observer K i hi ((s.ReplayBuf.pkts.drop cur).take (m - cur)) s pl
        hget hplay
      refine ⟨m, hm1, hm2, tpos, ?_, ?_⟩
      · rw [tsim.1]
        exact a
      · rw [tsim.2.2.2.2.2.2 i]
        exact b
    · rw [tstop] at hplaying
      cases hplaying
  · intro ps p rest h
    have hs := deliveredTo_none_head K ps p rest h
    refine ⟨hs, fun hm => ?_⟩
    rcases hm with hm | hm | hm
    · exact absurd hm hs.2.1
    · exact ⟨hm, hs.2.2⟩
    · exact absurd hm hs.1
  · intro ps pre q post h hq
    exact deliveredTo_none_live K ps pre q post h hq
  · intro st a b hst
    refine ⟨?_, deliveredTo K .ReplayStateful b, ?_, deliveredTo_stateful K b⟩
    · rw [finalState_append, hst, finalState_stateful]
    · rw [deliveredTo_append, hst]

/-- C21 at a concrete input: the sample session with its observer in slot 200,
played from time 0, with sendPackets called at 1 and at 3 seconds. -/
theorem no_live_before_snapshot_witness :
    (deliveredTo lp64 .ReplayNone (watchedPlaying.ReplayBuf.pkts.take 3)).map
      (fun q => (q.mode, q.code)) = [(1, 0x7475), (1, lp64.MsgSetVar), (0, 0x6d73)] ∧
    ∃ t, sendRun lp64 sampleServer [1000000, 3000000] watchedPlaying = some t ∧
      (t.Replaying = true →
        ∃ m, 0 ≤ m ∧ m < watchedPlaying.ReplayBuf.pkts.length ∧ t.ReplayPos = some m ∧
          t.player[200]? = some { watcher with
            replayState := finalState lp64 watcher.replayState ((watchedPlaying.ReplayBuf.pkts.drop 0).take (m - 0)) } ∧
          directsTo 200 t.out = directsTo 200 watchedPlaying.out ++
            (deliveredTo lp64 watcher.replayState
              ((watchedPlaying.ReplayBuf.pkts.drop 0).take (m - 0))).map
              (fun q => (q.code, payload q))) :=
  ⟨by decide,
   (no_live_before_snapshot lp64 sampleServer [1000000, 3000000] watchedPlaying 0 200 watcher
    (by decide) (by decide) (by decide) (by decide) (by decide) (by decide) (by decide)).1⟩

/-- What `resetStates` sends to each playing observer: the team update and the
replay reset message. -/
def resetDirects (K : Consts) (E : Server) : List (Nat × List Nat) :=
  [(K.MsgTeamUpdate, nboPackUByte E.team.length ++
      ((indexed 0 E.team).map (fun e => nboPackUShort e.1 ++ e.2)).flatten),
   (K.MsgReplayReset, nboPackUByte K.MaxPlayers)]

/-- A packet that is not hidden. -/
def isShown (K : Consts) (p : RRpacket) : Bool := decide (p.mode ≠ K.HiddenPacket)

/-- A live packet. -/
def isLive (K : Consts) (p : RRpacket) : Bool := decide (p.mode = K.RealPacket)

/-- A packet that is not live and does not have code `MsgTeamUpdate`: as what
follows the `MsgTeamUpdate` packet within a snapshot. -/
def continuesSnapshot (K : Consts) (p : RRpacket) : Bool :=
  decide (p.mode ≠ K.RealPacket ∧ p.code ≠ K.MsgTeamUpdate)

/-- The packets of a stream an observer starting in ReplayNone is owed by the
handshake, in words: of the packets that are not hidden, nothing up to the
first snapshot start, then that packet and the packets that continue its
snapshot, and after them the live packets only. -/
def bootstrapThenLive (K : Consts) (ps : List RRpacket) : List RRpacket :=
  match (ps.filter (isShown K)).dropWhile (fun p => !decide (isSnapshotStart K p)) with
  | [] => []
  | b :: r => b :: (r.takeWhile (continuesSnapshot K) ++
      (r.dropWhile (continuesSnapshot K)).filter (isLive K))

theorem deliveredTo_stateful_eq (K : Consts) (ps : List RRpacket) :
    deliveredTo K .ReplayStateful ps = (ps.filter (isShown K)).filter (isLive K) := by
  induction ps with
  | nil => rfl
  | cons p ps ih =>
    simp only [deliveredTo, handshakeStep_stateful, List.filter_cons, isShown]
    by_cases hh : p.mode = K.HiddenPacket
    · simp only [hh, if_true, ne_eq, not_true_eq_false, decide_False, Bool.false_eq_true,
        if_false]
      exact ih
    · simp only [hh, if_false, ne_eq, not_false_eq_true, decide_True, if_true, List.filter_cons,
        isLive]
      by_cases hl : p.mode = K.RealPacket
      · have hd : deliverable K p .ReplayStateful := Or.inr ⟨hl, rfl⟩
        simp only [hd, if_true, hl, decide_True]
        exact congrArg (List.cons p) ih
      · have hd : ¬ deliverable K p .ReplayStateful := by
          intro c
          rcases c with ⟨_, c⟩ | ⟨c, _⟩
          · cases c
          · exact hl c
        simp only [hd, if_false, hl, decide_False, Bool.false_eq_true]
        exact ih

theorem deliveredTo_receiving_eq (K : Consts) (ps : List RRpacket) :
    deliveredTo K .ReplayReceiving ps =
      (ps.filter (isShown K)).takeWhile (continuesSnapshot K) ++
        ((ps.filter (isShown K)).dropWhile (continuesSnapshot K)).filter (isLive K) := by
  induction ps with
  | nil => rfl
  | cons p ps ih =>
    simp only [deliveredTo, List.filter_cons, isShown]
    by_cases hh : p.mode = K.HiddenPacket
    · simp only [hh, if_true, ne_eq, not_true_eq_false, decide_False, Bool.false_eq_true,
        if_false]
      exact ih
    · simp only [hh, if_false, ne_eq, not_false_eq_true, decide_True, if_true]
      by_cases hl : p.mode = K.RealPacket
      · have e : handshakeStep K p .ReplayReceiving = .ReplayStateful := by
          simp [handshakeStep, hl]
        have hd : deliverable K p .ReplayStateful := Or.inr ⟨hl, rfl⟩
        have hc : continuesSnapshot K p = false := by simp [continuesSnapshot, hl]
        rw [e, if_pos hd, deliveredTo_stateful_eq, List.takeWhile_cons, List.dropWhile_cons, hc]
        simp [isLive, hl, isShown]
      · have hd : ¬ deliverable K p .ReplayStateful := by
          intro c
          rcases c with ⟨_, c⟩ | ⟨c, _⟩
          · cases c
          · exact hl c
        by_cases ht : p.code = K.MsgTeamUpdate
        · have e : handshakeStep K p .ReplayReceiving = .ReplayStateful := by
            simp [handshakeStep, hl, ht]
          have hc : continuesSnapshot K p = false := by simp [continuesSnapshot, ht]
          rw [e, if_neg hd, deliveredTo_stateful_eq, List.takeWhile_cons, List.dropWhile_cons, hc]
          simp [isLive, hl, isShown]
        · have e : handshakeStep K p .ReplayReceiving = .ReplayReceiving := by
            simp [handshakeStep, hl, ht]
          have hd2 : deliverable K p .ReplayReceiving := Or.inl ⟨hl, rfl⟩
          have hc : continuesSnapshot K p = true := by simp [continuesSnapshot, ht, hl]
          rw [e, if_pos hd2, ih, List.takeWhile_cons, List.dropWhile_cons, hc]
          simp [isShown]

theorem deliveredTo_none_eq (K : Consts) (ps : List RRpacket) :
    deliveredTo K .ReplayNone ps = bootstrapThenLive K ps := by
  induction ps with
  | nil => rfl
  | cons p ps ih =>
    unfold bootstrapThenLive at ih ⊢
    simp only [deliveredTo, List.filter_cons, isShown] at ih ⊢
    by_cases hh : p.mode = K.HiddenPacket
    · simp only [hh, if_true, ne_eq, not_true_eq_false, decide_False, Bool.false_eq_true,
        if_false]
      exact ih
    · simp only [hh, if_false, ne_eq, not_false_eq_true, decide_True, if_true]
      by_cases hb : p.mode ≠ K.RealPacket ∧ p.code = K.MsgTeamUpdate
      · have e : handshakeStep K p .ReplayNone = .ReplayReceiving := by
          simp [handshakeStep, hb.1, hb.2]
        have hd : deliverable K p .ReplayReceiving := Or.inl ⟨hb.1, rfl⟩
        have hs : isSnapshotStart K p := ⟨hh, hb.1, hb.2⟩
        rw [e, if_pos hd, deliveredTo_receiving_eq, List.dropWhile_cons]
        simp [hs, isShown]
      · have e : handshakeStep K p .ReplayNone = .ReplayNone := by
          unfold handshakeStep
          rw [if_neg (fun c => hb ⟨c.1, c.2.1⟩), if_neg (fun c => by cases c.2.2),
            if_neg (fun c => by cases c.2)]
        have hd : ¬ deliverable K p .ReplayNone := by
          intro c
          rcases c with ⟨_, c⟩ | ⟨_, c⟩ <;> cases c
        have hs : ¬ isSnapshotStart K p := fun c => hb ⟨c.2.1, c.2.2⟩
        rw [e, if_neg hd, List.dropWhile_cons]
        simp only [hs, decide_False, Bool.not_false, if_true]
        exact ih

theorem resets_gt (i : Nat) (c : Nat) (d : List Nat) (l : List PlayerInfo) :
    ∀ start, i < start →
      directsTo i ((((indexed start l).filter (fun e => e.2.playing)).map (fun e => e.1)).map
        (fun j => Output.direct j c d)) = [] := by
  induction l with
  | nil => intro start _; rfl
  | cons a l ih =>
    intro start h
    simp only [indexed, List.filter_cons]
    split
    · simp only [List.map_cons]
      have e : directsTo i (Output.direct start c d :: (((indexed (start + 1) l).filter
          (fun e => e.2.playing)).map (fun e => e.1)).map (fun j => Output.direct j c d)) =
          directsTo i ((((indexed (start + 1) l).filter
          (fun e => e.2.playing)).map (fun e => e.1)).map (fun j => Output.direct j c d)) := by
        have hne : start ≠ i := by omega
        simp [directsTo, hne]
      rw [e]
      exact ih (start + 1) (by omega)
    · exact ih (start + 1) (by omega)

theorem resets_hit (i : Nat) (c : Nat) (d : List Nat) (pl : PlayerInfo)
    (hplay : pl.playing = true) (l : List PlayerInfo) :
    ∀ start, start ≤ i → l[i - start]? = some pl →
      directsTo i ((((indexed start l).filter (fun e => e.2.playing)).map (fun e => e.1)).map
        (fun j => Output.direct j c d)) = [(c, d)] := by
  induction l with
  | nil => intro start _ h; simp at h
  | cons a l ih =>
    intro start hle hget
    simp only [indexed, List.filter_cons]
    by_cases he : start = i
    · subst he
      simp only [Nat.sub_self, List.getElem?_cons_zero, Option.some.injEq] at hget
      rw [hget]
      simp only [hplay, if_true, List.map_cons]
      have e : directsTo start (Output.direct start c d :: (((indexed (start + 1) l).filter
          (fun e => e.2.playing)).map (fun e => e.1)).map (fun j => Output.direct j c d)) =
          (c, d) :: directsTo start ((((indexed (start + 1) l).filter
          (fun e => e.2.playing)).map (fun e => e.1)).map (fun j => Output.direct j c d)) := by
        simp [directsTo]
      rw [e, resets_gt start c d l (start + 1) (by omega)]
    · have hget2 : l[i - (start + 1)]? = some pl := by
        have e : i - start = (i - (start + 1)) + 1 := by omega
        rw [e, List.getElem?_cons_succ] at hget
        exact hget
      split
      · simp only [List.map_cons]
        have e : directsTo i (Output.direct start c d :: (((indexed (start + 1) l).filter
            (fun e => e.2.playing)).map (fun e => e.1)).map (fun j => Output.direct j c d)) =
            directsTo i ((((indexed (start + 1) l).filter
            (fun e => e.2.playing)).map (fun e => e.1)).map (fun j => Output.direct j c d)) := by
          simp [directsTo, he]
        rw [e]
        exact ih (start + 1) (by omega) hget2
      · exact ih (start + 1) (by omega) hget2

/-- What `resetStates` does for a playing observer in slot `i`: it is sent the
two reset messages and is put in ReplayNone. -/
theorem resetStates_observer (K : Consts) (E : Server) (s : State) (i : Nat) (pl : PlayerInfo)
    (hi : K.MaxPlayers ≤ i) (hget : s.player[i]? = some pl) (hplay : pl.playing = true) :
    (resetStates K E s).player[i]? = some { pl with replayState := .ReplayNone } ∧
    directsTo i (resetStates K E s).out = directsTo i s.out ++ resetDirects K E := by
  have hlen : i < s.player.length := by
    by_contra hc
    rw [List.getElem?_eq_none (by omega)] at hget
    simp at hget
  have htake : (s.player.take K.MaxPlayers).length = K.MaxPlayers := by
    rw [List.length_take]; omega
  have hdrop : (s.player.drop K.MaxPlayers)[i - K.MaxPlayers]? = some pl := by
    rw [List.getElem?_drop, ← hget]
    congr 1
    omega
  refine ⟨?_, ?_⟩
  · show (clearReplayStates K s.player)[i]? = _
    unfold clearReplayStates
    rw [List.getElem?_append_right (by rw [htake]; exact hi), htake, List.getElem?_map, hdrop]
    rfl
  · unfold resetStates playingObservers resetDirects
    simp only [directsTo_append]
    rw [resets_hit i _ _ pl hplay _ K.MaxPlayers hi hdrop,
      resets_hit i _ _ pl hplay _ K.MaxPlayers hi hdrop, List.append_assoc]
    rfl

/-- A server in replay mode whose record directory holds the sample recording,
with one observer in slot 200. -/
def watchedServer : State :=
  { replayServer ['r'] sampleRecording with player := List.replicate 200 default ++ [watcher] }

/-- The session `Replay::loadFile` of the sample recording leaves on that server. -/
def watchedLoaded : State := (Replay.loadFile lp64 sampleServer watchedServer 200 ['r']).2

/-- That session after `Replay::play` with the clock at 0. -/
def watchedStarted : State :=
  match Replay.play lp64 sampleServer 0 watchedLoaded 200 with
  | some r => r.2
  | none => watchedLoaded

/-- That session after a `Replay::sendPackets` with the clock at 200 seconds. -/
def watchedFinished : State :=
  match Replay.sendPackets lp64 sampleServer 200000000 watchedStarted with
  | some r => r.2
  | none => watchedStarted

/-- C22, counterexample. The sample recording (three snapshots of two packets
at 0, 5 and 100 seconds, each followed by a live message; nothing hidden) is
loaded with an observer in slot 200, played, and sent with the clock at 200
seconds, which ends the stream. Of the nine packets the observer is sent five:
the first snapshot and the three live messages. The packets of the snapshots
of 5 and 100 seconds are not delivered. -/
theorem later_snapshots_are_not_delivered :
    (Replay.loadFile lp64 sampleServer watchedServer 200 ['r']).1 = true ∧
    Replay.play lp64 sampleServer 0 watchedLoaded 200 = some (true, watchedStarted) ∧
    Replay.sendPackets lp64 sampleServer 200000000 watchedStarted = some (false, watchedFinished) ∧
    (watchedLoaded.ReplayBuf.pkts.filter (isShown lp64)).map
        (fun q => (q.mode, q.code, q.timestamp)) =
      [(1, 0x7475, 0), (1, 0x7376, 0), (0, 0x6d73, 2000000),
       (1, 0x7475, 5000000), (1, 0x7376, 5000000), (0, 0x6d73, 7000000),
       (1, 0x7475, 100000000), (1, 0x7376, 100000000), (0, 0x6d73, 101000000)] ∧
    (directsTo 200 watchedFinished.out).drop (directsTo 200 watchedStarted.out).length =
      [(0x7475, [0]), (0x7376, [0, 0]), (0x6d73, [1]), (0x6d73, [2]), (0x6d73, [3])] ++
        resetDirects lp64 sampleServer := by
  decide

/-- `Replay::play` on a loaded session with the cursor on the oldest packet. -/
theorem play_loaded (K : Consts) (E : Server) (now : Int) (s : State) (playerIndex : Nat)
    (t0 : RRpacket) (rest : List RRpacket)
    (hmode : s.ReplayMode = true) (hfile : s.ReplayFile ≠ none)
    (hpos : s.ReplayPos = some 0) (hbuf : s.ReplayBuf.pkts = t0 :: rest) :
    Replay.play K E now s playerIndex = some (true, sendMessage
      (resetStates K E { s with Replaying := true, ReplayOffset := now - t0.timestamp })
      (some playerIndex) "Starting replay") := by
  unfold Replay.play
  simp only [hmode, hfile, Bool.true_eq_false, if_false, hbuf, List.head?_cons, hpos]

/-- C22, amended. Complete replay up to the handshake. From a session as a
successful load leaves it (replay mode, a file open, the cursor on the oldest
packet) `Replay::play` returns true and a run of `Replay::sendPackets` never
fails; when the run has reached the end of the stream, the cursor is back on
the oldest packet, the buffer is as loaded, and a playing observer in slot `i`
has been sent, in this order: the two reset messages of play, the packets of
`bootstrapThenLive` (of the packets that are not hidden: nothing up to the first
non-live `MsgTeamUpdate` packet, then that packet and the non-live packets that
continue its snapshot, and from there on the live packets only), each with its
code and payload, and the two reset messages of the end of the stream. These
packets are in the order of the stream, each position at most once, and the
first of them starts a snapshot. -/
theorem complete_replay_up_to_handshake (K : Consts) (E : Server) (now : Int) (nows : List Int)
    (s : State) (playerIndex i : Nat) (pl : PlayerInfo) (t0 : RRpacket) (rest : List RRpacket)
    (hmode : s.ReplayMode = true) (hfile : s.ReplayFile ≠ none)
    (hpos : s.ReplayPos = some 0) (hbuf : s.ReplayBuf.pkts = t0 :: rest)
    (hi : K.MaxPlayers ≤ i) (hget : s.player[i]? = some pl) (hplay : pl.playing = true) :
    ∃ s1 u, Replay.play K E now s playerIndex = some (true, s1) ∧
      sendRun K E nows s1 = some u ∧
      (u.Replaying = false →
        u.ReplayPos = some 0 ∧ u.ReplayBuf = s.ReplayBuf ∧
        u.player[i]? = some { pl with replayState := .ReplayNone } ∧
        directsTo i u.out = directsTo i s.out ++ resetDirects K E ++
          (bootstrapThenLive K (t0 :: rest)).map (fun q => (q.code, payload q)) ++
          resetDirects K E) ∧
      (bootstrapThenLive K (t0 :: rest)).Sublist ((t0 :: rest).filter (isShown K)) ∧
      (∀ p ps, bootstrapThenLive K (t0 :: rest) = p :: ps → isSnapshotStart K p) := by
  have hp := play_loaded K E now s playerIndex t0 rest hmode hfile hpos hbuf
  obtain ⟨p1, p2⟩ := resetStates_observer K E
    { s with Replaying := true, ReplayOffset := now - t0.timestamp } i pl hi hget hplay
  generalize hs1 : sendMessage
      (resetStates K E { s with Replaying := true, ReplayOffset := now - t0.timestamp })
      (some playerIndex) "Starting replay" = s1 at hp
  have q1 : s1.ReplayMode = true := by rw [← hs1]; exact hmode
  have q2 : s1.Replaying = true := by rw [← hs1]; rfl
  have q3 : s1.ReplayPos = some 0 := by rw [← hs1]; exact hpos
  have q4 : s1.ReplayBuf = s.ReplayBuf := by rw [← hs1]; rfl
  have q5 : s1.player[i]? = some { pl with replayState := .ReplayNone } := by
    rw [← hs1]; exact p1
  have q6 : directsTo i s1.out = directsTo i s.out ++ resetDirects K E := by
    rw [← hs1]
    show directsTo i (_ ++ [Output.message _ _]) = _
    rw [directsTo_message]
    exact p2
  have hlen : 0 < s1.ReplayBuf.pkts.length := by rw [q4, hbuf]; simp
  obtain ⟨u, eu, hu⟩ := sendRun_trace K E nows s1 0 q1 q2 q3 hlen
  refine ⟨s1, u, hp, eu, ?_, ?_, ?_⟩
  · intro hstop
    rcases hu with ⟨m, _, _, _, urep, _⟩ | ⟨_, upos, usim⟩
    · rw [hstop] at urep
      cases urep
    · rw [List.drop_zero, q4, hbuf] at usim
      obtain ⟨a, b⟩ := handleAll_observer K i hi (t0 :: rest) s1 _ q5 hplay
      obtain ⟨c, d⟩ := resetStates_observer K E (handleAll K (t0 :: rest) s1) i _ hi a hplay
      refine ⟨upos, ?_, ?_, ?_⟩
      · rw [usim.2.2.1]
        show (handleAll K (t0 :: rest) s1).ReplayBuf = _
        rw [(handleAll_frame K _ s1).2.2.2.1, q4]
      · rw [usim.1, c]
      · rw [usim.2.2.2.2.2.2 i, d, b, q6]
        show _ ++ _ ++ (deliveredTo K .ReplayNone (t0 :: rest)).map _ ++ _ = _
        rw [deliveredTo_none_eq]
  · rw [← deliveredTo_none_eq]
    exact deliveredTo_sublist K (t0 :: rest) .ReplayNone
  · intro p ps h
    rw [← deliveredTo_none_eq] at h
    exact deliveredTo_none_head K (t0 :: rest) p ps h

/-- C22 at a concrete input: the sample recording loaded with an observer in slot
200, played from time 0 and sent at 1, 3 and 200 seconds. -/
theorem complete_replay_up_to_handshake_witness :
    (bootstrapThenLive lp64 watchedLoaded.ReplayBuf.pkts).map (fun q => (q.code, payload q)) =
      [(0x7475, [0]), (0x7376, [0, 0]), (0x6d73, [1]), (0x6d73, [2]), (0x6d73, [3])] ∧
    ∃ s1 u, Replay.play lp64 sampleServer 0 watchedLoaded 200 = some (true, s1) ∧
      sendRun lp64 sampleServer [1000000, 3000000, 200000000] s1 = some u ∧
      (u.Replaying = false →
        u.ReplayPos = some 0 ∧ u.ReplayBuf = watchedLoaded.ReplayBuf ∧
        u.player[200]? = some { watcher with replayState := .ReplayNone } ∧
        directsTo 200 u.out = directsTo 200 watchedLoaded.out ++ resetDirects lp64 sampleServer ++
          (bootstrapThenLive lp64 (firstUpdatePacket ::
            watchedLoaded.ReplayBuf.pkts.drop 1)).map (fun q => (q.code, payload q)) ++
          resetDirects lp64 sampleServer) ∧
      (bootstrapThenLive lp64 (firstUpdatePacket ::
        watchedLoaded.ReplayBuf.pkts.drop 1)).Sublist
        ((firstUpdatePacket :: watchedLoaded.ReplayBuf.pkts.drop 1).filter
          (isShown lp64)) ∧
      (∀ p ps, bootstrapThenLive lp64 (firstUpdatePacket ::
        watchedLoaded.ReplayBuf.pkts.drop 1) = p :: ps → isSnapshotStart lp64 p) :=
  ⟨by decide,
   complete_replay_up_to_handshake lp64 sampleServer 0 [1000000, 3000000, 200000000]
    watchedLoaded 200 200 watcher firstUpdatePacket
    (watchedLoaded.ReplayBuf.pkts.drop 1)
    (by decide) (by decide) (by decide) (by decide) (by decide) (by decide) (by decide)⟩

/-- A buffered recording with an empty buffer on a server whose configuration
table is `db`. -/
def varSession (db : List (List Nat × List Nat)) : State :=
  { initialState with Recording := true, BZDB := db }

/-- C25, failing input. With the one-pair table g = 1 (encoded pair: 4 bytes)
`saveVariablesState` emits one `MsgSetVar` state packet whose recorded length is
4, not 2 + 4 = 6: `pvd.len` starts at 0 although the count field is already in
the buffer. The payload kept is the count and the first two bytes of the pair,
and `setVariables` on it sets g to the empty string. With the two-pair table
g = 1, hi = 23 the recorded length is 10, not 12, and the value of the last
pair is lost in the same way. -/
theorem first_variables_packet_is_two_bytes_short :
    (saveVariablesState lp64 0 (varSession [([103], [49])])).RecordBuf.pkts.map
        (fun q => (q.mode, q.code, q.len, q.data)) = [(1, 0x7376, 4, [0, 1, 1, 103])] ∧
    (saveVariablesState lp64 0 (varSession [([103], [49])])).RecordBuf.pkts.foldl
        (fun db q => setVarsDb db q.data) [] = [([103], [])] ∧
    (saveVariablesState lp64 0 (varSession [([103], [49]), ([104, 105], [50, 51])])).RecordBuf.pkts.map
        (fun q => (q.mode, q.code, q.len, q.data)) =
      [(1, 0x7376, 10, [0, 2, 1, 103, 1, 49, 2, 104, 105, 2])] ∧
    (saveVariablesState lp64 0 (varSession [([103], [49]), ([104, 105], [50, 51])])).RecordBuf.pkts.foldl
        (fun db q => setVarsDb db q.data) [] = [([103], [49]), ([104, 105], [])] := by
  decide

/-- C27 at a concrete input: the byte-budget scenario after nine pushes (1000 of
1024 bytes, the snapshot packet oldest) and a tenth, live packet of 100 bytes:
the round removes the snapshot packet and nothing else. -/
theorem eviction_round_witness :
    (routePacket lp64 0 (afterPushes 9) 0x6d73 60 (List.replicate 60 7) 0).1 = true ∧
    (routePacket lp64 0 (afterPushes 9) 0x6d73 60 (List.replicate 60 7) 0).2.RecordBuf.pkts =
      (afterPushes 9).RecordBuf.pkts.drop 1 ++ [newPacket 0 0x6d73 60 (List.replicate 60 7) 0] :=
  have h := eviction_round lp64 0 (afterPushes 9) 0x6d73 60 (List.replicate 60 7) 0 rfl
    (by decide) (by decide)
  ⟨h.1, (h.2.2 (by decide)).1 [] ((afterPushes 9).RecordBuf.pkts.getD 0 default)
    ((afterPushes 9).RecordBuf.pkts.drop 1 ++ [newPacket 0 0x6d73 60 (List.replicate 60 7) 0])
    (by decide) (by simp) (by decide) (by decide)⟩

/-! ## The cursor between the operations of Replay -/

/-- The cursor `ReplayPos` is a packet of `ReplayBuf`. -/
def cursorOnPacket (s : State) : Bool :=
  match s.ReplayPos with
  | some c => decide (c < s.ReplayBuf.pkts.length)
  | none => false

/-- The invariant of the replay variables: with a file open the buffer is not
empty and the cursor is one of its packets; a session that is playing is in
replay mode with a file open. -/
def ReplayInv (s : State) : Prop :=
  (s.ReplayFile ≠ none → s.ReplayBuf.pkts ≠ [] ∧ cursorOnPacket s = true) ∧
  (s.Replaying = true → s.ReplayMode = true ∧ s.ReplayFile ≠ none)

/-- The public operations of Replay that change the state, with their arguments
and the clock reading they take; `outside w` is anything else that happens on
the server between two of them: every variable but the six replay variables
takes the value it has in `w`. -/
inductive ReplayOp where
  | init
  | kill
  | loadFile (playerIndex : Nat) (filename : List Char)
  | play (now : Int) (playerIndex : Nat)
  | skip (now : Int) (playerIndex : Nat) (seconds : Int)
  | sendPackets (now : Int)
  | outside (w : State)

/-- One operation; `none` when it reads through a bad pointer. -/
def replayStep (K : Consts) (E : Server) : ReplayOp → State → Option State
  | .init, s => some (Replay.init K s).2
  | .kill, s => some (Replay.kill K s).2
  | .loadFile playerIndex filename, s => some (Replay.loadFile K E s playerIndex filename).2
  | .play now playerIndex, s => (Replay.play K E now s playerIndex).map Prod.snd
  | .skip now playerIndex seconds, s => (Replay.skip K E now s playerIndex seconds).map Prod.snd
  | .sendPackets now, s => (Replay.sendPackets K E now s).map Prod.snd
  | .outside w, s =>
    some { w with ReplayMode := s.ReplayMode, Replaying := s.Replaying, ReplayFile := s.ReplayFile, ReplayBuf := s.ReplayBuf, ReplayPos := s.ReplayPos, ReplayOffset := s.ReplayOffset }

/-- A sequence of operations. -/
def runOps (K : Consts) (E : Server) : List ReplayOp → State → Option State
  | [], s => some s
  | op :: rest, s =>
    match replayStep K E op s with
    | none => none
    | some t => runOps K E rest t

theorem cursorOnPacket_iff (s : State) :
    cursorOnPacket s = true ↔ ∃ c, s.ReplayPos = some c ∧ c < s.ReplayBuf.pkts.length := by
  unfold cursorOnPacket
  cases h : s.ReplayPos with
  | none => simp
  | some c => simp

theorem replayInv_of_frame (s t : State) (h : ReplayInv s)
    (h1 : t.ReplayFile = s.ReplayFile) (h2 : t.ReplayBuf = s.ReplayBuf)
    (h3 : t.ReplayPos = s.ReplayPos) (h4 : t.Replaying = s.Replaying)
    (h5 : t.ReplayMode = s.ReplayMode) : ReplayInv t := by
  unfold ReplayInv cursorOnPacket at h ⊢
  rw [h1, h2, h3, h4, h5]
  exact h

theorem replayInv_closed (s : State) (h1 : s.ReplayFile = none) (h2 : s.Replaying = false) :
    ReplayInv s := by
  refine ⟨fun c => absurd h1 c, fun c => ?_⟩
  rw [h2] at c
  cases c

theorem replayInv_reset (K : Consts) (s : State) : ReplayInv (replayReset K s) :=
  replayInv_closed _ rfl rfl

theorem replayInv_loaded (s : State) (h1 : s.ReplayPos = some 0) (h2 : s.ReplayBuf.pkts ≠ [])
    (h3 : s.Replaying = false) : ReplayInv s := by
  refine ⟨fun _ => ⟨h2, ?_⟩, fun c => ?_⟩
  · rw [cursorOnPacket_iff]
    exact ⟨0, h1, List.length_pos.2 h2⟩
  · rw [h3] at c
    cases c

/-- What `Replay::loadFile` leaves: the state it was called in with a message
added, or no file open and not playing, or the cursor on the oldest packet of
a buffer that is not empty and not playing. -/
theorem loadFile_post (K : Consts) (E : Server) (s : State) (playerIndex : Nat)
    (filename : List Char) :
    (∃ text, (Replay.loadFile K E s playerIndex filename).2 =
      sendMessage s (some playerIndex) text) ∨
    ((Replay.loadFile K E s playerIndex filename).2.ReplayFile = none ∧
      (Replay.loadFile K E s playerIndex filename).2.Replaying = false) ∨
    ((Replay.loadFile K E s playerIndex filename).2.ReplayPos = some 0 ∧
      (Replay.loadFile K E s playerIndex filename).2.ReplayBuf.pkts ≠ [] ∧
      (Replay.loadFile K E s playerIndex filename).2.Replaying = false) := by
  have hrep : ¬ (replayReset K s).Replaying = true := by simp [replayReset]
  by_cases hmode : s.ReplayMode = true
  · by_cases hname : badFilename filename = true
    · left
      unfold Replay.loadFile
      simp only [hmode, hname, Bool.not_true, Bool.false_eq_true, if_false, if_true]
      exact ⟨_, rfl⟩
    · have hname2 : badFilename filename = false := by
        cases hb : badFilename filename
        · rfl
        · exact absurd hb hname
      cases hopen : openFileRead (replayReset K s) filename with
      | none =>
        right; left
        unfold Replay.loadFile
        simp only [hmode, hname2, Bool.not_true, Bool.false_eq_true, if_false]
        rw [if_neg hrep]
        simp only [hopen]
        exact ⟨rfl, rfl⟩
      | some f =>
        cases hhdr : loadHeader K E { replayReset K s with ReplayFile := some f } with
        | mk oh s4 =>
          have hs4 : s4.Replaying = false ∧ s4.ReplayOffset = 0 := by
            have e := loadHeader_state K E { replayReset K s with ReplayFile := some f }
            rw [hhdr] at e
            simp only at e
            rw [e]
            exact ⟨rfl, rfl⟩
          simp only at hhdr
          cases oh with
          | none =>
            right; left
            unfold Replay.loadFile
            simp only [hmode, hname2, Bool.not_true, Bool.false_eq_true, if_false]
            rw [if_neg hrep]
            simp only [hopen, hhdr]
            exact ⟨trivial, hs4.1⟩
          | some h =>
            by_cases hmagic : h.magic = ReplayMagic
            · rw [loadFile_after_header K E s playerIndex filename f h s4 hmode hname2 hopen hhdr
                hmagic]
              obtain ⟨hrep5, _, _⟩ := preload_frame K (bytesLeft s4 + 1) s4 hs4.1 hs4.2
              generalize preload K (bytesLeft s4 + 1) s4 = s5 at hrep5 ⊢
              by_cases hl : s5.ReplayBuf.pkts = []
              · have ht : s5.ReplayBuf.tail = none := by simp [RRbuffer.tail, hl]
                rw [if_pos ht]
                exact Or.inr (Or.inl ⟨rfl, rfl⟩)
              · have ht : s5.ReplayBuf.tail = some 0 := by simp [RRbuffer.tail, hl]
                rw [if_neg (by rw [ht]; simp), ht]
                have hiff := preloadVariables_true K { s5 with ReplayPos := some 0 }
                by_cases hv : (preloadVariables K { s5 with ReplayPos := some 0 }).1 = true
                · rw [hv, Bool.not_true, if_neg Bool.false_ne_true]
                  obtain ⟨pre, p, post, h1, h2, h3, h4⟩ := hiff.1 hv
                  rw [preloadVariables_state K { s5 with ReplayPos := some 0 } pre p post h1 h2
                    h3 h4]
                  exact Or.inr (Or.inr ⟨rfl, hl, hrep5⟩)
                · have hv2 : (preloadVariables K { s5 with ReplayPos := some 0 }).1 = false := by
                    cases hb : (preloadVariables K { s5 with ReplayPos := some 0 }).1
                    · rfl
                    · exact absurd hb hv
                  rw [hv2, Bool.not_false, if_pos rfl]
                  exact Or.inr (Or.inl ⟨rfl, rfl⟩)
            · right; left
              unfold Replay.loadFile
              simp only [hmode, hname2, Bool.not_true, Bool.false_eq_true, if_false]
              rw [if_neg hrep]
              simp only [hopen, hhdr, ne_eq, hmagic, not_false_eq_true, if_true]
              exact ⟨trivial, hs4.1⟩
  · left
    have hm : s.ReplayMode = false := by
      cases hb : s.ReplayMode
      · rfl
      · exact absurd hb hmode
    unfold Replay.loadFile
    simp only [hm, Bool.not_false, if_true]
    exact ⟨_, rfl⟩

/-- The loop of `Replay::sendPackets` never ends in its branch for a null cursor:
`Replay::nextTime` is not below 0 when the cursor is null. -/
theorem sendDue_never_null (K : Consts) (E : Server) (now : Int) (fuel : Nat) :
    ∀ (sent : Bool) (s t : State), Replay.sendDue K E now fuel sent s ≠ some (none, t) := by
  induction fuel with
  | zero =>
    intro sent s t h
    simp [Replay.sendDue] at h
  | succ n ih =>
    intro sent s t h
    unfold Replay.sendDue at h
    cases hn : Replay.nextTime now s with
    | none => rw [hn] at h; simp at h
    | some d =>
      rw [hn] at h
      simp only at h
      by_cases hd : d < 0
      · rw [if_pos hd] at h
        cases hp : s.ReplayPos with
        | none =>
          have e : Replay.nextTime now s = some 1000000000 := by
            unfold Replay.nextTime
            split
            · rfl
            · rw [hp]
          rw [e] at hn
          simp only [Option.some.injEq] at hn
          omega
        | some i =>
          rw [hp] at h
          simp only at h
          cases hq : s.ReplayBuf.pkts[i]? with
          | none => rw [hq] at h; simp at h
          | some p =>
            rw [hq] at h
            exact ih _ _ _ h
      · rw [if_neg hd] at h
        simp at h

theorem bool_false_of_not_true (b : Bool) (h : ¬ b = true) : b = false := by
  cases b
  · rfl
  · exact absurd rfl h

/-- `Replay::play` under the invariant: it returns, and keeps the invariant. -/
theorem play_inv (K : Consts) (E : Server) (now : Int) (s : State) (playerIndex : Nat)
    (h : ReplayInv s) :
    ∃ r t, Replay.play K E now s playerIndex = some (r, t) ∧ ReplayInv t := by
  by_cases hmode : s.ReplayMode = true
  · by_cases hfile : s.ReplayFile = none
    · refine ⟨false, sendMessage s (some playerIndex) "No replay file loaded", ?_,
        replayInv_of_frame s _ h rfl rfl rfl rfl rfl⟩
      unfold Replay.play
      simp [hmode, hfile]
    · obtain ⟨hne, hc⟩ := h.1 hfile
      obtain ⟨c, hpos, hlt⟩ := (cursorOnPacket_iff s).1 hc
      obtain ⟨t0, rest, hbuf⟩ := List.exists_cons_of_ne_nil hne
      refine ⟨true, sendMessage
        (resetStates K E { s with Replaying := true, ReplayOffset := now - t0.timestamp })
        (some playerIndex) "Starting replay", ?_, ?_⟩
      · unfold Replay.play
        simp only [hmode, hfile, Bool.true_eq_false, if_false, hbuf, List.head?_cons, hpos]
      · refine ⟨fun _ => ⟨hne, ?_⟩, fun _ => ⟨hmode, hfile⟩⟩
        rw [cursorOnPacket_iff]
        exact ⟨c, hpos, hlt⟩
  · refine ⟨false, sendMessage s (some playerIndex) "Server is not in replay mode", ?_,
      replayInv_of_frame s _ h rfl rfl rfl rfl rfl⟩
    unfold Replay.play
    simp [bool_false_of_not_true _ hmode]

/-- `Replay::skip` under the invariant: it returns and keeps the invariant; it
returns true in replay mode with a file open, and false only with one of its
first two messages. -/
theorem skip_inv (K : Consts) (E : Server) (now : Int) (s : State) (playerIndex : Nat)
    (seconds : Int) (h : ReplayInv s) :
    ∃ r t, Replay.skip K E now s playerIndex seconds = some (r, t) ∧ ReplayInv t ∧
      (s.ReplayMode = true → s.ReplayFile ≠ none → r = true) ∧
      (r = false → t = sendMessage s (some playerIndex) "Server is not in replay mode" ∨
        t = sendMessage s (some playerIndex) "No replay file loaded") := by
  by_cases hmode : s.ReplayMode = true
  · cases hfile : s.ReplayFile with
    | none =>
      refine ⟨false, sendMessage s (some playerIndex) "No replay file loaded", ?_,
        replayInv_of_frame s _ h rfl rfl rfl rfl rfl, fun _ c => absurd rfl c,
        fun _ => Or.inr rfl⟩
      unfold Replay.skip
      simp [hmode, hfile]
    | some f =>
      have hf : s.ReplayFile ≠ none := by rw [hfile]; simp
      obtain ⟨hne, hc⟩ := h.1 hf
      obtain ⟨c, hpos, hlt⟩ := (cursorOnPacket_iff s).1 hc
      have e := skip_eq K E now s playerIndex seconds c hmode hf hpos hlt
      obtain ⟨f1, f2, f3, f4, _⟩ := skip_frame K E s (skipTarget K now s c seconds) c
        (now - (s.ReplayBuf.pkts.getD (skipTarget K now s c seconds) default).timestamp)
        (some playerIndex)
        (skipReport (s.ReplayOffset - (now -
          (s.ReplayBuf.pkts.getD (skipTarget K now s c seconds) default).timestamp)) seconds)
      have hpos2 : (sendMessage
          { (if skipTarget K now s c seconds ≠ c then resetStates K E s else s) with
            ReplayOffset :=
              now - (s.ReplayBuf.pkts.getD (skipTarget K now s c seconds) default).timestamp,
            ReplayPos := some (skipTarget K now s c seconds) }
          (some playerIndex)
          (skipReport (s.ReplayOffset - (now -
            (s.ReplayBuf.pkts.getD (skipTarget K now s c seconds) default).timestamp))
            seconds)).ReplayPos = some (skipTarget K now s c seconds) := rfl
      generalize sendMessage
          { (if skipTarget K now s c seconds ≠ c then resetStates K E s else s) with
            ReplayOffset :=
              now - (s.ReplayBuf.pkts.getD (skipTarget K now s c seconds) default).timestamp,
            ReplayPos := some (skipTarget K now s c seconds) }
          (some playerIndex)
          (skipReport (s.ReplayOffset - (now -
            (s.ReplayBuf.pkts.getD (skipTarget K now s c seconds) default).timestamp))
            seconds) = t at e f1 f2 f3 f4 hpos2
      refine ⟨true, t, e, ?_, fun _ _ => rfl, fun c => by cases c⟩
      refine ⟨fun _ => ⟨by rw [f3]; exact hne, ?_⟩, fun c => ?_⟩
      · rw [cursorOnPacket_iff]
        refine ⟨_, hpos2, ?_⟩
        rw [f3]
        exact (skipTarget_spec K now s c seconds hlt).1
      · rw [f1, f2]
        exact ⟨hmode, hf⟩
  · refine ⟨false, sendMessage s (some playerIndex) "Server is not in replay mode", ?_,
      replayInv_of_frame s _ h rfl rfl rfl rfl rfl, fun c => absurd c hmode,
      fun _ => Or.inl rfl⟩
    unfold Replay.skip
    simp [bool_false_of_not_true _ hmode]

/-- `Replay::sendPackets` under the invariant: it returns, and keeps the
invariant. -/
theorem sendPackets_inv (K : Consts) (E : Server) (now : Int) (s : State) (h : ReplayInv s) :
    ∃ r t, Replay.sendPackets K E now s = some (r, t) ∧ ReplayInv t := by
  by_cases hrep : s.Replaying = true
  · obtain ⟨hmode, hf⟩ := h.2 hrep
    obtain ⟨hne, hc⟩ := h.1 hf
    obtain ⟨c, hpos, hlt⟩ := (cursorOnPacket_iff s).1 hc
    obtain ⟨r, t, e, ht⟩ := sendPackets_step K E now s c hmode hrep hpos hlt
    refine ⟨r, t, e, ?_⟩
    rcases ht with ⟨n, hn, _, tpos, _, tsim⟩ | ⟨_, trep, tpos, tsim⟩
    · obtain ⟨g1, _, _, g4, g5, _⟩ := handleAll_frame K ((s.ReplayBuf.pkts.drop c).take n) s
      have b : t.ReplayBuf = s.ReplayBuf := by rw [tsim.2.2.1, g4]
      refine ⟨fun _ => ⟨by rw [b]; exact hne, ?_⟩, fun _ => ⟨?_, ?_⟩⟩
      · rw [cursorOnPacket_iff]
        exact ⟨_, tpos, by rw [b]; exact hn⟩
      · rw [tsim.2.2.2.2.1, g1, hmode]
      · rw [tsim.2.2.2.2.2.1, g5]
        exact hf
    · obtain ⟨_, _, _, g4, _, _⟩ := handleAll_frame K (s.ReplayBuf.pkts.drop c) s
      have b : t.ReplayBuf = s.ReplayBuf := by
        rw [tsim.2.2.1]
        show (handleAll K _ s).ReplayBuf = _
        rw [g4]
      exact replayInv_loaded t tpos (by rw [b]; exact hne) trep
  · refine ⟨false, s, ?_, h⟩
    unfold Replay.sendPackets
    rw [if_pos (bool_false_of_not_true _ hrep)]

/-- Every operation returns under the invariant and keeps it. -/
theorem replayStep_inv (K : Consts) (E : Server) (op : ReplayOp) (s : State) (h : ReplayInv s) :
    ∃ t, replayStep K E op s = some t ∧ ReplayInv t := by
  cases op with
  | init =>
    refine ⟨_, rfl, ?_⟩
    unfold Replay.init
    split
    · exact h
    · exact replayInv_reset K s
  | kill => exact ⟨_, rfl, replayInv_reset K s⟩
  | loadFile playerIndex filename =>
    refine ⟨_, rfl, ?_⟩
    rcases loadFile_post K E s playerIndex filename with ⟨text, e⟩ | ⟨e1, e2⟩ | ⟨e1, e2, e3⟩
    · rw [e]
      exact replayInv_of_frame s _ h rfl rfl rfl rfl rfl
    · exact replayInv_closed _ e1 e2
    · exact replayInv_loaded _ e1 e2 e3
  | play now playerIndex =>
    obtain ⟨r, t, e, ht⟩ := play_inv K E now s playerIndex h
    exact ⟨t, by simp [replayStep, e], ht⟩
  | skip now playerIndex seconds =>
    obtain ⟨r, t, e, ht, _⟩ := skip_inv K E now s playerIndex seconds h
    exact ⟨t, by simp [replayStep, e], ht⟩
  | sendPackets now =>
    obtain ⟨r, t, e, ht⟩ := sendPackets_inv K E now s h
    exact ⟨t, by simp [replayStep, e], ht⟩
  | outside w => exact ⟨_, rfl, replayInv_of_frame s _ h rfl rfl rfl rfl rfl⟩

theorem runOps_inv (K : Consts) (E : Server) (ops : List ReplayOp) :
    ∀ s, ReplayInv s → ∃ t, runOps K E ops s = some t ∧ ReplayInv t := by
  induction ops with
  | nil => intro s h; exact ⟨s, rfl, h⟩
  | cons op rest ih =>
    intro s h
    obtain ⟨t, e, ht⟩ := replayStep_inv K E op s h
    obtain ⟨u, eu, hu⟩ := ih t ht
    refine ⟨u, ?_, hu⟩
    unfold runOps
    rw [e]
    exact eu

/-- C29. Replay cursor validity. The initial state has the invariant `ReplayInv`,
and from any state that has it every sequence of the public operations of
Replay (init, kill, loadFile, play, skip, sendPackets, with anything that
leaves the replay variables alone in between) runs without a read through a
bad pointer and ends in a state where: with a file open, ReplayBuf is not
empty and ReplayPos is one of its packets; `Replay::skip` returns true in replay
mode with a file open and returns false only with one of its first two
messages, never from the branch for a null packet after the scans;
`Replay::sendPackets` returns; and its loop never ends in the branch for a null
cursor. -/
theorem replay_cursor_validity (K : Consts) (E : Server) (s0 : State) (h0 : ReplayInv s0)
    (ops : List ReplayOp) :
    ReplayInv initialState ∧
    ∃ t, runOps K E ops s0 = some t ∧ ReplayInv t ∧
      (t.ReplayFile ≠ none → t.ReplayBuf.pkts ≠ [] ∧
        ∃ c, t.ReplayPos = some c ∧ c < t.ReplayBuf.pkts.length) ∧
      (∀ now playerIndex seconds,
        ∃ r u, Replay.skip K E now t playerIndex seconds = some (r, u) ∧
          (t.ReplayMode = true → t.ReplayFile ≠ none → r = true) ∧
          (r = false → u = sendMessage t (some playerIndex) "Server is not in replay mode" ∨
            u = sendMessage t (some playerIndex) "No replay file loaded")) ∧
      (∀ now, ∃ r u, Replay.sendPackets K E now t = some (r, u)) ∧
      (∀ now fuel sent u, Replay.sendDue K E now fuel sent t ≠ some (none, u)) := by
  refine ⟨replayInv_closed _ rfl rfl, ?_⟩
  obtain ⟨t, e, ht⟩ := runOps_inv K E ops s0 h0
  refine ⟨t, e, ht, ?_, ?_, ?_, ?_⟩
  · intro hf
    obtain ⟨hne, hc⟩ := ht.1 hf
    exact ⟨hne, (cursorOnPacket_iff t).1 hc⟩
  · intro now playerIndex seconds
    obtain ⟨r, u, e1, _, e3, e4⟩ := skip_inv K E now t playerIndex seconds ht
    exact ⟨r, u, e1, e3, e4⟩
  · intro now
    obtain ⟨r, u, e1, _⟩ := sendPackets_inv K E now t ht
    exact ⟨r, u, e1⟩
  · intro now fuel sent u
    exact sendDue_never_null K E now fuel sent t u

/-- The operations of the sample run: load the sample recording, play it, skip
ten seconds ahead, send what is due, let a player table change, skip back. -/
def sampleOps : List ReplayOp :=
  [.loadFile 200 ['r'], .play 0 200, .skip 1000000 200 10, .sendPackets 12000000,
   .outside watchedServer, .skip 13000000 200 (-5)]

/-- C29 at a concrete input: the sample run from the server that holds the
sample recording ends with a file open, nine packets loaded and the cursor on
one of them. -/
theorem replay_cursor_validity_witness :
    ∃ t, runOps lp64 sampleServer sampleOps watchedServer = some t ∧
      t.ReplayFile ≠ none ∧ t.ReplayBuf.pkts.length = 9 ∧ cursorOnPacket t = true ∧
      ReplayInv t := by
  obtain ⟨_, t, e, ht, _⟩ := replay_cursor_validity lp64 sampleServer watchedServer
    (replayInv_closed _ rfl rfl) sampleOps
  have d : (runOps lp64 sampleServer sampleOps watchedServer).map
      (fun t => (t.ReplayFile.isSome, t.ReplayBuf.pkts.length, cursorOnPacket t)) =
      some (true, 9, true) := by decide
  rw [e] at d
  simp only [Option.map_some', Option.some.injEq, Prod.mk.injEq] at d
  refine ⟨t, e, ?_, d.2.1, d.2.2, ht⟩
  intro c
  rw [c] at d
  simp at d

/-- The bytes `packVars` writes for the pairs of a table, in order. -/
def encodePairs (db : List (List Nat × List Nat)) : List Nat :=
  (db.map (fun kv => nboPackUByte kv.1.length ++ nboPackString kv.1 kv.1.length
    ++ nboPackUByte kv.2.length ++ nboPackString kv.2 kv.2.length)).flatten

/-- The sum of the `pairLen` of `packVars` over a table. -/
def pairsLen (db : List (List Nat × List Nat)) : Nat :=
  (db.map (fun kv => kv.1.length + 1 + kv.2.length + 1)).sum

theorem encodePairs_length (db : List (List Nat × List Nat)) :
    (encodePairs db).length = pairsLen db := by
  induction db with
  | nil => rfl
  | cons kv db ih =>
    simp only [encodePairs, pairsLen, List.map_cons, List.flatten_cons, List.length_append,
      List.sum_cons] at ih ⊢
    rw [ih]
    simp only [nboPackUByte, nboPackString, List.length_cons, List.length_nil, List.length_take,
      List.length_append, List.length_replicate]
    omega

theorem varsStep_fold_fits (K : Consts) (db : List (List Nat × List Nat)) :
    ∀ (pvd : packVarData) (cs : List Call), pvd.len + pairsLen db ≤ K.MaxPacketLen - 4 →
      db.foldl (fun acc kv => varsStep K kv.1 kv.2 acc) (pvd, cs) =
        ({ body := pvd.body ++ encodePairs db, len := pvd.len + pairsLen db,
           count := pvd.count + db.length }, cs) := by
  induction db with
  | nil =>
    intro pvd cs _
    simp [encodePairs, pairsLen]
  | cons kv db ih =>
    intro pvd cs h
    simp only [pairsLen, List.map_cons, List.sum_cons] at h
    have hno : ¬ (kv.1.length + 1 + kv.2.length + 1 + pvd.len > K.MaxPacketLen - 4) := by
      omega
    rw [List.foldl_cons]
    have e : varsStep K kv.1 kv.2 (pvd, cs) =
        ({ body := pvd.body ++ nboPackUByte kv.1.length ++ nboPackString kv.1 kv.1.length
              ++ nboPackUByte kv.2.length ++ nboPackString kv.2 kv.2.length,
           len := pvd.len + (kv.1.length + 1 + kv.2.length + 1),
           count := pvd.count + 1 }, cs) := by
      unfold varsStep
      simp only [hno, if_false]
    rw [e, ih _ cs (by simp only [pairsLen]; omega)]
    simp only [encodePairs, pairsLen, List.map_cons, List.flatten_cons, List.sum_cons,
      List.length_cons, List.append_assoc, Prod.mk.injEq, and_true, packVarData.mk.injEq,
      true_and]
    omega

/-- The one packet of a table that fits. For every table that is not empty and
whose pairs fit in one packet, `saveVariablesState` makes one call of
`routePacket`, with code `MsgSetVar` and mode StatePacket, whose buffer holds
the count of the pairs and their bytes, and whose length argument is the
length of the bytes of the pairs alone: 2 less than the length of what the
buffer holds. -/
theorem variables_packet_length (K : Consts) (now : Int) (s : State)
    (hne : s.BZDB ≠ []) (hfit : pairsLen s.BZDB ≤ K.MaxPacketLen - 4) :
    saveVariablesState K now s =
      (routePacket K now s K.MsgSetVar (pairsLen s.BZDB)
        (nboPackUShort s.BZDB.length ++ encodePairs s.BZDB) K.StatePacket).2 ∧
    (nboPackUShort s.BZDB.length ++ encodePairs s.BZDB).length = pairsLen s.BZDB + 2 := by
  refine ⟨?_, ?_⟩
  · rw [saveVariablesState_eq]
    unfold varsCalls
    rw [varsStep_fold_fits K s.BZDB _ [] (by simpa using hfit)]
    have hpos : 0 < pairsLen s.BZDB := by
      cases hdb : s.BZDB with
      | nil => exact absurd hdb hne
      | cons kv db =>
        simp only [pairsLen, List.map_cons, List.sum_cons]
        omega
    simp only [Nat.zero_add, List.nil_append, gt_iff_lt, hpos, if_true]
    rfl
  · rw [List.length_append, encodePairs_length]
    simp only [nboPackUShort, List.length_cons, List.length_nil]
    omega

/-- The packet length at a concrete input: the one-pair table g = 1. -/
theorem variables_packet_length_witness :
    pairsLen (varSession [([103], [49])]).BZDB = 4 ∧
    saveVariablesState lp64 0 (varSession [([103], [49])]) =
      (routePacket lp64 0 (varSession [([103], [49])]) lp64.MsgSetVar
        (pairsLen (varSession [([103], [49])]).BZDB)
        (nboPackUShort (varSession [([103], [49])]).BZDB.length ++
          encodePairs (varSession [([103], [49])]).BZDB) lp64.StatePacket).2 ∧
    (nboPackUShort (varSession [([103], [49])]).BZDB.length ++
      encodePairs (varSession [([103], [49])]).BZDB).length =
        pairsLen (varSession [([103], [49])]).BZDB + 2 :=
  ⟨by decide, variables_packet_length lp64 0 (varSession [([103], [49])]) (by decide) (by decide)⟩

theorem savePacket_times (K : Consts) (s : State) (p : RRpacket) :
    (savePacket K s p).2.RecordUpdateTime = s.RecordUpdateTime ∧
    (savePacket K s p).2.RecordUpdateRate = s.RecordUpdateRate := by
  unfold savePacket
  cases s.RecordFile with
  | none => exact ⟨rfl, rfl⟩
  | some f =>
    simp only
    split
    · exact ⟨rfl, rfl⟩
    · split <;> exact ⟨rfl, rfl⟩

theorem route_times (K : Consts) (now : Int) (s : State) (c : Call) :
    (route K now s c).RecordUpdateTime = s.RecordUpdateTime ∧
    (route K now s c).RecordUpdateRate = s.RecordUpdateRate := by
  unfold route routePacket
  split
  · exact ⟨rfl, rfl⟩
  · split
    · simp only
      split <;> exact ⟨rfl, rfl⟩
    · exact savePacket_times K s _

theorem savePacket_setTime (K : Consts) (s : State) (p : RRpacket) (t : Int) :
    (savePacket K { s with RecordUpdateTime := t } p).2 =
      { (savePacket K s p).2 with RecordUpdateTime := t } := by
  unfold savePacket
  cases h : s.RecordFile with
  | none => simp only [h]
  | some f =>
    simp only [h]
    split
    · rfl
    · split <;> rfl

theorem route_setTime (K : Consts) (now : Int) (s : State) (c : Call) (t : Int) :
    route K now { s with RecordUpdateTime := t } c =
      { route K now s c with RecordUpdateTime := t } := by
  obtain ⟨f1, rmode, f3, f4, f5, f6, f7, f8, f9, f10, f11, f12, f13, f14, f15, f16, f17, f18,
    f19, f20, f21⟩ := s
  cases rmode with
  | BufferedRecord =>
    unfold route routePacket
    simp only
    split
    · rfl
    · split <;> rfl
  | StraightToFile =>
    unfold route routePacket
    simp only
    split
    · rfl
    · exact savePacket_setTime K ⟨f1, .StraightToFile, f3, f4, f5, f6, f7, f8, f9, f10, f11, f12,
        f13, f14, f15, f16, f17, f18, f19, f20, f21⟩ (initPacket c.mode c.code c.len c.data now) t

/-- The order of the calls of `Record::addPacket`, whatever the mode of recording
and the byte budget: with a snapshot due the state it leaves is that of the
calls of `routePacket` for the message and then for the snapshot when the code
is `MsgAddPlayer`, for the snapshot and then for the message otherwise, with
RecordUpdateTime set to the clock reading; with no snapshot due it is that of
the one call for the message. -/
theorem capture_call_order (K : Consts) (E : Server) (now : Int) (s : State) (code len : Nat)
    (data : List Nat) (mode : Nat) :
    (Record.addPacket K E now s code len data mode).2 =
      if now - s.RecordUpdateTime > wrapS32 s.RecordUpdateRate then
        { routeAll K now s
            (if code = K.MsgAddPlayer then
              { code := code, len := len, data := data, mode := mode } ::
                snapshotCalls K E s.player s.junk s.BZDB
            else snapshotCalls K E s.player s.junk s.BZDB ++
              [{ code := code, len := len, data := data, mode := mode }]) with
          RecordUpdateTime := now }
      else route K now s { code := code, len := len, data := data, mode := mode } := by
  have hmsg : ∀ u : State, (routePacket K now u code len data mode).2 =
      route K now u { code := code, len := len, data := data, mode := mode } := fun _ => rfl
  by_cases hc : code = K.MsgAddPlayer
  · have e : (Record.addPacket K E now s code len data mode).2 =
        if now - (routePacket K now s code len data mode).2.RecordUpdateTime >
            wrapS32 (routePacket K now s code len data mode).2.RecordUpdateRate then
          saveStates K E now (routePacket K now s code len data mode).2
        else (routePacket K now s code len data mode).2 := by
      unfold Record.addPacket
      simp only [if_pos hc]
    rw [e, hmsg s, if_pos hc]
    obtain ⟨t1, t2⟩ := route_times K now s { code := code, len := len, data := data, mode := mode }
    obtain ⟨a, b, d, _, _⟩ :=
      route_frame K now s { code := code, len := len, data := data, mode := mode }
    rw [t1, t2]
    by_cases hdue : now - s.RecordUpdateTime > wrapS32 s.RecordUpdateRate
    · rw [if_pos hdue, if_pos hdue, saveStates_eq, a, b, d, routeAll_cons]
    · rw [if_neg hdue, if_neg hdue]
  · have e : (Record.addPacket K E now s code len data mode).2 =
        (routePacket K now
          (if now - s.RecordUpdateTime > wrapS32 s.RecordUpdateRate then saveStates K E now s
           else s) code len data mode).2 := by
      unfold Record.addPacket
      simp only [if_neg hc]
    rw [e, hmsg, if_neg hc]
    by_cases hdue : now - s.RecordUpdateTime > wrapS32 s.RecordUpdateRate
    · rw [if_pos hdue, if_pos hdue, saveStates_eq, routeAll_append]
      generalize routeAll K now s (snapshotCalls K E s.player s.junk s.BZDB) = u
      exact route_setTime K now u { code := code, len := len, data := data, mode := mode } now
    · rw [if_neg hdue, if_neg hdue]

end RecordReplay
